import Mathlib

/-!
# Event-delivery pipeline of the expense tracker

A shallow embedding of the notification path of the repository:

* `services/expense-service/internal/service/event_publisher.go` (producer side),
* `services/notification-service/internal/service/sqs_consumer.go` (poller and unwrapper),
* `services/notification-service/internal/service/notification_service.go` (dispatcher),
* `services/notification-service/internal/model/event.go` (envelope).

The Go standard library pieces the code calls (`encoding/json`, `time`, `strconv`) are
modelled as executable functions over lists of characters.
-/

set_option maxRecDepth 100000

namespace Pipeline

/-! ## Characters used by the JSON text layer -/

/-- The double quote character, code point 34. -/
def dq : Char := Char.ofNat 34

/-- The reverse solidus (escape) character, code point 92. -/
def bs : Char := Char.ofNat 92

/-- JSON white space: space, tab, line feed, carriage return. -/
def isWs (c : Char) : Bool :=
  c = ' ' || c = Char.ofNat 9 || c = Char.ofNat 10 || c = Char.ofNat 13

/-- Decimal digit test. -/
def isDig (c : Char) : Bool := 48 ≤ c.toNat && c.toNat ≤ 57

/-- Hexadecimal digit test. -/
def isHex (c : Char) : Bool :=
  isDig c || (97 ≤ c.toNat && c.toNat ≤ 102) || (65 ≤ c.toNat && c.toNat ≤ 70)

/-- Value of a hexadecimal digit (0 for any other character). -/
def hexVal (c : Char) : Nat :=
  if isDig c then c.toNat - 48
  else if 97 ≤ c.toNat && c.toNat ≤ 102 then c.toNat - 87
  else if 65 ≤ c.toNat && c.toNat ≤ 70 then c.toNat - 55
  else 0

/-- Drop leading white space. -/
def skipWs : List Char → List Char
  | [] => []
  | c :: rest => if isWs c then skipWs rest else c :: rest

/-! ## JSON syntax trees

A tree keeps the raw text of every string and number token, as the decoder of
`encoding/json` does: a token is validated by the scanner and converted only when it is
stored into a Go value. -/

/-- JSON syntax tree with raw string and number tokens. -/
inductive Json where
  | null : Json
  | bool (b : Bool) : Json
  | num (raw : List Char) : Json
  | str (raw : List Char) : Json
  | arr (items : List Json) : Json
  | obj (members : List (List Char × Json)) : Json

/-- The one-character escapes allowed after a reverse solidus. -/
def isSimpleEscape (c : Char) : Bool :=
  c = dq || c = bs || c = '/' || c = 'b' || c = 'f' || c = 'n' || c = 'r' || c = 't'

/-- Four hexadecimal digits at the front of the input. -/
def hexAhead (cs : List Char) : Bool :=
  match cs with
  | h1 :: h2 :: h3 :: h4 :: _ => isHex h1 && isHex h2 && isHex h3 && isHex h4
  | _ => false

/-- Scan a string token after its opening quote: the raw text up to the closing quote
and the input after it. Control characters and malformed escapes are rejected. The first
argument counts the characters of an escape, already checked, that are still to be
copied. -/
def scanStringAux : Nat → List Char → Option (List Char × List Char)
  | _, [] => none
  | k + 1, c :: rest => (scanStringAux k rest).map (fun p => (c :: p.1, p.2))
  | 0, c :: rest =>
    if c = dq then some ([], rest)
    else if c = bs then
      if rest.head? = some 'u' then
        if hexAhead (rest.drop 1) then (scanStringAux 5 rest).map (fun p => (c :: p.1, p.2))
        else none
      else if rest.head?.map isSimpleEscape = some true then
        (scanStringAux 1 rest).map (fun p => (c :: p.1, p.2))
      else none
    else if c.toNat < 32 then none
    else (scanStringAux 0 rest).map (fun p => (c :: p.1, p.2))

/-- Scan a string token after its opening quote. -/
def scanString (cs : List Char) : Option (List Char × List Char) := scanStringAux 0 cs

/-- Take the leading decimal digits of the input. -/
def spanDigits : List Char → List Char × List Char
  | [] => ([], [])
  | c :: rest =>
    if isDig c then ((spanDigits rest).1.cons c, (spanDigits rest).2)
    else ([], c :: rest)

/-- Integer part of a number token: `0` or a non-empty digit run without a leading zero. -/
def scanInt (cs : List Char) : Option (List Char × List Char) :=
  match cs with
  | [] => none
  | c :: rest =>
    if c = '0' then some (['0'], rest)
    else if isDig c then some (c :: (spanDigits rest).1, (spanDigits rest).2)
    else none

/-- Optional fraction part of a number token. -/
def scanFrac (cs : List Char) : Option (List Char × List Char) :=
  match cs with
  | c :: rest =>
    if c = '.' then
      match spanDigits rest with
      | ([], _) => none
      | (ds, rest1) => some ('.' :: ds, rest1)
    else some ([], cs)
  | [] => some ([], [])

/-- Optional exponent part of a number token. -/
def scanExp (cs : List Char) : Option (List Char × List Char) :=
  match cs with
  | c :: rest =>
    if c = 'e' || c = 'E' then
      match rest with
      | s :: rest1 =>
        if s = '+' || s = '-' then
          match spanDigits rest1 with
          | ([], _) => none
          | (ds, rest2) => some (c :: s :: ds, rest2)
        else
          match spanDigits rest with
          | ([], _) => none
          | (ds, rest2) => some (c :: ds, rest2)
      | [] => none
    else some ([], cs)
  | [] => some ([], [])

/-- Scan a number token `-?(0|[1-9][0-9]*)(.[0-9]+)?([eE][+-]?[0-9]+)?`. -/
def scanNumber (cs : List Char) : Option (List Char × List Char) :=
  let sign : List Char × List Char :=
    match cs with
    | c :: rest => if c = '-' then (['-'], rest) else ([], cs)
    | [] => ([], [])
  match scanInt sign.2 with
  | none => none
  | some (ip, r1) =>
    match scanFrac r1 with
    | none => none
    | some (fp, r2) =>
      match scanExp r2 with
      | none => none
      | some (ep, r3) => some (sign.1 ++ ip ++ fp ++ ep, r3)

/-- Strip a fixed keyword from the front of the input. -/
def stripWord : List Char → List Char → Option (List Char)
  | [], cs => some cs
  | _ :: _, [] => none
  | w :: ws, c :: cs => if w = c then stripWord ws cs else none

mutual
/-- Parse one JSON value; the fuel bounds the number of nested calls. -/
def parseValue : Nat → List Char → Option (Json × List Char)
  | 0, _ => none
  | fuel + 1, cs =>
    match cs with
    | [] => none
    | c :: rest =>
      if c = '{' then
        match skipWs rest with
        | [] => none
        | d :: rest1 =>
          if d = '}' then some (Json.obj [], rest1)
          else (parseMembers fuel (d :: rest1)).map (fun p => (Json.obj p.1, p.2))
      else if c = '[' then
        match skipWs rest with
        | [] => none
        | d :: rest1 =>
          if d = ']' then some (Json.arr [], rest1)
          else (parseItems fuel (d :: rest1)).map (fun p => (Json.arr p.1, p.2))
      else if c = dq then
        (scanString rest).map (fun p => (Json.str p.1, p.2))
      else if c = 't' then (stripWord "rue".data rest).map (fun r => (Json.bool true, r))
      else if c = 'f' then (stripWord "alse".data rest).map (fun r => (Json.bool false, r))
      else if c = 'n' then (stripWord "ull".data rest).map (fun r => (Json.null, r))
      else (scanNumber (c :: rest)).map (fun p => (Json.num p.1, p.2))
/-- Parse the members of an object up to and including the closing brace. -/
def parseMembers : Nat → List Char → Option (List (List Char × Json) × List Char)
  | 0, _ => none
  | fuel + 1, cs =>
    match cs with
    | [] => none
    | c :: rest =>
      if c = dq then
        match scanString rest with
        | none => none
        | some (key, r1) =>
          match skipWs r1 with
          | [] => none
          | colon :: r2 =>
            if colon = ':' then
              match parseValue fuel (skipWs r2) with
              | none => none
              | some (v, r3) =>
                match skipWs r3 with
                | [] => none
                | sep :: r4 =>
                  if sep = '}' then some ([(key, v)], r4)
                  else if sep = ',' then
                    (parseMembers fuel (skipWs r4)).map (fun p => ((key, v) :: p.1, p.2))
                  else none
            else none
      else none
/-- Parse the items of an array up to and including the closing bracket. -/
def parseItems : Nat → List Char → Option (List Json × List Char)
  | 0, _ => none
  | fuel + 1, cs =>
    match parseValue fuel cs with
    | none => none
    | some (v, r1) =>
      match skipWs r1 with
      | [] => none
      | sep :: r2 =>
        if sep = ']' then some ([v], r2)
        else if sep = ',' then
          (parseItems fuel (skipWs r2)).map (fun p => (v :: p.1, p.2))
        else none
end

/-- Parse a complete JSON text: one value surrounded by optional white space. Every
nested call consumes a character at most two calls later, so twice the length of the
text is enough fuel. The library's limit on the nesting depth (10000) is not modelled. -/
def parseJson (text : List Char) : Option Json :=
  match parseValue (2 * text.length + 2) (skipWs text) with
  | none => none
  | some (v, rest) => if skipWs rest = [] then some v else none

/-! ## Strings: `unquote` of `encoding/json` -/

/-- Value of four hexadecimal digits. -/
def hex4 (a b c d : Char) : Nat :=
  ((hexVal a * 16 + hexVal b) * 16 + hexVal c) * 16 + hexVal d

/-- The replacement character U+FFFD. -/
def replacementChar : Char := Char.ofNat 65533

/-- The character named by a one-character escape. -/
def simpleEscape (e : Char) : Char :=
  if e = 'b' then Char.ofNat 8
  else if e = 'f' then Char.ofNat 12
  else if e = 'n' then Char.ofNat 10
  else if e = 'r' then Char.ofNat 13
  else if e = 't' then Char.ofNat 9
  else e

/-- Value of the four hexadecimal digits at the front of the input. -/
def hex4At (cs : List Char) : Nat :=
  match cs with
  | a :: b :: c :: d :: _ => hex4 a b c d
  | _ => 0

/-- The low half of a surrogate pair written as a `u` escape at the front of the input. -/
def lowSurrogate (cs : List Char) : Option Nat :=
  if cs.head? = some bs && (cs.drop 1).head? = some 'u' && hexAhead (cs.drop 2)
      && 56320 ≤ hex4At (cs.drop 2) && hex4At (cs.drop 2) < 57344 then
    some (hex4At (cs.drop 2))
  else none

/-- Convert the raw text of a validated string token to the characters it denotes: simple
escapes, `u` escapes, UTF-16 surrogate pairs (a lone surrogate gives U+FFFD). The first
argument counts the characters of an escape, already used, that are still to be
skipped. -/
def unquoteAux : Nat → List Char → List Char
  | _, [] => []
  | skip + 1, _ :: rest => unquoteAux skip rest
  | 0, c :: rest =>
    if c = bs then
      if rest.head? = some 'u' then
        if 55296 ≤ hex4At (rest.drop 1) && hex4At (rest.drop 1) < 57344 then
          match (if hex4At (rest.drop 1) < 56320 then lowSurrogate (rest.drop 5) else none) with
          | some r2 =>
            Char.ofNat ((hex4At (rest.drop 1) - 55296) * 1024 + (r2 - 56320) + 65536)
              :: unquoteAux 11 rest
          | none => replacementChar :: unquoteAux 5 rest
        else Char.ofNat (hex4At (rest.drop 1)) :: unquoteAux 5 rest
      else
        match rest.head? with
        | some e => simpleEscape e :: unquoteAux 1 rest
        | none => []
    else c :: unquoteAux 0 rest

/-- Characters denoted by the raw text of a string token. -/
def unquoteChars (raw : List Char) : List Char := unquoteAux 0 raw

/-- The Go string denoted by the raw text of a string token. -/
def unquote (raw : List Char) : String := String.mk (unquoteChars raw)

/-! ## Go values held in `interface{}` -/

/-- A finite binary64 value `num / 2 ^ exp`, kept with `exp = 0` or `num` odd. The sign of
zero is not kept; infinities and NaN never come out of the JSON decoder. -/
structure F64 where
  num : Int
  exp : Nat
deriving DecidableEq, Repr

/-- Dynamic Go values as they occur in `map[string]interface{}`. -/
inductive GoVal where
  | nil : GoVal
  | bool (b : Bool) : GoVal
  | int64 (i : Int) : GoVal
  | float64 (f : F64) : GoVal
  | str (s : String) : GoVal
  | slice (items : List GoVal) : GoVal
  | map (entries : List (String × GoVal)) : GoVal

/-- Go maps with string keys, kept as association lists sorted by key without duplicates
(the order in which `encoding/json` writes a map). -/
abbrev GoMap := List (String × GoVal)

/-- Map lookup `m[k]`. -/
def GoMap.get : GoMap → String → Option GoVal
  | [], _ => none
  | (k1, v) :: rest, k => if k = k1 then some v else GoMap.get rest k

/-- Map assignment `m[k] = v`. -/
def GoMap.set : GoMap → String → GoVal → GoMap
  | [], k, v => [(k, v)]
  | (k1, v1) :: rest, k, v =>
    if k.data < k1.data then (k, v) :: (k1, v1) :: rest
    else if k = k1 then (k, v) :: rest
    else (k1, v1) :: GoMap.set rest k v

/-! ## Numbers: `strconv.ParseFloat` on a number token -/

/-- Number of binary digits of `n`. -/
def bitLen : Nat → Nat → Nat
  | 0, _ => 0
  | fuel + 1, n => if n = 0 then 0 else bitLen fuel (n / 2) + 1

/-- Remove common factors of two from `m / 2 ^ e`. -/
def normDyadic : Nat → Nat → Nat × Nat
  | m, 0 => (m, 0)
  | m, e + 1 => if m % 2 = 0 then normDyadic (m / 2) e else (m, e + 1)

/-- Round the rational `p / q` (with `0 < q`) to the nearest binary64 value, ties to
even, with gradual underflow; the result is `m / 2 ^ e`. Values that round beyond the
largest finite binary64 give `none`. -/
def roundBinary64 (p q : Nat) : Option (Nat × Nat) :=
  if p = 0 then some (0, 0)
  else
    let a : Int := bitLen p p
    let b : Int := bitLen q q
    -- floor (log2 (p / q)) is a - b or a - b - 1
    let hi : Bool := if b ≤ a then q * 2 ^ (a - b).toNat ≤ p else q ≤ p * 2 ^ (b - a).toNat
    let k : Int := if hi then a - b else a - b - 1
    let u : Int := max (k - 52) (-1074)
    let n : Nat := if 0 ≤ u then p else p * 2 ^ (-u).toNat
    let d : Nat := if 0 ≤ u then q * 2 ^ u.toNat else q
    let r : Nat := n / d
    let rem : Nat := n % d
    let r1 : Nat := if d < 2 * rem || (2 * rem = d && r % 2 = 1) then r + 1 else r
    if 0 ≤ u then
      -- r1 * 2 ^ u reaches 2 ^ 1024 exactly when it has more than 1024 binary digits
      if 1025 ≤ bitLen r1 r1 + u.toNat then none else some (r1 * 2 ^ u.toNat, 0)
    else some (normDyadic r1 (-u).toNat)

/-- Decimal value of a run of digits. -/
def natOfDigits (ds : List Char) : Nat :=
  ds.foldl (fun acc c => 10 * acc + (c.toNat - 48)) 0

/-- Convert the raw text of a validated number token to binary64, as the decoder does
when it stores a number into an `interface{}`; `none` when the value is out of range. -/
def parseFloat (raw : List Char) : Option F64 :=
  let neg : Bool := raw.head? = some '-'
  let body : List Char := if neg then raw.drop 1 else raw
  let ip := (spanDigits body).1
  let r1 := (spanDigits body).2
  let fp : List Char := if r1.head? = some '.' then (spanDigits (r1.drop 1)).1 else []
  let r2 : List Char := if r1.head? = some '.' then (spanDigits (r1.drop 1)).2 else r1
  let hasExp : Bool := r2.head? = some 'e' || r2.head? = some 'E'
  let r3 : List Char := r2.drop 1
  let expNeg : Bool := hasExp && r3.head? = some '-'
  let expDigits : List Char :=
    if r3.head? = some '-' || r3.head? = some '+' then r3.drop 1 else r3
  let ex : Nat := if hasExp then natOfDigits expDigits else 0
  let mant : Nat := natOfDigits (ip ++ fp)
  -- value = mant * 10 ^ (± ex - |fp|)
  let up : Nat := if expNeg then 0 else ex - fp.length
  let down : Nat := if expNeg then ex + fp.length else fp.length - ex
  match roundBinary64 (mant * 10 ^ up) (10 ^ down) with
  | none => none
  | some (m, e) => some ⟨if neg then - (m : Int) else m, e⟩

/-! ## Timestamps: `time.Time` and its JSON methods

A `time.Time` is modelled by what its RFC 3339 rendering carries: the wall clock fields
and the zone offset in minutes. The monotonic reading and the name of the location are
not modelled. -/

/-- A point in time with its zone offset (minutes east of UTC). -/
structure Time where
  year : Nat
  month : Nat
  day : Nat
  hour : Nat
  minute : Nat
  second : Nat
  nsec : Nat
  offset : Int
deriving DecidableEq, Repr

/-- The zero value of `time.Time`: January 1, year 1, 00:00:00 UTC. -/
def Time.zero : Time := ⟨1, 1, 1, 0, 0, 0, 0, 0⟩

/-- Leap year test of the proleptic Gregorian calendar. -/
def isLeap (y : Nat) : Bool := y % 4 = 0 && (y % 100 != 0 || y % 400 = 0)

/-- Number of days of a month. -/
def daysIn (m y : Nat) : Nat :=
  if m = 2 then (if isLeap y then 29 else 28)
  else if m = 4 || m = 6 || m = 9 || m = 11 then 30
  else 31

/-- The calendar ranges every `time.Time` satisfies, together with the two tests
`MarshalJSON` makes: a year of at most four digits and a zone offset below 24 hours. -/
def Time.valid (t : Time) : Bool :=
  t.year ≤ 9999 && 1 ≤ t.month && t.month ≤ 12 && 1 ≤ t.day && t.day ≤ daysIn t.month t.year
    && t.hour ≤ 23 && t.minute ≤ 59 && t.second ≤ 59 && t.nsec < 1000000000
    && -1440 < t.offset && t.offset < 1440

/-- The decimal digit character of `d`. -/
def digitChar (d : Nat) : Char := Char.ofNat (48 + d % 10)

/-- Two decimal digits. -/
def pad2 (n : Nat) : List Char := [digitChar (n / 10), digitChar n]

/-- Four decimal digits. -/
def pad4 (n : Nat) : List Char :=
  [digitChar (n / 1000), digitChar (n / 100), digitChar (n / 10), digitChar n]

/-- Nine decimal digits. -/
def pad9 (n : Nat) : List Char :=
  [digitChar (n / 100000000), digitChar (n / 10000000), digitChar (n / 1000000),
   digitChar (n / 100000), digitChar (n / 10000), digitChar (n / 1000),
   digitChar (n / 100), digitChar (n / 10), digitChar n]

/-- Remove trailing zero digits. -/
def trimZeros (ds : List Char) : List Char :=
  (ds.reverse.dropWhile (fun c => c = '0')).reverse

/-- Fractional seconds of the layout `RFC3339Nano`: nothing for a whole second, else a
point and the nanoseconds without trailing zeros. -/
def formatFrac (nsec : Nat) : List Char :=
  if nsec = 0 then [] else '.' :: trimZeros (pad9 nsec)

/-- Zone of the layout `Z07:00`. -/
def formatZone (offset : Int) : List Char :=
  if offset = 0 then ['Z']
  else
    (if offset < 0 then '-' else '+') ::
      (pad2 (offset.natAbs / 60) ++ ':' :: pad2 (offset.natAbs % 60))

/-- Text of `Time.MarshalJSON` between the quotes, `none` where it reports an error. -/
def formatTime (t : Time) : Option (List Char) :=
  if t.valid then
    some (pad4 t.year ++ '-' :: pad2 t.month ++ '-' :: pad2 t.day ++ 'T' :: pad2 t.hour
      ++ ':' :: pad2 t.minute ++ ':' :: pad2 t.second ++ formatFrac t.nsec
      ++ formatZone t.offset)
  else none

/-- Parse an unsigned decimal field and check its range. -/
def parseUint (ds : List Char) (lo hi : Nat) : Option Nat :=
  if ds.all isDig && lo ≤ natOfDigits ds && natOfDigits ds ≤ hi then some (natOfDigits ds)
  else none

/-- Zone of an RFC 3339 timestamp: `Z` or a signed `hh:mm`. -/
def parseZone (s : List Char) : Option Int :=
  match s with
  | [z] => if z = 'Z' then some 0 else none
  | [sg, h1, h2, c, m1, m2] =>
    match parseUint [h1, h2] 0 23, parseUint [m1, m2] 0 59 with
    | some hr, some mm =>
      if (sg = '-' || sg = '+') && c = ':' then
        some (if sg = '-' then - ((hr * 60 + mm : Nat) : Int) else ((hr * 60 + mm : Nat) : Int))
      else none
    | _, _ => none
  | _ => none

/-- Fractional seconds and zone of an RFC 3339 timestamp. -/
def parseFracZone (s : List Char) : Option (Nat × Int) :=
  match s with
  | c :: d :: rest =>
    if c = '.' && isDig d then
      let ds := (spanDigits (d :: rest)).1
      (parseZone (spanDigits (d :: rest)).2).map
        (fun z => (natOfDigits (ds.take 9) * 10 ^ (9 - (ds.take 9).length), z))
    else (parseZone s).map (fun z => (0, z))
  | _ => (parseZone s).map (fun z => (0, z))

/-- The strict RFC 3339 parser behind `Time.UnmarshalJSON`, applied to the raw text
between the quotes. Timestamps outside the strict grammar, which the library would hand
to its general layout parser, are rejected here. -/
def parseRFC3339 (s : List Char) : Option Time :=
  match s with
  | y1 :: y2 :: y3 :: y4 :: c1 :: m1 :: m2 :: c2 :: d1 :: d2 :: ct :: h1 :: h2 :: c3
      :: n1 :: n2 :: c4 :: s1 :: s2 :: rest =>
    match parseUint [y1, y2, y3, y4] 0 9999, parseUint [m1, m2] 1 12 with
    | some year, some month =>
      match parseUint [d1, d2] 1 (daysIn month year), parseUint [h1, h2] 0 23,
          parseUint [n1, n2] 0 59, parseUint [s1, s2] 0 59 with
      | some day, some hour, some minute, some second =>
        if c1 = '-' && c2 = '-' && ct = 'T' && c3 = ':' && c4 = ':' then
          (parseFracZone rest).map
            (fun fz => ⟨year, month, day, hour, minute, second, fz.1, fz.2⟩)
        else none
      | _, _, _, _ => none
    | _, _ => none
  | _ => none

/-! ## Decoding into Go values: `json.Unmarshal` -/

/-- Case folding of `encoding/json` for object keys: ASCII letters fold to upper case, and
the two non-ASCII characters that fold to ASCII letters (Kelvin sign, long s) with them. -/
def foldChar (c : Char) : Char :=
  if 97 ≤ c.toNat && c.toNat ≤ 122 then Char.ofNat (c.toNat - 32)
  else if c.toNat = 8490 then 'K'
  else if c.toNat = 383 then 'S'
  else c

/-- Folded form of a name. -/
def foldName (s : String) : List Char := s.data.map foldChar

/-- The struct field an object key selects: an exact match first, else the first field
equal to the key under case folding. -/
def findField (names : List String) (key : String) : Option String :=
  match names.find? (fun n => n = key) with
  | some n => some n
  | none => names.find? (fun n => foldName n = foldName key)

mutual
/-- Decode a JSON value into an `interface{}`: numbers become `float64`, objects become
maps in which a repeated key keeps its last value. `none` when a number is out of range. -/
def jsonToGo : Json → Option GoVal
  | Json.null => some GoVal.nil
  | Json.bool b => some (GoVal.bool b)
  | Json.num raw => (parseFloat raw).map GoVal.float64
  | Json.str raw => some (GoVal.str (unquote raw))
  | Json.arr items => (jsonListToGo items).map GoVal.slice
  | Json.obj members => (jsonMembersToGo members []).map GoVal.map
/-- Decode the items of an array. -/
def jsonListToGo : List Json → Option (List GoVal)
  | [] => some []
  | j :: rest =>
    match jsonToGo j, jsonListToGo rest with
    | some v, some vs => some (v :: vs)
    | _, _ => none
/-- Store the members of an object into a map, in the order of the text. -/
def jsonMembersToGo : List (List Char × Json) → GoMap → Option GoMap
  | [], m => some m
  | (k, j) :: rest, m =>
    match jsonToGo j with
    | some v => jsonMembersToGo rest (GoMap.set m (unquote k) v)
    | none => none
end

/-- The anonymous struct `snsEnvelope` of `processMessage`. -/
structure SNSEnvelope where
  Type_ : String
  MessageId : String
  TopicArn : String
  Message : String
  Timestamp : String
  SignatureVersion : String
  Signature : String
  SigningCertURL : String
  UnsubscribeURL : String
deriving DecidableEq, Repr

/-- Zero value of `snsEnvelope`. -/
def SNSEnvelope.zero : SNSEnvelope := ⟨"", "", "", "", "", "", "", "", ""⟩

/-- JSON names of the fields of `snsEnvelope`, in declaration order. -/
def snsFieldNames : List String :=
  ["Type", "MessageId", "TopicArn", "Message", "Timestamp", "SignatureVersion",
   "Signature", "SigningCertURL", "UnsubscribeURL"]

/-- Assign a field of `snsEnvelope` by its JSON name. -/
def SNSEnvelope.setField (e : SNSEnvelope) (name val : String) : SNSEnvelope :=
  if name = "Type" then { e with Type_ := val }
  else if name = "MessageId" then { e with MessageId := val }
  else if name = "TopicArn" then { e with TopicArn := val }
  else if name = "Message" then { e with Message := val }
  else if name = "Timestamp" then { e with Timestamp := val }
  else if name = "SignatureVersion" then { e with SignatureVersion := val }
  else if name = "Signature" then { e with Signature := val }
  else if name = "SigningCertURL" then { e with SigningCertURL := val }
  else if name = "UnsubscribeURL" then { e with UnsubscribeURL := val }
  else e

/-- Store the members of an object into `snsEnvelope`: an unknown key is skipped, `null`
leaves a field as it is, a string is stored, any other value is a type error. -/
def decodeSNSMembers : List (List Char × Json) → SNSEnvelope → Option SNSEnvelope
  | [], e => some e
  | (k, j) :: rest, e =>
    match findField snsFieldNames (unquote k) with
    | none => decodeSNSMembers rest e
    | some name =>
      match j with
      | Json.str raw => decodeSNSMembers rest (e.setField name (unquote raw))
      | Json.null => decodeSNSMembers rest e
      | _ => none

/-- Decode a JSON value into a fresh `snsEnvelope`. -/
def decodeSNS : Json → Option SNSEnvelope
  | Json.null => some SNSEnvelope.zero
  | Json.obj members => decodeSNSMembers members SNSEnvelope.zero
  | _ => none

/-- Event of `notification-service/internal/model/event.go`. A nil `Data` map is `none`. -/
structure Event where
  EventType : String
  UserID : String
  UserEmail : String
  Timestamp : Time
  Data : Option GoMap

/-- Zero value of `Event`. -/
def Event.zero : Event := ⟨"", "", "", Time.zero, none⟩

/-- JSON names of the fields of `Event`, in declaration order. -/
def eventFieldNames : List String :=
  ["event_type", "user_id", "user_email", "timestamp", "data"]

/-- Store one member into an `Event`. The timestamp goes through `Time.UnmarshalJSON`
(raw token text, `null` ignored); the payload object is stored into the map already
there, and `null` makes the map nil. -/
def decodeEventField (e : Event) (name : String) (j : Json) : Option Event :=
  if name = "timestamp" then
    match j with
    | Json.null => some e
    | Json.str raw => (parseRFC3339 raw).map (fun t => { e with Timestamp := t })
    | _ => none
  else if name = "data" then
    match j with
    | Json.null => some { e with Data := none }
    | Json.obj members =>
      (jsonMembersToGo members (e.Data.getD [])).map (fun m => { e with Data := some m })
    | _ => none
  else
    match j with
    | Json.null => some e
    | Json.str raw =>
      if name = "event_type" then some { e with EventType := unquote raw }
      else if name = "user_id" then some { e with UserID := unquote raw }
      else if name = "user_email" then some { e with UserEmail := unquote raw }
      else some e
    | _ => none

/-- Store the members of an object into an `Event`. -/
def decodeEventMembers : List (List Char × Json) → Event → Option Event
  | [], e => some e
  | (k, j) :: rest, e =>
    match findField eventFieldNames (unquote k) with
    | none => decodeEventMembers rest e
    | some name =>
      match decodeEventField e name j with
      | some e1 => decodeEventMembers rest e1
      | none => none

/-- Decode a JSON value into a fresh `Event`. -/
def decodeEvent : Json → Option Event
  | Json.null => some Event.zero
  | Json.obj members => decodeEventMembers members Event.zero
  | _ => none

/-- Model of `json.Unmarshal(text, &snsEnvelope)`; `none` is a non-nil error. -/
def unmarshalSNS (text : String) : Option SNSEnvelope :=
  (parseJson text.data).bind decodeSNS

/-- Model of `json.Unmarshal(text, &event)`; `none` is a non-nil error. -/
def unmarshalEvent (text : String) : Option Event :=
  (parseJson text.data).bind decodeEvent

/-! ## The consumer: `sqs_consumer.go`

External collaborators (the handler, the SQS client, the context, the clock) act on a
world state `σ`; every call the consumer makes to them is recorded in a trace. Logging is
left out. -/

/-- The two fields of `types.Message` the consumer reads; both are pointers in Go. -/
structure Message where
  Body : Option String
  ReceiptHandle : Option String

/-- Calls made by the consumer, in program order. -/
inductive Call where
  | receive (queueURL : String) (maxMessages waitSeconds visibilityTimeout : Nat) : Call
  | sleep (seconds : Nat) : Call
  | handler (event : Event) : Call
  | deleteMessage (queueURL : String) (receiptHandle : Option String) : Call

/-- The type `MessageHandler`: the returned error is `none` for nil. -/
abbrev MessageHandler (σ : Type) := Event → σ → Option String × σ

/-- The four error returns of `processMessage`. -/
inductive ProcessError where
  | parseSNSEnvelope : ProcessError
  | parseEventMessage : ProcessError
  | parseEvent : ProcessError
  | handlerError (msg : String) : ProcessError
deriving DecidableEq, Repr

/-- How a call of `processMessage` ends: it returns nil, returns an error, or panics on
the nil pointer dereference `*message.Body`. -/
inductive Outcome where
  | ok : Outcome
  | error (e : ProcessError) : Outcome
  | panic : Outcome
deriving DecidableEq, Repr

/-- Result of a call together with the new world state and the calls made. -/
structure Ran (σ : Type) (α : Type) where
  val : α
  state : σ
  calls : List Call

/-- Run the handler on an event and wrap its error, as both branches of
`processMessage` do. -/
def callHandler {σ : Type} (handler : MessageHandler σ) (event : Event) (s : σ) :
    Ran σ Outcome :=
  match handler event s with
  | (some msg, s1) => ⟨Outcome.error (ProcessError.handlerError msg), s1, [Call.handler event]⟩
  | (none, s1) => ⟨Outcome.ok, s1, [Call.handler event]⟩

/-- Model of `SQSConsumer.processMessage` (the queue URL argument is not used by the
body). -/
def processMessage {σ : Type} (message : Message) (handler : MessageHandler σ) (s : σ) :
    Ran σ Outcome :=
  match message.Body with
  | none => ⟨Outcome.panic, s, []⟩
  | some body =>
    match unmarshalSNS body with
    | none => ⟨Outcome.error ProcessError.parseSNSEnvelope, s, []⟩
    | some snsEnvelope =>
      if snsEnvelope.Type_ = "Notification" then
        match unmarshalEvent snsEnvelope.Message with
        | none => ⟨Outcome.error ProcessError.parseEventMessage, s, []⟩
        | some event => callHandler handler event s
      else
        match unmarshalEvent body with
        | none => ⟨Outcome.error ProcessError.parseEvent, s, []⟩
        | some event => callHandler handler event s

/-- The collaborators of `ConsumeMessages`: the SQS client, the context and the clock. -/
structure Broker (σ : Type) where
  ReceiveMessage : String → σ → Option (List Message) × σ
  DeleteMessage : String → Option String → σ → Option String × σ
  ctxErr : σ → Option String
  sleep : Nat → σ → σ

/-- The body of the `for _, message := range result.Messages` loop: `processMessage`,
and `DeleteMessage` when it returned nil (a failed delete is only logged). -/
def loopBody {σ : Type} (b : Broker σ) (queueURL : String) (handler : MessageHandler σ)
    (message : Message) (s : σ) : Ran σ Outcome :=
  let r := processMessage message handler s
  match r.val with
  | Outcome.ok =>
    ⟨Outcome.ok, (b.DeleteMessage queueURL message.ReceiptHandle r.state).2,
      r.calls ++ [Call.deleteMessage queueURL message.ReceiptHandle]⟩
  | other => ⟨other, r.state, r.calls⟩

/-- The inner loop of `ConsumeMessages` over the messages of one batch. The value lists
how `processMessage` ended for each message processed; a panic ends the loop. -/
def processBatch {σ : Type} (b : Broker σ) (queueURL : String) (handler : MessageHandler σ) :
    List Message → σ → Ran σ (List Outcome)
  | [], s => ⟨[], s, []⟩
  | message :: rest, s =>
    let r := loopBody b queueURL handler message s
    match r.val with
    | Outcome.panic => ⟨[Outcome.panic], r.state, r.calls⟩
    | other =>
      let t := processBatch b queueURL handler rest r.state
      ⟨other :: t.val, t.state, r.calls ++ t.calls⟩

/-- How `ConsumeMessages` ends. -/
inductive LoopEnd where
  | returned (err : String) : LoopEnd
  | panicked : LoopEnd
deriving DecidableEq, Repr

/-- Model of `SQSConsumer.ConsumeMessages`, run for at most `fuel` iterations of the
polling loop; the value is `none` while the loop is still running. -/
def ConsumeMessages {σ : Type} (b : Broker σ) (queueURL : String)
    (handler : MessageHandler σ) : Nat → σ → Ran σ (Option LoopEnd)
  | 0, s => ⟨none, s, []⟩
  | fuel + 1, s =>
    match b.ctxErr s with
    | some err => ⟨some (LoopEnd.returned err), s, []⟩
    | none =>
      match b.ReceiveMessage queueURL s with
      | (none, s1) =>
        let t := ConsumeMessages b queueURL handler fuel (b.sleep 5 s1)
        ⟨t.val, t.state, Call.receive queueURL 10 20 30 :: Call.sleep 5 :: t.calls⟩
      | (some messages, s1) =>
        let r := processBatch b queueURL handler messages s1
        if Outcome.panic ∈ r.val then
          ⟨some LoopEnd.panicked, r.state, Call.receive queueURL 10 20 30 :: r.calls⟩
        else
          let t := ConsumeMessages b queueURL handler fuel r.state
          ⟨t.val, t.state, Call.receive queueURL 10 20 30 :: (r.calls ++ t.calls)⟩

/-! ## The dispatcher: `notification_service.go` -/

/-- Notification of `model/notification.go`. -/
structure Notification where
  To : String
  Subject : String
  Body : String
deriving DecidableEq, Repr

/-- The event type constants of `model/event.go`. -/
def EventTypeExpenseCreated : String := "expense.created"
/-- See `EventTypeExpenseCreated`. -/
def EventTypeExpenseUpdated : String := "expense.updated"
/-- See `EventTypeExpenseCreated`. -/
def EventTypeReceiptUploaded : String := "receipt.uploaded"
/-- See `EventTypeExpenseCreated`. -/
def EventTypeReceiptLinked : String := "receipt.linked"
/-- See `EventTypeExpenseCreated`. -/
def EventTypeUserRegistered : String := "user.registered"

/-- A parsed template: what `Execute` writes for a data value, or its error. -/
abbrev Template := GoMap → Except String String

/-- TemplateService of `template_service.go`. -/
structure TemplateService where
  templates : List (String × Template)

/-- Model of `TemplateService.Render`. -/
def TemplateService.Render (ts : TemplateService) (templateName : String) (data : GoMap) :
    Except String String :=
  match ts.templates.lookup templateName with
  | none => Except.error ("template " ++ templateName ++ " not found")
  | some tmpl =>
    match tmpl data with
    | Except.error e => Except.error ("failed to render template: " ++ e)
    | Except.ok out => Except.ok out

/-- Input of the SNS `Publish` call made by `SendEmail`. -/
structure PublishInput where
  TopicArn : String
  Subject : String
  Message : String
deriving DecidableEq, Repr

/-- SNSPublisher of `sns_publisher.go`; `Publish` is the call on the SNS client. -/
structure SNSPublisher (σ : Type) where
  topicARN : String
  Publish : PublishInput → σ → Option String × σ

/-- Model of `SNSPublisher.SendEmail`. -/
def SNSPublisher.SendEmail {σ : Type} (p : SNSPublisher σ) (notification : Notification)
    (s : σ) : Option String × σ :=
  match p.Publish ⟨p.topicARN, notification.Subject, notification.Body⟩ s with
  | (some e, s1) => (some ("failed to publish email notification: " ++ e), s1)
  | (none, s1) => (none, s1)

/-- NotificationService of `notification_service.go`. -/
structure NotificationService (σ : Type) where
  snsPublisher : SNSPublisher σ
  templateService : TemplateService

/-- Payload lookup `event.Data[key]`; a nil map has no entries. -/
def Event.get (event : Event) (key : String) : Option GoVal :=
  match event.Data with
  | none => none
  | some m => m.get key

/-- The type assertion `.(string)` on a looked-up value. -/
def asString : Option GoVal → Option String
  | some (GoVal.str s) => some s
  | _ => none

/-- The type assertion `.(float64)` on a looked-up value. -/
def asFloat64 : Option GoVal → Option F64
  | some (GoVal.float64 f) => some f
  | _ => none

/-- The conversion `int64(f)`: truncation toward zero; a value outside the range of
`int64` gives the smallest `int64`, as on amd64. -/
def F64.toInt64 (f : F64) : Int :=
  if -9223372036854775808 ≤ Int.tdiv f.num (2 ^ f.exp)
      ∧ Int.tdiv f.num (2 ^ f.exp) < 9223372036854775808 then
    Int.tdiv f.num (2 ^ f.exp)
  else -9223372036854775808

/-- Decimal digits of a natural number, most significant first. -/
def decDigits : Nat → Nat → List Char
  | 0, _ => []
  | fuel + 1, n => if n < 10 then [digitChar n] else decDigits fuel (n / 10) ++ [digitChar n]

/-- Decimal rendering of a natural number. -/
def decimal (n : Nat) : List Char := decDigits (n + 1) n

/-- Decimal rendering of an integer. -/
def intDecimal (i : Int) : List Char :=
  if i < 0 then '-' :: decimal i.natAbs else decimal i.natAbs

/-- The verb `%s` of `fmt.Sprintf` on `data[key]`. In the builders the operand is a
string or a missing entry, and only these two cases are modelled: a missing entry is the
nil interface, which `fmt` writes as `%!s(<nil>)`. -/
def fmtS : Option GoVal → String
  | some (GoVal.str s) => s
  | _ => "%!s(<nil>)"

/-- The verb `%d` of `fmt.Sprintf` on `data[key]`, for an `int64` or a missing entry. -/
def fmtD : Option GoVal → String
  | some (GoVal.int64 i) => String.mk (intDecimal i)
  | _ => "%!d(<nil>)"

/-- The statement `if v, ok := event.Data[src].(string); ok { data[dst] = v }`. -/
def copyString (event : Event) (src dst : String) (data : GoMap) : GoMap :=
  match asString (event.get src) with
  | some v => data.set dst (GoVal.str v)
  | none => data

/-- Model of `buildExpenseCreatedData`. -/
def buildExpenseCreatedData (event : Event) : GoMap :=
  let data : GoMap := []
  let data := copyString event "expense_id" "ExpenseID" data
  let data := copyString event "amount" "Amount" data
  let data := copyString event "description" "Description" data
  let data := copyString event "category" "Category" data
  let data := copyString event "expense_date" "ExpenseDate" data
  let data := data.set "UserEmail" (GoVal.str event.UserEmail)
  data.set "Content" (GoVal.str (
    "<h2>New Expense Added</h2><p>You\x27ve added a new expense:</p><ul><li><strong>Amount:</strong> $"
      ++ fmtS (data.get "Amount") ++ "</li><li><strong>Description:</strong> "
      ++ fmtS (data.get "Description") ++ "</li><li><strong>Category:</strong> "
      ++ fmtS (data.get "Category") ++ "</li><li><strong>Date:</strong> "
      ++ fmtS (data.get "ExpenseDate") ++ "</li></ul>"))

/-- Model of `buildExpenseUpdatedData`. -/
def buildExpenseUpdatedData (event : Event) : GoMap :=
  let data : GoMap := []
  let data := copyString event "expense_id" "ExpenseID" data
  let data := copyString event "amount" "Amount" data
  let data := copyString event "description" "Description" data
  let data := copyString event "category" "Category" data
  let data := copyString event "expense_date" "ExpenseDate" data
  let data := data.set "UserEmail" (GoVal.str event.UserEmail)
  data.set "Content" (GoVal.str (
    "<h2>Expense Updated</h2><p>Your expense has been updated:</p><ul><li><strong>Amount:</strong> $"
      ++ fmtS (data.get "Amount") ++ "</li><li><strong>Description:</strong> "
      ++ fmtS (data.get "Description") ++ "</li><li><strong>Category:</strong> "
      ++ fmtS (data.get "Category") ++ "</li><li><strong>Date:</strong> "
      ++ fmtS (data.get "ExpenseDate") ++ "</li></ul>"))

/-- Model of `buildReceiptUploadedData`. -/
def buildReceiptUploadedData (event : Event) : GoMap :=
  let data : GoMap := []
  let data := copyString event "receipt_id" "ReceiptID" data
  let data := copyString event "file_name" "FileName" data
  let data :=
    match asFloat64 (event.get "file_size") with
    | some fileSize => data.set "FileSize" (GoVal.int64 fileSize.toInt64)
    | none => data
  let data := copyString event "mime_type" "MimeType" data
  let data := copyString event "expense_id" "ExpenseID" data
  let data := data.set "UserEmail" (GoVal.str event.UserEmail)
  let expenseInfo : String :=
    match asString (data.get "ExpenseID") with
    | some expenseID =>
      if expenseID ≠ "" then "<li><strong>Linked to Expense:</strong> " ++ expenseID ++ "</li>"
      else ""
    | none => ""
  data.set "Content" (GoVal.str (
    "<h2>Receipt Uploaded</h2><p>You\x27ve uploaded a new receipt:</p><ul><li><strong>File Name:</strong> "
      ++ fmtS (data.get "FileName") ++ "</li><li><strong>File Size:</strong> "
      ++ fmtD (data.get "FileSize") ++ " bytes</li><li><strong>Type:</strong> "
      ++ fmtS (data.get "MimeType") ++ "</li>" ++ expenseInfo ++ "</ul>"))

/-- Model of `buildReceiptLinkedData`. -/
def buildReceiptLinkedData (event : Event) : GoMap :=
  let data : GoMap := []
  let data := copyString event "receipt_id" "ReceiptID" data
  let data := copyString event "expense_id" "ExpenseID" data
  let data := copyString event "file_name" "FileName" data
  let data := data.set "UserEmail" (GoVal.str event.UserEmail)
  data.set "Content" (GoVal.str (
    "<h2>Receipt Linked to Expense</h2><p>Your receipt has been linked to an expense:</p><ul><li><strong>Receipt:</strong> "
      ++ fmtS (data.get "FileName") ++ "</li><li><strong>Expense ID:</strong> "
      ++ fmtS (data.get "ExpenseID") ++ "</li></ul>"))

/-- Model of `buildUserRegisteredData`. -/
def buildUserRegisteredData (event : Event) : GoMap :=
  let data : GoMap := []
  let data := copyString event "user_id" "UserID" data
  let data := copyString event "email" "Email" data
  let data := copyString event "name" "Name" data
  let data := data.set "UserEmail" (GoVal.str event.UserEmail)
  data.set "Content" (GoVal.str (
    "<h2>Welcome to Expense Tracker!</h2><p>Hi " ++ fmtS (data.get "Name")
      ++ ",</p><p>Thank you for registering with Expense Tracker. You can now start tracking your expenses and receipts.</p><p>Get started by creating your first expense!</p>"))

/-- The `switch` of `ProcessEvent`: template name, subject and template data of an event
type, `none` for the `default` branch. -/
def selectTemplate (event : Event) : Option (String × String × GoMap) :=
  if event.EventType = EventTypeExpenseCreated then
    some ("expense_created", "New Expense Added", buildExpenseCreatedData event)
  else if event.EventType = EventTypeExpenseUpdated then
    some ("expense_updated", "Expense Updated", buildExpenseUpdatedData event)
  else if event.EventType = EventTypeReceiptUploaded then
    some ("receipt_uploaded", "Receipt Uploaded", buildReceiptUploadedData event)
  else if event.EventType = EventTypeReceiptLinked then
    some ("receipt_linked", "Receipt Linked to Expense", buildReceiptLinkedData event)
  else if event.EventType = EventTypeUserRegistered then
    some ("user_registered", "Welcome to Expense Tracker!", buildUserRegisteredData event)
  else none

/-- Calls made by the dispatcher to its two collaborators, in program order. -/
inductive DispatchCall where
  | render (templateName : String) (data : GoMap) : DispatchCall
  | sendEmail (notification : Notification) : DispatchCall

/-- Result of `ProcessEvent`: the returned error (`none` for nil), the new world state and
the collaborator calls made. -/
structure Dispatched (σ : Type) where
  err : Option String
  state : σ
  calls : List DispatchCall

/-- Model of `NotificationService.ProcessEvent`. -/
def ProcessEvent {σ : Type} (svc : NotificationService σ) (event : Event) (s : σ) :
    Dispatched σ :=
  match selectTemplate event with
  | none => ⟨some ("unknown event type: " ++ event.EventType), s, []⟩
  | some (templateName, subject, templateData) =>
    match svc.templateService.Render templateName templateData with
    | Except.error e =>
      ⟨some ("failed to render template: " ++ e), s,
        [DispatchCall.render templateName templateData]⟩
    | Except.ok body =>
      let notification : Notification := ⟨event.UserEmail, subject, body⟩
      match svc.snsPublisher.SendEmail notification s with
      | (some e, s1) =>
        ⟨some ("failed to send email: " ++ e), s1,
          [DispatchCall.render templateName templateData,
           DispatchCall.sendEmail notification]⟩
      | (none, s1) =>
        ⟨none, s1,
          [DispatchCall.render templateName templateData,
           DispatchCall.sendEmail notification]⟩

/-- The handler `main` passes to `ConsumeMessages`: `ProcessEvent` of the service. -/
def dispatchHandler {σ : Type} (svc : NotificationService σ) : MessageHandler σ :=
  fun event s => ((ProcessEvent svc event s).err, (ProcessEvent svc event s).state)

/-! ## The producer: `json.Marshal` of an event in `event_publisher.go`

The `Event` struct of the producing services has the fields and JSON tags of the
consumer's `model.Event`, so one structure serves both. -/

/-- A lower-case hexadecimal digit. -/
def hexDigit (n : Nat) : Char :=
  if n % 16 < 10 then Char.ofNat (48 + n % 16) else Char.ofNat (87 + n % 16)

/-- Text written by the encoder for one character of a string, with HTML escaping on:
quote and reverse solidus get a reverse solidus, line feed, carriage return and tab their
letter, other control characters and `<`, `>`, `&` a `u00` escape, U+2028 and U+2029 a
`u202` escape. (Backspace and form feed are written as `u00` escapes, as before Go 1.22;
the decoder reads either form.) -/
def escapeChar (c : Char) : List Char :=
  if c = dq then [bs, dq]
  else if c = bs then [bs, bs]
  else if c.toNat = 10 then [bs, 'n']
  else if c.toNat = 13 then [bs, 'r']
  else if c.toNat = 9 then [bs, 't']
  else if c.toNat < 32 || c = '<' || c = '>' || c = '&' then
    [bs, 'u', '0', '0', hexDigit (c.toNat / 16), hexDigit c.toNat]
  else if c.toNat = 8232 || c.toNat = 8233 then [bs, 'u', '2', '0', '2', hexDigit c.toNat]
  else [c]

/-- Escaped text of a run of characters. -/
def escapeChars : List Char → List Char
  | [] => []
  | c :: rest => escapeChar c ++ escapeChars rest

/-- A string token. -/
def encodeString (s : String) : List Char := dq :: (escapeChars s.data ++ [dq])

mutual
/-- Text written by `json.Marshal` for a value held in an `interface{}`. The formatting of
`float64` is not modelled (the producers of this repository store strings and `int64`
only); it is reported as `none`. -/
def marshalVal : GoVal → Option (List Char)
  | GoVal.nil => some "null".data
  | GoVal.bool b => some (if b then "true".data else "false".data)
  | GoVal.int64 i => some (intDecimal i)
  | GoVal.float64 _ => none
  | GoVal.str s => some (encodeString s)
  | GoVal.slice items => (marshalItems items).map (fun t => '[' :: (t ++ [']']))
  | GoVal.map entries => (marshalEntries entries).map (fun t => '{' :: (t ++ ['}']))
/-- Items of an array, separated by commas. -/
def marshalItems : List GoVal → Option (List Char)
  | [] => some []
  | v :: rest =>
    match marshalVal v, marshalItems rest with
    | some t, some ts => some (if rest.isEmpty then t else t ++ ',' :: ts)
    | _, _ => none
/-- Members of an object in key order, separated by commas. -/
def marshalEntries : List (String × GoVal) → Option (List Char)
  | [] => some []
  | (k, v) :: rest =>
    match marshalVal v, marshalEntries rest with
    | some t, some ts =>
      some (if rest.isEmpty then encodeString k ++ ':' :: t
            else encodeString k ++ ':' :: (t ++ ',' :: ts))
    | _, _ => none
end

/-- Text written for the `Data` field: `null` for a nil map. -/
def marshalData : Option GoMap → Option (List Char)
  | none => some "null".data
  | some entries => (marshalEntries entries).map (fun t => '{' :: (t ++ ['}']))

/-- Model of `json.Marshal(event)`: the fields in declaration order under their JSON
names; `none` where `Marshal` reports an error. -/
def marshalEvent (event : Event) : Option (List Char) :=
  match formatTime event.Timestamp, marshalData event.Data with
  | some ts, some data =>
    some ("\x7b\"event_type\":".data ++ encodeString event.EventType
      ++ ",\"user_id\":".data ++ encodeString event.UserID
      ++ ",\"user_email\":".data ++ encodeString event.UserEmail
      ++ ",\"timestamp\":".data ++ dq :: (ts ++ dq :: ",\"data\":".data)
      ++ data ++ ['}'])
  | _, _ => none

/-- A payload value as the consumer receives it: a number written from an `int64` comes
back as the nearest `float64`. -/
def receivedVal : GoVal → GoVal
  | GoVal.int64 i => GoVal.float64 ⟨i, 0⟩
  | v => v

/-- An event as the consumer receives it: every field unchanged except that integer
payload values are held as `float64`. -/
def receivedEvent (event : Event) : Event :=
  { event with Data := event.Data.map (fun m => m.map (fun kv => (kv.1, receivedVal kv.2))) }

/-- Payload values the round trip is stated for: strings, and integers that binary64
holds exactly. -/
def plainVal : GoVal → Bool
  | GoVal.str _ => true
  | GoVal.int64 i => i.natAbs ≤ 9007199254740992
  | _ => false

/-- Keys strictly increasing: the form in which a Go map is kept here. -/
def sortedKeys : List (String × GoVal) → Bool
  | [] => true
  | [_] => true
  | a :: b :: rest => decide (a.1.data < b.1.data) && sortedKeys (b :: rest)

/-- An envelope as the claims about the round trip take it: a representable timestamp and
a payload (possibly nil) of strings and exactly representable integers. -/
def plainEvent (event : Event) : Bool :=
  event.Timestamp.valid &&
    match event.Data with
    | none => true
    | some m => sortedKeys m && m.all (fun kv => plainVal kv.2)

/-! ## The producer: `EventPublisher` of `event_publisher.go` -/

/-- A `context.Context` as the code reads it: the error `Err()` reports (nil until the
context is cancelled) and the values `Value(key)` returns. -/
structure Context where
  err : Option String
  values : GoMap

/-- The context `context.Background()`: never cancelled, without values. -/
def Context.background : Context := ⟨none, []⟩

/-- EventPublisher; `Publish` is the call on the SNS client, which gets the context and
the input and returns an error (`none` for nil, the result then carries a message id). -/
structure EventPublisher (σ : Type) where
  topicARN : String
  Publish : Context → PublishInput → σ → Option String × σ

/-- One `Publish` call on the SNS client. -/
structure PublishCall where
  ctx : Context
  input : PublishInput

/-- Result of `PublishEvent`: the returned error (`none` for nil), the new world state and
the `Publish` calls made. -/
structure Published (σ : Type) where
  err : Option String
  state : σ
  calls : List PublishCall

/-- Model of `EventPublisher.PublishEvent`. The text of the error wrapped by a failed
`json.Marshal` is not modelled. -/
def EventPublisher.PublishEvent {σ : Type} (p : EventPublisher σ) (ctx : Context)
    (event : Event) (s : σ) : Published σ :=
  match marshalEvent event with
  | none => ⟨some "failed to marshal event", s, []⟩
  | some eventJSON =>
    let input : PublishInput := ⟨p.topicARN, event.EventType, String.mk eventJSON⟩
    match p.Publish ctx input s with
    | (some e, s1) => ⟨some ("failed to publish event: " ++ e), s1, [⟨ctx, input⟩]⟩
    | (none, s1) => ⟨none, s1, [⟨ctx, input⟩]⟩

/-- What a goroutine started by `PublishEventAsync` leaves behind: the new world state and
the `Publish` calls made. The error of `PublishEvent` is logged and dropped. -/
structure Spawned (σ : Type) where
  state : σ
  calls : List PublishCall

/-- What `PublishEventAsync` is for its caller: the call has no result, the caller goes on
in the state it called in, and a goroutine has been started that runs later, on the state
the world is in by then. -/
structure Detached (σ : Type) where
  state : σ
  goroutine : σ → Spawned σ

/-- Model of `EventPublisher.PublishEventAsync`. -/
def EventPublisher.PublishEventAsync {σ : Type} (p : EventPublisher σ) (_ctx : Context)
    (event : Event) (s : σ) : Detached σ :=
  ⟨s, fun s1 =>
    let bgCtx := Context.background
    let r := p.PublishEvent bgCtx event s1
    ⟨r.state, r.calls⟩⟩

/-! ## The default template of `template_service.go`

`NewTemplateService` writes the default template for every template file that does not
exist, so on a templates directory without the five files every template is the default
one, whose only action writes the `Content` entry of the data. -/

/-- Escaping of one character by `html/template` for text in element content. -/
def htmlEscapeChar (c : Char) : List Char :=
  if c = Char.ofNat 0 then [replacementChar]
  else if c = dq then "&#34;".data
  else if c = '&' then "&amp;".data
  else if c = Char.ofNat 39 then "&#39;".data
  else if c = '+' then "&#43;".data
  else if c = '<' then "&lt;".data
  else if c = '>' then "&gt;".data
  else [c]

/-- Escaping of a string by `html/template` for text in element content. -/
def htmlEscape (s : String) : String := String.mk (s.data.flatMap htmlEscapeChar)

/-- The text of the default template before its action. -/
def defaultHTMLHead : String :=
  "<!DOCTYPE html>\n<html>\n<head>\n\t<meta charset=\"UTF-8\">\n\t<title>Notification</title>\n\t<style>\n\t\tbody \x7b font-family: Arial, sans-serif; line-height: 1.6; color: #333; \x7d\n\t\t.container \x7b max-width: 600px; margin: 0 auto; padding: 20px; \x7d\n\t\t.header \x7b background-color: #4CAF50; color: white; padding: 20px; text-align: center; \x7d\n\t\t.content \x7b padding: 20px; background-color: #f9f9f9; \x7d\n\t\t.footer \x7b text-align: center; padding: 20px; color: #666; font-size: 12px; \x7d\n\t</style>\n</head>\n<body>\n\t<div class=\"container\">\n\t\t<div class=\"header\">\n\t\t\t<h1>Expense Tracker Notification</h1>\n\t\t</div>\n\t\t<div class=\"content\">\n\t\t\t"

/-- The text of the default template after its action. -/
def defaultHTMLTail : String :=
  "\n\t\t</div>\n\t\t<div class=\"footer\">\n\t\t\t<p>This is an automated notification from Expense Tracker.</p>\n\t\t</div>\n\t</div>\n</body>\n</html>"

/-- Execution of the default template: the `Content` entry, which every builder sets to a
string, is written escaped between the fixed texts. An entry that is not a string is not
modelled and written as the empty text. -/
def defaultTemplate : Template := fun data =>
  match data.get "Content" with
  | some (GoVal.str content) => Except.ok (defaultHTMLHead ++ htmlEscape content ++ defaultHTMLTail)
  | _ => Except.ok (defaultHTMLHead ++ defaultHTMLTail)

/-- The file names `NewTemplateService` loads. -/
def templateFiles : List String :=
  ["expense_created.html", "expense_updated.html", "receipt_uploaded.html",
   "receipt_linked.html", "user_registered.html"]

/-- The template service `NewTemplateService` builds on a directory that has none of the
five files: each key is the file name without `.html`, each template the default one. -/
def defaultTemplateService : TemplateService :=
  ⟨templateFiles.map (fun filename =>
    (String.mk (filename.data.take (filename.length - 5)), defaultTemplate))⟩

/-! ## `NewTemplateService` of `template_service.go` -/

/-- What `NewTemplateService` meets for one template file of the directory: whether the
file is there (`os.Stat`), the error of writing the default template when it is not
(`none` for nil), and the result of `template.ParseFiles` on the file. -/
structure TemplateFile where
  present : Bool
  createDefault : Option String
  parse : Except String Template

/-- The assignment `ts.templates[key] = tmpl`. -/
def setTemplate : List (String × Template) → String → Template → List (String × Template)
  | [], key, tmpl => [(key, tmpl)]
  | (k1, t1) :: rest, key, tmpl =>
    if key = k1 then (key, tmpl) :: rest else (k1, t1) :: setTemplate rest key tmpl

/-- The key a template file is stored under: the file name without its last five bytes,
the extension `.html`. -/
def templateKey (filename : String) : String :=
  String.mk (filename.data.take (filename.length - 5))

/-- The loop of `NewTemplateService` over the file names; the first failure ends it. -/
def loadTemplates (dir : String → TemplateFile) :
    List String → List (String × Template) → Except String (List (String × Template))
  | [], templates => Except.ok templates
  | filename :: rest, templates =>
    match (if (dir filename).present then none else (dir filename).createDefault) with
    | some err =>
      Except.error ("failed to create default template " ++ filename ++ ": " ++ err)
    | none =>
      match (dir filename).parse with
      | Except.error err =>
        Except.error ("failed to parse template " ++ filename ++ ": " ++ err)
      | Except.ok tmpl =>
        loadTemplates dir rest (setTemplate templates (templateKey filename) tmpl)

/-- Model of `NewTemplateService` on a templates directory. -/
def NewTemplateService (dir : String → TemplateFile) : Except String TemplateService :=
  match loadTemplates dir templateFiles [] with
  | Except.error err => Except.error err
  | Except.ok templates => Except.ok ⟨templates⟩

/-! ## The producing services: what they share

The services call their collaborators (repository, object store, password hashing, token
signing, clock, UUID source) on a world state `σ`. The calls that matter to the claims are
recorded in a trace. A service holds an optional event publisher (a nil pointer when it
is not configured); what the service does with it is one call, `PublishEventAsync`, which
the trace records with the context and the event handed over. -/

/-- A `float64` as `strconv.ParseFloat` returns it. -/
inductive Float64 where
  | finite (f : F64) : Float64
  | inf (negative : Bool) : Float64
  | nan : Float64
deriving DecidableEq, Repr

/-- The comparison `x <= 0` on a `float64`; it is false for NaN. -/
def Float64.leZero : Float64 → Bool
  | Float64.finite f => decide (f.num ≤ 0)
  | Float64.inf negative => negative
  | Float64.nan => false

/-- Library calls of the services that are not modelled further: `strconv.ParseFloat(s,
64)` (`none` when it returns an error), `mime.TypeByExtension`, `time.Now()` and
`uuid.New().String()`. -/
structure Runtime (σ : Type) where
  ParseFloat : String → Option Float64
  TypeByExtension : String → String
  Now : σ → Time × σ
  NewUUID : σ → String × σ

/-- Days of the months of year `y` before month `m`. -/
def daysBefore (m y : Nat) : Nat :=
  ((List.range (m - 1)).map (fun i => daysIn (i + 1) y)).sum

/-- Seconds from the start of year 1 (UTC) to the instant of `t`. -/
def Time.seconds (t : Time) : Int :=
  let y : Int := (t.year : Int) - 1
  (365 * y + y / 4 - y / 100 + y / 400 + daysBefore t.month t.year + ((t.day : Int) - 1)) * 86400
    + t.hour * 3600 + t.minute * 60 + t.second - t.offset * 60

/-- Model of `Time.After` on wall clock readings. -/
def Time.After (t u : Time) : Bool :=
  decide (u.seconds < t.seconds) || (decide (t.seconds = u.seconds) && decide (u.nsec < t.nsec))

/-- Model of `time.Parse("2006-01-02", s)`: four digits, two digits, two digits, separated
by hyphens, with nothing before or after, naming a day of the calendar; the result is
midnight UTC of that day. -/
def parseDate (s : String) : Option Time :=
  match s.data with
  | [y1, y2, y3, y4, '-', m1, m2, '-', d1, d2] =>
    match parseUint [y1, y2, y3, y4] 0 9999, parseUint [m1, m2] 1 12 with
    | some year, some month =>
      match parseUint [d1, d2] 1 (daysIn month year) with
      | some day => some ⟨year, month, day, 0, 0, 0, 0, 0⟩
      | none => none
    | _, _ => none
  | _ => none

/-- Model of `t.Format("2006-01-02")`. -/
def formatDate (t : Time) : String :=
  String.mk ((if t.year < 10000 then pad4 t.year else decimal t.year)
    ++ '-' :: pad2 t.month ++ '-' :: pad2 t.day)

/-- The user email the auth middleware left in the context: `ctx.Value("user_email")`
when it is a string, else the empty string. -/
def userEmailOf (ctx : Context) : String :=
  match ctx.values.get "user_email" with
  | some (GoVal.str email) => email
  | _ => ""

/-- Calls of a service on its collaborators, in program order. A repository write carries
the id of the record written and the error it returned (`none` for nil). -/
inductive ServiceCall where
  | findByID (id userID : String) : ServiceCall
  | findByEmail (email : String) : ServiceCall
  | create (id : String) (err : Option String) : ServiceCall
  | update (id : String) (err : Option String) : ServiceCall
  | uploadFile (key : String) (err : Option String) : ServiceCall
  | getPresignedURL (key : String) (err : Option String) : ServiceCall
  | deleteFile (key : String) : ServiceCall
  | hashPassword (err : Option String) : ServiceCall
  | generateToken (err : Option String) : ServiceCall
  | publishAsync (ctx : Context) (event : Event) : ServiceCall

/-- Result of a service operation: the value or error returned, the new world state and
the calls made. -/
structure Served (σ : Type) (α : Type) where
  val : Except String α
  state : σ
  calls : List ServiceCall

/-! ## Special values of `strconv.ParseFloat` -/

/-- Model of `commonPrefixLenIgnoreCase` of `strconv`: the length of the longest start of
`s` that matches the lower-case text `pat`, upper-case ASCII letters of `s` taken as
lower-case. -/
def commonPrefixLenIgnoreCase : List Char → List Char → Nat
  | c :: s, p :: pat =>
    let lower : Char := if 65 ≤ c.toNat ∧ c.toNat ≤ 90 then Char.ofNat (c.toNat + 32) else c
    if lower = p then commonPrefixLenIgnoreCase s pat + 1 else 0
  | _, _ => 0

/-- The infinity recognised at the start of `s`: the whole word when `s` starts with
`infinity`, else the three letters `inf`; the result is the number of characters taken. -/
def infinityLen (s : List Char) : Option Nat :=
  let n := commonPrefixLenIgnoreCase s "infinity".data
  let n := if 3 < n ∧ n < 8 then 3 else n
  if n = 3 ∨ n = 8 then some n else none

/-- Model of `special` of `strconv`: the special value at the start of the text and the
number of characters it takes. A sign is read before an infinity only. -/
def special (s : List Char) : Option (Float64 × Nat) :=
  match s with
  | [] => none
  | c :: rest =>
    if c = '+' ∨ c = '-' then
      match infinityLen rest with
      | some n => some (Float64.inf (c = '-'), 1 + n)
      | none => none
    else if c = 'i' ∨ c = 'I' then
      match infinityLen s with
      | some n => some (Float64.inf false, n)
      | none => none
    else if c = 'n' ∨ c = 'N' then
      if commonPrefixLenIgnoreCase s "nan".data = 3 then some (Float64.nan, 3) else none
    else none

/-- `strconv.ParseFloat(text, 64)` on the texts covered here: a special value that makes
up the whole text, or a decimal number in the form of a JSON number token. Every other
text is reported as an error (`strconv` also reads a leading plus sign, hexadecimal
numbers and digits separated by underscores). -/
def parseFloatText (text : String) : Option Float64 :=
  match special text.data with
  | some (f, n) => if n = text.data.length then some f else none
  | none =>
    match scanNumber text.data with
    | some (_, []) => (parseFloat text.data).map Float64.finite
    | _ => none

/-! ## The expense service: `expense_service.go` -/

/-- Expense of `model/expense.go`. -/
structure Expense where
  ID : String
  UserID : String
  Amount : String
  Description : String
  Category : String
  ExpenseDate : Time
  CreatedAt : Time
  UpdatedAt : Time
  DeletedAt : Option Time
deriving DecidableEq, Repr

/-- CreateExpenseRequest of `model/dto.go`. -/
structure CreateExpenseRequest where
  Amount : String
  Description : String
  Category : String
  ExpenseDate : String
deriving DecidableEq, Repr

/-- UpdateExpenseRequest of `model/dto.go`; every field is a pointer. -/
structure UpdateExpenseRequest where
  Amount : Option String
  Description : Option String
  Category : Option String
  ExpenseDate : Option String
deriving DecidableEq, Repr

/-- ExpenseResponse of `model/dto.go`. -/
structure ExpenseResponse where
  ID : String
  UserID : String
  Amount : String
  Description : String
  Category : String
  ExpenseDate : Time
  CreatedAt : Time
  UpdatedAt : Time
deriving DecidableEq, Repr

/-- The methods of `repository.ExpenseRepository` the two operations call. -/
structure ExpenseRepository (σ : Type) where
  Create : Context → Expense → σ → Option String × σ
  FindByID : Context → String → String → σ → Except String (Option Expense) × σ
  Update : Context → Expense → σ → Option String × σ

/-- ExpenseService; `eventPublisher` tells whether the optional publisher is set. -/
structure ExpenseService (σ : Type) where
  expenseRepo : ExpenseRepository σ
  eventPublisher : Bool
  runtime : Runtime σ

/-- The response both operations build from the expense. -/
def Expense.toResponse (expense : Expense) : ExpenseResponse :=
  ⟨expense.ID, expense.UserID, expense.Amount, expense.Description, expense.Category,
    expense.ExpenseDate, expense.CreatedAt, expense.UpdatedAt⟩

/-- The payload of the events of the expense service. -/
def expenseEventData (expense : Expense) : GoMap :=
  [("amount", GoVal.str expense.Amount), ("category", GoVal.str expense.Category),
   ("description", GoVal.str expense.Description),
   ("expense_date", GoVal.str (formatDate expense.ExpenseDate)),
   ("expense_id", GoVal.str expense.ID)]

/-- The tail both operations share after a successful write: publish when a publisher is
set, then return the response. -/
def ExpenseService.publishAndRespond {σ : Type} (svc : ExpenseService σ) (ctx : Context)
    (eventType userID : String) (expense : Expense) (written : ServiceCall) (s : σ) :
    Served σ ExpenseResponse :=
  if svc.eventPublisher then
    let event : Event :=
      ⟨eventType, userID, userEmailOf ctx, (svc.runtime.Now s).1, some (expenseEventData expense)⟩
    ⟨Except.ok expense.toResponse, (svc.runtime.Now s).2,
      [written, ServiceCall.publishAsync ctx event]⟩
  else ⟨Except.ok expense.toResponse, s, [written]⟩

/-- Model of `ExpenseService.CreateExpense`. -/
def ExpenseService.CreateExpense {σ : Type} (svc : ExpenseService σ) (ctx : Context)
    (userID : String) (req : CreateExpenseRequest) (s : σ) : Served σ ExpenseResponse :=
  match svc.runtime.ParseFloat req.Amount with
  | none => ⟨Except.error "amount must be a positive number", s, []⟩
  | some amount =>
    if amount.leZero then ⟨Except.error "amount must be a positive number", s, []⟩
    else if req.Description = "" then ⟨Except.error "description is required", s, []⟩
    else if req.Category = "" then ⟨Except.error "category is required", s, []⟩
    else
      match parseDate req.ExpenseDate with
      | none => ⟨Except.error "expense_date must be in YYYY-MM-DD format", s, []⟩
      | some expenseDate =>
        let s1 := (svc.runtime.Now s).2
        if expenseDate.After (svc.runtime.Now s).1 then
          ⟨Except.error "expense_date cannot be in the future", s1, []⟩
        else
          let now := (svc.runtime.Now s1).1
          let s2 := (svc.runtime.Now s1).2
          let id := (svc.runtime.NewUUID s2).1
          let s3 := (svc.runtime.NewUUID s2).2
          let expense : Expense :=
            ⟨id, userID, req.Amount, req.Description, req.Category, expenseDate, now, now, none⟩
          match svc.expenseRepo.Create ctx expense s3 with
          | (some err, s4) => ⟨Except.error err, s4, [ServiceCall.create id (some err)]⟩
          | (none, s4) =>
            svc.publishAndRespond ctx "expense.created" userID expense
              (ServiceCall.create id none) s4

/-- The field updates of `UpdateExpense`, in program order; the first failed validation
ends them. -/
def ExpenseService.applyUpdate {σ : Type} (svc : ExpenseService σ) (req : UpdateExpenseRequest)
    (expense : Expense) : Except String Expense :=
  let amountStep : Except String Expense :=
    match req.Amount with
    | none => Except.ok expense
    | some a =>
      match svc.runtime.ParseFloat a with
      | none => Except.error "amount must be a positive number"
      | some amount =>
        if amount.leZero then Except.error "amount must be a positive number"
        else Except.ok { expense with Amount := a }
  match amountStep with
  | Except.error e => Except.error e
  | Except.ok e1 =>
    let descriptionStep : Except String Expense :=
      match req.Description with
      | none => Except.ok e1
      | some d =>
        if d = "" then Except.error "description cannot be empty"
        else Except.ok { e1 with Description := d }
    match descriptionStep with
    | Except.error e => Except.error e
    | Except.ok e2 =>
      let categoryStep : Except String Expense :=
        match req.Category with
        | none => Except.ok e2
        | some c =>
          if c = "" then Except.error "category cannot be empty"
          else Except.ok { e2 with Category := c }
      match categoryStep with
      | Except.error e => Except.error e
      | Except.ok e3 =>
        match req.ExpenseDate with
        | none => Except.ok e3
        | some d =>
          match parseDate d with
          | none => Except.error "expense_date must be in YYYY-MM-DD format"
          | some expenseDate => Except.ok { e3 with ExpenseDate := expenseDate }

/-- Model of `ExpenseService.UpdateExpense`. -/
def ExpenseService.UpdateExpense {σ : Type} (svc : ExpenseService σ) (ctx : Context)
    (expenseID userID : String) (req : UpdateExpenseRequest) (s : σ) :
    Served σ ExpenseResponse :=
  match svc.expenseRepo.FindByID ctx expenseID userID s with
  | (Except.error err, s1) => ⟨Except.error err, s1, [ServiceCall.findByID expenseID userID]⟩
  | (Except.ok none, s1) =>
    ⟨Except.error "expense not found", s1, [ServiceCall.findByID expenseID userID]⟩
  | (Except.ok (some found), s1) =>
    match svc.applyUpdate req found with
    | Except.error e => ⟨Except.error e, s1, [ServiceCall.findByID expenseID userID]⟩
    | Except.ok updated =>
      let expense : Expense := { updated with UpdatedAt := (svc.runtime.Now s1).1 }
      let s2 := (svc.runtime.Now s1).2
      match svc.expenseRepo.Update ctx expense s2 with
      | (some err, s3) =>
        ⟨Except.error err, s3,
          [ServiceCall.findByID expenseID userID, ServiceCall.update expense.ID (some err)]⟩
      | (none, s3) =>
        let r := svc.publishAndRespond ctx "expense.updated" userID expense
          (ServiceCall.update expense.ID none) s3
        ⟨r.val, r.state, ServiceCall.findByID expenseID userID :: r.calls⟩

/-! ## The receipt service: `receipt_service.go` -/

/-- Receipt of `model/receipt.go`. -/
structure Receipt where
  ID : String
  UserID : String
  ExpenseID : Option String
  FileName : String
  FileKey : String
  FileURL : String
  FileSize : Int
  MimeType : String
  MerchantName : Option String
  ReceiptDate : Option Time
  TotalAmount : Option String
  CreatedAt : Time
  UpdatedAt : Time
  DeletedAt : Option Time
deriving DecidableEq, Repr

/-- ReceiptResponse of `model/dto.go`. -/
structure ReceiptResponse where
  ID : String
  UserID : String
  ExpenseID : Option String
  FileName : String
  FileURL : String
  FileSize : Int
  MimeType : String
  MerchantName : Option String
  ReceiptDate : Option Time
  TotalAmount : Option String
  CreatedAt : Time
  UpdatedAt : Time
deriving DecidableEq, Repr

/-- The methods of `repository.ReceiptRepository` the two operations call. -/
structure ReceiptRepository (σ : Type) where
  Create : Context → Receipt → σ → Option String × σ
  FindByID : Context → String → String → σ → Except String (Option Receipt) × σ
  Update : Context → Receipt → σ → Option String × σ

/-- The calls of `S3Service` that reach the object store; the file content is a list of
bytes, the expiration a `time.Duration` in nanoseconds. -/
structure S3Service (σ : Type) where
  UploadFile : Context → List Nat → Int → String → String → σ → Option String × σ
  GetPresignedURL : Context → String → Int → σ → Except String String × σ
  DeleteFile : Context → String → σ → Option String × σ

/-- ReceiptService; `eventPublisher` tells whether the optional publisher is set. -/
structure ReceiptService (σ : Type) where
  receiptRepo : ReceiptRepository σ
  s3Service : S3Service σ
  eventPublisher : Bool
  runtime : Runtime σ

/-- The constant `MaxFileSize`. -/
def MaxFileSize : Int := 10 * 1024 * 1024

/-- The map `AllowedMimeTypes`. -/
def AllowedMimeTypes (mimeType : String) : Bool :=
  mimeType = "image/jpeg" || mimeType = "image/jpg" || mimeType = "image/png"
    || mimeType = "application/pdf"

/-- Scan of `filepath.Ext` from the end of the path: `acc` holds what has been passed. -/
def extAux : List Char → List Char → List Char
  | [], _ => []
  | c :: rest, acc =>
    if c = '/' then []
    else if c = '.' then '.' :: acc
    else extAux rest (c :: acc)

/-- Model of `filepath.Ext` (Unix): the suffix from the last dot of the last element. -/
def Ext (path : String) : String := String.mk (extAux path.data.reverse [])

/-- Model of `filepath.Base` (Unix). -/
def Base (path : String) : String :=
  if path = "" then "."
  else
    let last := (path.data.reverse.dropWhile (fun c => c = '/')).takeWhile (fun c => c ≠ '/')
    if last.isEmpty then "/" else String.mk last.reverse

/-- Model of `S3Service.GenerateFileKey`. -/
def GenerateFileKey (userID receiptID filename : String) : String :=
  userID ++ "/" ++ receiptID ++ "/" ++ Base filename

/-- Model of `toReceiptResponse`. -/
def Receipt.toReceiptResponse (receipt : Receipt) : ReceiptResponse :=
  ⟨receipt.ID, receipt.UserID, receipt.ExpenseID, receipt.FileName, receipt.FileURL,
    receipt.FileSize, receipt.MimeType, receipt.MerchantName, receipt.ReceiptDate,
    receipt.TotalAmount, receipt.CreatedAt, receipt.UpdatedAt⟩

/-- The payload of the receipt.uploaded event. -/
def uploadEventData (receipt : Receipt) (expenseID : Option String) : GoMap :=
  let eventData : GoMap :=
    [("file_name", GoVal.str receipt.FileName), ("file_size", GoVal.int64 receipt.FileSize),
     ("mime_type", GoVal.str receipt.MimeType), ("receipt_id", GoVal.str receipt.ID)]
  match expenseID with
  | some id => eventData.set "expense_id" (GoVal.str id)
  | none => eventData

/-- The part of `UploadReceipt` after the validation of size and type. `NewReceipt` reads
the clock and draws the id; the two time stamps it sets are overwritten before the
receipt is saved. -/
def ReceiptService.storeReceipt {σ : Type} (svc : ReceiptService σ) (ctx : Context)
    (userID : String) (file : List Nat) (filename : String) (fileSize : Int)
    (expenseID : Option String) (mimeType : String) (s : σ) : Served σ ReceiptResponse :=
  let s1 := (svc.runtime.Now s).2
  let id := (svc.runtime.NewUUID s1).1
  let s2 := (svc.runtime.NewUUID s1).2
  let s3Key := GenerateFileKey userID id filename
  match svc.s3Service.UploadFile ctx file fileSize s3Key mimeType s2 with
  | (some err, s3) =>
    ⟨Except.error ("failed to upload file to S3: " ++ err), s3,
      [ServiceCall.uploadFile s3Key (some err)]⟩
  | (none, s3) =>
    match svc.s3Service.GetPresignedURL ctx s3Key 3600000000000 s3 with
    | (Except.error err, s4) =>
      ⟨Except.error ("failed to generate presigned URL: " ++ err), s4,
        [ServiceCall.uploadFile s3Key none, ServiceCall.getPresignedURL s3Key (some err)]⟩
    | (Except.ok presignedURL, s4) =>
      let createdAt := (svc.runtime.Now s4).1
      let s5 := (svc.runtime.Now s4).2
      let updatedAt := (svc.runtime.Now s5).1
      let s6 := (svc.runtime.Now s5).2
      let receipt : Receipt :=
        ⟨id, userID, expenseID, filename, s3Key, presignedURL, fileSize, mimeType, none, none,
          none, createdAt, updatedAt, none⟩
      match svc.receiptRepo.Create ctx receipt s6 with
      | (some err, s7) =>
        ⟨Except.error ("failed to save receipt to database: " ++ err),
          (svc.s3Service.DeleteFile ctx s3Key s7).2,
          [ServiceCall.uploadFile s3Key none, ServiceCall.getPresignedURL s3Key none,
           ServiceCall.create id (some err), ServiceCall.deleteFile s3Key]⟩
      | (none, s7) =>
        if svc.eventPublisher then
          let event : Event :=
            ⟨"receipt.uploaded", userID, userEmailOf ctx, (svc.runtime.Now s7).1,
              some (uploadEventData receipt expenseID)⟩
          ⟨Except.ok receipt.toReceiptResponse, (svc.runtime.Now s7).2,
            [ServiceCall.uploadFile s3Key none, ServiceCall.getPresignedURL s3Key none,
             ServiceCall.create id none, ServiceCall.publishAsync ctx event]⟩
        else
          ⟨Except.ok receipt.toReceiptResponse, s7,
            [ServiceCall.uploadFile s3Key none, ServiceCall.getPresignedURL s3Key none,
             ServiceCall.create id none]⟩

/-- Model of `ReceiptService.UploadReceipt`. -/
def ReceiptService.UploadReceipt {σ : Type} (svc : ReceiptService σ) (ctx : Context)
    (userID : String) (file : List Nat) (filename : String) (fileSize : Int)
    (expenseID : Option String) (s : σ) : Served σ ReceiptResponse :=
  if fileSize > MaxFileSize then
    ⟨Except.error "file size exceeds maximum allowed size (10MB)", s, []⟩
  else if fileSize ≤ 0 then
    ⟨Except.error "file size must be greater than zero", s, []⟩
  else
    let detected := svc.runtime.TypeByExtension (Ext filename)
    let mimeType := if detected = "" then "application/octet-stream" else detected
    let mimeType := if mimeType = "image/jpg" then "image/jpeg" else mimeType
    if !AllowedMimeTypes mimeType then
      ⟨Except.error "file type not allowed. Allowed types: JPEG, PNG, PDF", s, []⟩
    else svc.storeReceipt ctx userID file filename fileSize expenseID mimeType s

/-- Model of `ReceiptService.LinkToExpense`; the value returned is the error alone. -/
def ReceiptService.LinkToExpense {σ : Type} (svc : ReceiptService σ) (ctx : Context)
    (receiptID expenseID userID : String) (s : σ) : Served σ Unit :=
  match svc.receiptRepo.FindByID ctx receiptID userID s with
  | (Except.error err, s1) =>
    ⟨Except.error ("failed to get receipt: " ++ err), s1,
      [ServiceCall.findByID receiptID userID]⟩
  | (Except.ok none, s1) =>
    ⟨Except.error "receipt not found", s1, [ServiceCall.findByID receiptID userID]⟩
  | (Except.ok (some found), s1) =>
    let receipt : Receipt :=
      { found with ExpenseID := some expenseID, UpdatedAt := (svc.runtime.Now s1).1 }
    let s2 := (svc.runtime.Now s1).2
    match svc.receiptRepo.Update ctx receipt s2 with
    | (some err, s3) =>
      ⟨Except.error ("failed to link receipt to expense: " ++ err), s3,
        [ServiceCall.findByID receiptID userID, ServiceCall.update receipt.ID (some err)]⟩
    | (none, s3) =>
      if svc.eventPublisher then
        let event : Event :=
          ⟨"receipt.linked", userID, userEmailOf ctx, (svc.runtime.Now s3).1,
            some [("expense_id", GoVal.str expenseID), ("file_name", GoVal.str receipt.FileName),
                  ("receipt_id", GoVal.str receiptID)]⟩
        ⟨Except.ok (), (svc.runtime.Now s3).2,
          [ServiceCall.findByID receiptID userID, ServiceCall.update receipt.ID none,
           ServiceCall.publishAsync ctx event]⟩
      else
        ⟨Except.ok (), s3,
          [ServiceCall.findByID receiptID userID, ServiceCall.update receipt.ID none]⟩

/-! ## The auth service: `Register` of `auth_service.go` -/

/-- User of `model/user.go`. -/
structure User where
  ID : String
  Email : String
  PasswordHash : String
  Name : String
  CreatedAt : Time
  UpdatedAt : Time
  DeletedAt : Option Time
deriving DecidableEq, Repr

/-- RegisterRequest of `model/auth.go`. -/
structure RegisterRequest where
  Email : String
  Password : String
  Name : String
deriving DecidableEq, Repr

/-- AuthResponse of `model/auth.go`. -/
structure AuthResponse where
  UserID : String
  Email : String
  Name : String
  Token : String
deriving DecidableEq, Repr

/-- The methods of `repository.UserRepository` that `Register` calls. -/
structure UserRepository (σ : Type) where
  FindByEmail : Context → String → σ → Except String (Option User) × σ
  Create : Context → User → σ → Option String × σ

/-- AuthService with the two library services `Register` uses: `GenerateFromPassword` of
bcrypt (at the default cost) and `GenerateToken` of the JWT service; `eventPublisher`
tells whether the optional publisher is set. -/
structure AuthService (σ : Type) where
  userRepo : UserRepository σ
  GenerateFromPassword : String → σ → Except String String × σ
  GenerateToken : String → String → σ → Except String String × σ
  eventPublisher : Bool
  runtime : Runtime σ

/-- The end of `Register`: the token is generated and the response returned. -/
def AuthService.respond {σ : Type} (svc : AuthService σ) (user : User)
    (before : List ServiceCall) (s : σ) : Served σ AuthResponse :=
  match svc.GenerateToken user.ID user.Email s with
  | (Except.error err, s1) =>
    ⟨Except.error err, s1, before ++ [ServiceCall.generateToken (some err)]⟩
  | (Except.ok token, s1) =>
    ⟨Except.ok ⟨user.ID, user.Email, user.Name, token⟩, s1,
      before ++ [ServiceCall.generateToken none]⟩

/-- Model of `AuthService.Register`. -/
def AuthService.Register {σ : Type} (svc : AuthService σ) (ctx : Context)
    (req : RegisterRequest) (s : σ) : Served σ AuthResponse :=
  match svc.userRepo.FindByEmail ctx req.Email s with
  | (Except.error err, s1) => ⟨Except.error err, s1, [ServiceCall.findByEmail req.Email]⟩
  | (Except.ok (some _), s1) =>
    ⟨Except.error "user with this email already exists", s1,
      [ServiceCall.findByEmail req.Email]⟩
  | (Except.ok none, s1) =>
    match svc.GenerateFromPassword req.Password s1 with
    | (Except.error err, s2) =>
      ⟨Except.error err, s2,
        [ServiceCall.findByEmail req.Email, ServiceCall.hashPassword (some err)]⟩
    | (Except.ok passwordHash, s2) =>
      let now := (svc.runtime.Now s2).1
      let s3 := (svc.runtime.Now s2).2
      let id := (svc.runtime.NewUUID s3).1
      let s4 := (svc.runtime.NewUUID s3).2
      let user : User := ⟨id, req.Email, passwordHash, req.Name, now, now, none⟩
      match svc.userRepo.Create ctx user s4 with
      | (some err, s5) =>
        ⟨Except.error err, s5,
          [ServiceCall.findByEmail req.Email, ServiceCall.hashPassword none,
           ServiceCall.create id (some err)]⟩
      | (none, s5) =>
        if svc.eventPublisher then
          let event : Event :=
            ⟨"user.registered", user.ID, user.Email, (svc.runtime.Now s5).1,
              some [("email", GoVal.str user.Email), ("name", GoVal.str user.Name),
                    ("user_id", GoVal.str user.ID)]⟩
          svc.respond user
            [ServiceCall.findByEmail req.Email, ServiceCall.hashPassword none,
             ServiceCall.create id none, ServiceCall.publishAsync ctx event]
            (svc.runtime.Now s5).2
        else
          svc.respond user
            [ServiceCall.findByEmail req.Email, ServiceCall.hashPassword none,
             ServiceCall.create id none] s5

/-! ## The auth service: `ValidateToken` of `auth_service.go` and `Validate` of
`auth_handler.go` -/

/-- Claims of `jwt_service.go`: the two fields `AuthService.ValidateToken` reads. -/
structure Claims where
  UserID : String
  Email : String
deriving DecidableEq, Repr

/-- ValidateResponse of `model/auth.go`. -/
structure ValidateResponse where
  Valid : Bool
  UserID : String
  Email : String
deriving DecidableEq, Repr

/-- Model of `AuthService.ValidateToken`; the result is the pair of the response and the
error of the source. `jwtValidateToken` is `ValidateToken` of the JWT service, which
returns either non-nil claims or an error, and `FindByID` the method of the user
repository, which returns `nil, nil` for a user that does not exist. -/
def AuthService.ValidateToken {σ : Type}
    (jwtValidateToken : String → σ → Except String Claims × σ)
    (FindByID : Context → String → σ → Except String (Option User) × σ)
    (ctx : Context) (tokenString : String) (s : σ) : Except String ValidateResponse × σ :=
  match jwtValidateToken tokenString s with
  | (Except.error _, s1) => (Except.ok ⟨false, "", ""⟩, s1)
  | (Except.ok claims, s1) =>
    match FindByID ctx claims.UserID s1 with
    | (Except.error _, s2) => (Except.ok ⟨false, "", ""⟩, s2)
    | (Except.ok none, s2) => (Except.ok ⟨false, "", ""⟩, s2)
    | (Except.ok (some _), s2) => (Except.ok ⟨true, claims.UserID, claims.Email⟩, s2)

/-- Model of `strings.Split(s, " ")`: the pieces of `s` between single spaces. -/
def splitSpace : List Char → List (List Char)
  | [] => [[]]
  | c :: cs =>
    if c = ' ' then [] :: splitSpace cs
    else
      match splitSpace cs with
      | [] => [[c]]
      | piece :: pieces => (c :: piece) :: pieces

/-- What `Validate` reads of the request: the method, the value `Header.Get` returns for
`Authorization` (empty when the header is absent) and the context. -/
structure ValidateRequest where
  Method : String
  Authorization : String
  ctx : Context

/-- The payload written to the response: the text of `http.Error`, the message of
`respondWithError`, or the response `respondWithJSON` encodes. -/
inductive ResponseBody where
  | text (message : String)
  | error (message : String)
  | validate (resp : ValidateResponse)
deriving DecidableEq, Repr

/-- The status code and payload of an HTTP response. -/
structure HttpResponse where
  status : Nat
  body : ResponseBody
deriving DecidableEq, Repr

/-- Model of `AuthHandler.Validate`. -/
def AuthHandler.Validate {σ : Type}
    (jwtValidateToken : String → σ → Except String Claims × σ)
    (FindByID : Context → String → σ → Except String (Option User) × σ)
    (r : ValidateRequest) (s : σ) : HttpResponse × σ :=
  if r.Method ≠ "GET" then (⟨405, ResponseBody.text "Method not allowed"⟩, s)
  else if r.Authorization = "" then
    (⟨401, ResponseBody.error "Authorization header required"⟩, s)
  else
    let parts := splitSpace r.Authorization.data
    if parts.length ≠ 2 ∨ parts.head? ≠ some "Bearer".data then
      (⟨401, ResponseBody.error "Invalid authorization header format"⟩, s)
    else
      let token := String.mk (parts.getD 1 [])
      match AuthService.ValidateToken jwtValidateToken FindByID r.ctx token s with
      | (Except.error _, s1) => (⟨500, ResponseBody.error "Failed to validate token"⟩, s1)
      | (Except.ok resp, s1) =>
        if !resp.Valid then (⟨401, ResponseBody.error "Invalid token"⟩, s1)
        else (⟨200, ResponseBody.validate resp⟩, s1)

/-! ## Configuration: `config.go` of the four services and `main` of the notification
service

The process environment is a function from variable names to values; `os.Getenv` returns
the empty string for a variable that is not set. -/

/-- The process environment as `os.Getenv` reads it. -/
abbrev Env := String → String

/-- Model of `getEnv`. -/
def getEnv (env : Env) (key defaultValue : String) : String :=
  if env key = "" then defaultValue else env key

/-- Model of `strconv.Atoi` on a 64-bit platform: an optional sign and decimal digits, in
the range of `int`; `none` for an error. -/
def Atoi (s : String) : Option Int :=
  let digits : List Char :=
    match s.data with
    | '-' :: rest => rest
    | '+' :: rest => rest
    | cs => cs
  if digits.isEmpty || !digits.all isDig then none
  else
    let v : Int := if s.data.head? = some '-' then -(natOfDigits digits : Int) else natOfDigits digits
    if -9223372036854775808 ≤ v ∧ v < 9223372036854775808 then some v else none

/-- Model of `getEnvAsInt`. -/
def getEnvAsInt (env : Env) (key : String) (defaultValue : Int) : Int :=
  if env key = "" then defaultValue
  else
    match Atoi (env key) with
    | none => defaultValue
    | some value => value

/-- Wrap-around of `int64` arithmetic. -/
def wrapInt64 (i : Int) : Int := (i + 9223372036854775808) % 18446744073709551616 - 9223372036854775808

/-- Config of the notification service. -/
structure NotificationConfig where
  AWSRegion : String
  AWSAccessKeyID : String
  AWSSecretKey : String
  ExpenseEventsQueueURL : String
  ReceiptEventsQueueURL : String
  AuthEventsQueueURL : String
  NotificationEmailTopicARN : String
  ServerPort : String
deriving DecidableEq, Repr

/-- Model of `Load` of the notification service. -/
def NotificationConfig.Load (env : Env) : Except String NotificationConfig :=
  let awsRegion := getEnv env "AWS_REGION" "us-east-1"
  let awsAccessKeyID := getEnv env "AWS_ACCESS_KEY_ID" ""
  let awsSecretKey := getEnv env "AWS_SECRET_ACCESS_KEY" ""
  if awsAccessKeyID = "" ∨ awsSecretKey = "" then
    Except.error "AWS credentials are required. Please set AWS_ACCESS_KEY_ID and AWS_SECRET_ACCESS_KEY"
  else
    let expenseEventsQueueURL := getEnv env "EXPENSE_EVENTS_QUEUE_URL" ""
    let receiptEventsQueueURL := getEnv env "RECEIPT_EVENTS_QUEUE_URL" ""
    let authEventsQueueURL := getEnv env "AUTH_EVENTS_QUEUE_URL" ""
    let notificationEmailTopicARN := getEnv env "NOTIFICATION_EMAIL_TOPIC_ARN" ""
    if notificationEmailTopicARN = "" then
      Except.error "NOTIFICATION_EMAIL_TOPIC_ARN environment variable is required"
    else
      Except.ok ⟨awsRegion, awsAccessKeyID, awsSecretKey, expenseEventsQueueURL,
        receiptEventsQueueURL, authEventsQueueURL, notificationEmailTopicARN,
        getEnv env "SERVER_PORT" "8083"⟩

/-- Config of the expense service. -/
structure ExpenseConfig where
  DBHost : String
  DBPort : Int
  DBUser : String
  DBPassword : String
  DBName : String
  AuthServiceURL : String
  AWSRegion : String
  AWSAccessKeyID : String
  AWSSecretKey : String
  ExpenseEventsTopicARN : String
  ServerPort : String
deriving DecidableEq, Repr

/-- Model of `Load` of the expense service. -/
def ExpenseConfig.Load (env : Env) : Except String ExpenseConfig :=
  let authServiceURL := getEnv env "AUTH_SERVICE_URL" "http://localhost:8080"
  if authServiceURL = "" then
    Except.error "AUTH_SERVICE_URL environment variable is required"
  else
    Except.ok ⟨getEnv env "DB_HOST" "localhost", getEnvAsInt env "DB_PORT" 5432,
      getEnv env "DB_USER" "postgres", getEnv env "DB_PASSWORD" "",
      getEnv env "DB_NAME" "expense_db", authServiceURL,
      getEnv env "AWS_REGION" "us-east-1", getEnv env "AWS_ACCESS_KEY_ID" "",
      getEnv env "AWS_SECRET_ACCESS_KEY" "", getEnv env "EXPENSE_EVENTS_TOPIC_ARN" "",
      getEnv env "SERVER_PORT" "8081"⟩

/-- Config of the auth service; `JWTExpiration` is a `time.Duration`, in nanoseconds. -/
structure AuthConfig where
  DBHost : String
  DBPort : Int
  DBUser : String
  DBPassword : String
  DBName : String
  JWTSecret : String
  JWTExpiration : Int
  AWSRegion : String
  AWSAccessKeyID : String
  AWSSecretKey : String
  AuthEventsTopicARN : String
  ServerPort : String
deriving DecidableEq, Repr

/-- Model of `Load` of the auth service. -/
def AuthConfig.Load (env : Env) : Except String AuthConfig :=
  let jwtSecret := getEnv env "JWT_SECRET" ""
  if jwtSecret = "" then
    Except.error "JWT_SECRET environment variable is required"
  else
    let expirationHours := getEnvAsInt env "JWT_EXPIRATION_HOURS" 24
    Except.ok ⟨getEnv env "DB_HOST" "localhost", getEnvAsInt env "DB_PORT" 5432,
      getEnv env "DB_USER" "postgres", getEnv env "DB_PASSWORD" "",
      getEnv env "DB_NAME" "auth_db", jwtSecret,
      wrapInt64 (expirationHours * 3600000000000),
      getEnv env "AWS_REGION" "us-east-1", getEnv env "AWS_ACCESS_KEY_ID" "",
      getEnv env "AWS_SECRET_ACCESS_KEY" "", getEnv env "AUTH_EVENTS_TOPIC_ARN" "",
      getEnv env "SERVER_PORT" "8080"⟩

/-- Config of the receipt service. -/
structure ReceiptConfig where
  DBHost : String
  DBPort : Int
  DBUser : String
  DBPassword : String
  DBName : String
  AuthServiceURL : String
  AWSRegion : String
  AWSAccessKeyID : String
  AWSSecretKey : String
  S3BucketName : String
  ReceiptEventsTopicARN : String
  ServerPort : String
deriving DecidableEq, Repr

/-- Model of `Load` of the receipt service. -/
def ReceiptConfig.Load (env : Env) : Except String ReceiptConfig :=
  let authServiceURL := getEnv env "AUTH_SERVICE_URL" "http://localhost:8080"
  if authServiceURL = "" then
    Except.error "AUTH_SERVICE_URL environment variable is required"
  else
    let awsAccessKeyID := getEnv env "AWS_ACCESS_KEY_ID" ""
    let awsSecretKey := getEnv env "AWS_SECRET_ACCESS_KEY" ""
    let s3BucketName := getEnv env "S3_BUCKET_NAME" ""
    if awsAccessKeyID = "" ∨ awsSecretKey = "" ∨ s3BucketName = "" then
      Except.error "AWS S3 configuration is incomplete. Please set AWS_ACCESS_KEY_ID, AWS_SECRET_ACCESS_KEY, and S3_BUCKET_NAME"
    else
      Except.ok ⟨getEnv env "DB_HOST" "localhost", getEnvAsInt env "DB_PORT" 5432,
        getEnv env "DB_USER" "postgres", getEnv env "DB_PASSWORD" "",
        getEnv env "DB_NAME" "receipt_db", authServiceURL,
        getEnv env "AWS_REGION" "us-east-1", awsAccessKeyID, awsSecretKey, s3BucketName,
        getEnv env "RECEIPT_EVENTS_TOPIC_ARN" "", getEnv env "SERVER_PORT" "8082"⟩

/-- The test `main` of the expense service makes before it creates the event publisher
(the auth and receipt services make the same test on their own topic): topic and both
credentials are set. -/
def publisherConfigured (topicARN awsAccessKeyID awsSecretKey : String) : Bool :=
  topicARN ≠ "" && awsAccessKeyID ≠ "" && awsSecretKey ≠ ""

/-- The three queues of the notification service. -/
inductive Queue where
  | expenseEvents : Queue
  | receiptEvents : Queue
  | authEvents : Queue
deriving DecidableEq, Repr

/-- The consumer goroutines `main` of the notification service starts, in program order:
each is `ConsumeMessages` on the URL of its queue with `ProcessEvent` as handler. -/
def startConsumers (cfg : NotificationConfig) : List (Queue × String) :=
  (if cfg.ExpenseEventsQueueURL ≠ "" then [(Queue.expenseEvents, cfg.ExpenseEventsQueueURL)]
    else []) ++
  (if cfg.ReceiptEventsQueueURL ≠ "" then [(Queue.receiptEvents, cfg.ReceiptEventsQueueURL)]
    else []) ++
  (if cfg.AuthEventsQueueURL ≠ "" then [(Queue.authEvents, cfg.AuthEventsQueueURL)]
    else [])

/-- The results of the three initialisations `main` of the notification service makes
between `Load` and the start of the consumers: the error each returns (`none` for nil). -/
structure Initialisation where
  snsPublisher : Option String
  templateService : Option String
  sqsConsumer : Option String

/-- Model of `main` of the notification service up to the start of the consumers: the
fatal error that ends the process, or the consumers started. -/
def notificationMain (env : Env) (init : Initialisation) : Except String (List (Queue × String)) :=
  match NotificationConfig.Load env with
  | Except.error err => Except.error ("Failed to load config: " ++ err)
  | Except.ok cfg =>
    match init.snsPublisher with
    | some err => Except.error ("Failed to initialize SNS publisher: " ++ err)
    | none =>
      match init.templateService with
      | some err => Except.error ("Failed to initialize template service: " ++ err)
      | none =>
        match init.sqsConsumer with
        | some err => Except.error ("Failed to initialize SQS consumer: " ++ err)
        | none => Except.ok (startConsumers cfg)

/-! ## Listing: `ListExpenses`, `ListReceipts` and `FindByUserID` of the Postgres
repository

The `int` of Go is 64 bits wide: sums and products wrap around, division truncates. The
list operations call one method of their repository, `FindByUserID`, which is passed to
the model of the operation. -/

/-- ListExpensesRequest of `model/dto.go`. -/
structure ListExpensesRequest where
  Category : String
  StartDate : String
  EndDate : String
  Page : Int
  Limit : Int
deriving DecidableEq, Repr

/-- ListExpensesResponse of `model/dto.go`. -/
structure ListExpensesResponse where
  Expenses : List ExpenseResponse
  Total : Int
  Page : Int
  Limit : Int
  Pages : Int
deriving DecidableEq, Repr

/-- Model of `ExpenseService.ListExpenses`; `FindByUserID` is the method of the expense
repository. -/
def ExpenseService.ListExpenses {σ : Type}
    (FindByUserID : Context → String → ListExpensesRequest → σ →
      Except String (List Expense × Int) × σ)
    (ctx : Context) (userID : String) (filters : ListExpensesRequest) (s : σ) :
    Except String ListExpensesResponse × σ :=
  if filters.StartDate ≠ "" ∧ parseDate filters.StartDate = none then
    (Except.error "start_date must be in YYYY-MM-DD format", s)
  else if filters.EndDate ≠ "" ∧ parseDate filters.EndDate = none then
    (Except.error "end_date must be in YYYY-MM-DD format", s)
  else if filters.StartDate ≠ "" ∧ filters.EndDate ≠ "" ∧
      (match parseDate filters.StartDate, parseDate filters.EndDate with
        | some startDate, some endDate => startDate.After endDate
        | _, _ => false) = true then
    (Except.error "start_date cannot be after end_date", s)
  else
    match FindByUserID ctx userID filters s with
    | (Except.error err, s1) => (Except.error err, s1)
    | (Except.ok (expenses, total), s1) =>
      let limit := if filters.Limit ≤ 0 then 20 else filters.Limit
      let limit := if limit > 100 then 100 else limit
      let page := if filters.Page ≤ 0 then 1 else filters.Page
      let pages := Int.tdiv (wrapInt64 (total + limit - 1)) limit
      (Except.ok ⟨expenses.map Expense.toResponse, total, page, limit, pages⟩, s1)

/-- ListReceiptsRequest of `model/dto.go`. -/
structure ListReceiptsRequest where
  ExpenseID : String
  Page : Int
  Limit : Int
deriving DecidableEq, Repr

/-- ListReceiptsResponse of `model/dto.go`. -/
structure ListReceiptsResponse where
  Receipts : List ReceiptResponse
  Total : Int
  Page : Int
  Limit : Int
  Pages : Int
deriving DecidableEq, Repr

/-- The loop of `ListReceipts` that gives every receipt a fresh presigned URL; the first
failure ends it. -/
def ReceiptService.presignAll {σ : Type} (svc : ReceiptService σ) (ctx : Context) :
    List Receipt → σ → Except String (List ReceiptResponse) × σ
  | [], s => (Except.ok [], s)
  | receipt :: rest, s =>
    match svc.s3Service.GetPresignedURL ctx receipt.FileKey 3600000000000 s with
    | (Except.error err, s1) =>
      (Except.error ("failed to generate presigned URL for receipt " ++ receipt.ID ++ ": "
        ++ err), s1)
    | (Except.ok presignedURL, s1) =>
      match ReceiptService.presignAll svc ctx rest s1 with
      | (Except.error err, s2) => (Except.error err, s2)
      | (Except.ok responses, s2) =>
        (Except.ok ({ receipt with FileURL := presignedURL }.toReceiptResponse :: responses),
          s2)

/-- Model of `ReceiptService.ListReceipts`; `FindByUserID` is the method of the receipt
repository. -/
def ReceiptService.ListReceipts {σ : Type} (svc : ReceiptService σ)
    (FindByUserID : Context → String → ListReceiptsRequest → σ →
      Except String (List Receipt × Int) × σ)
    (ctx : Context) (userID : String) (filters : ListReceiptsRequest) (s : σ) :
    Except String ListReceiptsResponse × σ :=
  match FindByUserID ctx userID filters s with
  | (Except.error err, s1) => (Except.error ("failed to list receipts: " ++ err), s1)
  | (Except.ok (receipts, total), s1) =>
    match svc.presignAll ctx receipts s1 with
    | (Except.error err, s2) => (Except.error err, s2)
    | (Except.ok responses, s2) =>
      let limit := if filters.Limit ≤ 0 then 20 else filters.Limit
      let limit := if limit > 100 then 100 else limit
      let page := if filters.Page ≤ 0 then 1 else filters.Page
      let pages := Int.tdiv (wrapInt64 (total + limit - 1)) limit
      (Except.ok ⟨responses, total, page, limit, pages⟩, s2)

/-- An argument of a SQL query. -/
inductive SqlArg where
  | text (s : String) : SqlArg
  | int (i : Int) : SqlArg
deriving DecidableEq, Repr

/-- A SQL query as it is sent to the pool: its text and its arguments. -/
structure SqlQuery where
  text : String
  args : List SqlArg
deriving DecidableEq, Repr

/-- The connection pool as `FindByUserID` uses it: `QueryRow` with the scan of the count,
and `Query` with the scan of the rows into expenses. -/
structure Pool (σ : Type) where
  QueryRow : Context → SqlQuery → σ → Except String Int × σ
  Query : Context → SqlQuery → σ → Except String (List Expense) × σ

/-- PostgresExpenseRepository of `postgres_expense_repository.go`. -/
structure PostgresExpenseRepository (σ : Type) where
  pool : Pool σ

/-- Result of `FindByUserID`: the expenses and the total or the error, the new world
state, and the queries sent to the pool. -/
structure Found (σ : Type) where
  val : Except String (List Expense × Int)
  state : σ
  queries : List SqlQuery

/-- The WHERE clause, the arguments and the next argument index after one optional
filter. -/
def addFilter (column value : String) (acc : String × List SqlArg × Nat) :
    String × List SqlArg × Nat :=
  if value ≠ "" then
    (acc.1 ++ " AND " ++ column ++ " $" ++ String.mk (decimal acc.2.2),
      acc.2.1 ++ [SqlArg.text value], acc.2.2 + 1)
  else acc

/-- Model of `PostgresExpenseRepository.FindByUserID`. -/
def PostgresExpenseRepository.FindByUserID {σ : Type} (r : PostgresExpenseRepository σ)
    (ctx : Context) (userID : String) (filters : ListExpensesRequest) (s : σ) : Found σ :=
  let start : String × List SqlArg × Nat :=
    ("user_id = $1 AND deleted_at IS NULL", [SqlArg.text userID], 2)
  let built := addFilter "expense_date <=" filters.EndDate
    (addFilter "expense_date >=" filters.StartDate
      (addFilter "category =" filters.Category start))
  let whereClause := built.1
  let args := built.2.1
  let argIndex := built.2.2
  let countQuery : SqlQuery := ⟨"SELECT COUNT(*) FROM expenses WHERE " ++ whereClause, args⟩
  match r.pool.QueryRow ctx countQuery s with
  | (Except.error err, s1) => ⟨Except.error err, s1, [countQuery]⟩
  | (Except.ok total, s1) =>
    let limit := if filters.Limit ≤ 0 then 20 else filters.Limit
    let limit := if limit > 100 then 100 else limit
    let page := if filters.Page ≤ 0 then 1 else filters.Page
    let offset := wrapInt64 (wrapInt64 (page - 1) * limit)
    let query : SqlQuery :=
      ⟨"\n\t\tSELECT id, user_id, amount, description, category, expense_date, created_at, updated_at, deleted_at\n\t\tFROM expenses\n\t\tWHERE "
        ++ whereClause ++ "\n\t\tORDER BY expense_date DESC, created_at DESC\n\t\tLIMIT $"
        ++ String.mk (decimal argIndex) ++ " OFFSET $" ++ String.mk (decimal (argIndex + 1))
        ++ "\n\t",
       args ++ [SqlArg.int limit, SqlArg.int offset]⟩
    match r.pool.Query ctx query s1 with
    | (Except.error err, s2) => ⟨Except.error err, s2, [countQuery, query]⟩
    | (Except.ok expenses, s2) => ⟨Except.ok (expenses, total), s2, [countQuery, query]⟩

/-- The Postgres repository as the expense service calls it. -/
def PostgresExpenseRepository.asFindByUserID {σ : Type} (r : PostgresExpenseRepository σ) :
    Context → String → ListExpensesRequest → σ → Except String (List Expense × Int) × σ :=
  fun ctx userID filters s =>
    ((r.FindByUserID ctx userID filters s).val, (r.FindByUserID ctx userID filters s).state)

/-- What C22 says of a response: the limit and the page are the clamped request values
and `pages` is the least `p >= 0` with `p * limit >= total`, zero for no total. -/
def Paginated (requestLimit requestPage total limit page pages : Int) : Prop :=
  limit = (if requestLimit ≤ 0 then 20 else if requestLimit > 100 then 100 else requestLimit) ∧
  page = (if requestPage ≤ 0 then 1 else requestPage) ∧
  0 ≤ pages ∧ total ≤ pages * limit ∧
  (∀ p : Int, 0 ≤ p → total ≤ p * limit → pages ≤ p) ∧
  (total = 0 → pages = 0)

/-! ## The event publisher of the receipt service and of the auth service -/

/-- Modelled from the spec: `event_publisher.go` of the receipt service and of the auth
service, which declares the `Event` these services build and serializes it, is not among
the sources; only the construction of the event and the call of `PublishEventAsync` are.
The spec has one Publisher for all producing services, whose message body "is the JSON
serialization of EventEnvelope", "with fields `event_type`, `user_id`, `user_email`,
`timestamp` (RFC3339), `data` (object)": the serialization `json.Marshal` gives in
`event_publisher.go` of the expense service. -/
def marshalPublishedEvent (event : Event) : Option (List Char) := marshalEvent event

/-! ## Observations used by the statements -/

/-- The unwrapping done by `processMessage` before it calls the handler: the event it
hands over, or the error it returns. -/
def unwrapBody (body : String) : Except ProcessError Event :=
  match unmarshalSNS body with
  | none => Except.error ProcessError.parseSNSEnvelope
  | some snsEnvelope =>
    if snsEnvelope.Type_ = "Notification" then
      match unmarshalEvent snsEnvelope.Message with
      | none => Except.error ProcessError.parseEventMessage
      | some event => Except.ok event
    else
      match unmarshalEvent body with
      | none => Except.error ProcessError.parseEvent
      | some event => Except.ok event

/-- The event a message unwraps to, if it has a body that unwraps. -/
def unwrappedEvent (message : Message) : Option Event :=
  match message.Body with
  | none => none
  | some body =>
    match unwrapBody body with
    | Except.ok event => some event
    | Except.error _ => none

/-- The `DeleteMessage` requests of a trace: queue URL and receipt handle, in order. -/
def deleteCalls : List Call → List (String × Option String)
  | [] => []
  | Call.deleteMessage q rh :: rest => (q, rh) :: deleteCalls rest
  | _ :: rest => deleteCalls rest

/-- The events handed to the handler in a trace, in order. -/
def handlerEvents : List Call → List Event
  | [] => []
  | Call.handler event :: rest => event :: handlerEvents rest
  | _ :: rest => handlerEvents rest

/-- The five event types `ProcessEvent` has a branch for. -/
def supportedEventTypes : List String :=
  [EventTypeExpenseCreated, EventTypeExpenseUpdated, EventTypeReceiptUploaded,
   EventTypeReceiptLinked, EventTypeUserRegistered]

/-- The `SendEmail` calls of a dispatcher trace. -/
def sendCalls : List DispatchCall → List Notification
  | [] => []
  | DispatchCall.sendEmail n :: rest => n :: sendCalls rest
  | _ :: rest => sendCalls rest

/-- A character that ends a number token: not a digit, a point or an exponent mark. -/
def endsNumber (c : Char) : Bool :=
  !isDig c && c != '.' && c != 'e' && c != 'E'

/-- Syntax tree the parser builds for the text of a string or integer payload value. -/
def plainAst : GoVal → Json
  | GoVal.str s => Json.str (escapeChars s.data)
  | GoVal.int64 i => Json.num (intDecimal i)
  | _ => Json.null

/-- Members the parser builds for the text of a payload of strings and integers. -/
def entriesAst (m : GoMap) : List (List Char × Json) :=
  m.map (fun kv => (escapeChars kv.1.data, plainAst kv.2))

/-- Syntax tree of the `data` member. -/
def dataAst : Option GoMap → Json
  | none => Json.null
  | some m => Json.obj (entriesAst m)

/-- Syntax tree the parser builds for the text `json.Marshal` writes for an event whose
timestamp text is `ts`. -/
def eventAst (event : Event) (ts : List Char) : Json :=
  Json.obj
    [(escapeChars "event_type".data, Json.str (escapeChars event.EventType.data)),
     (escapeChars "user_id".data, Json.str (escapeChars event.UserID.data)),
     (escapeChars "user_email".data, Json.str (escapeChars event.UserEmail.data)),
     (escapeChars "timestamp".data, Json.str ts),
     (escapeChars "data".data, dataAst event.Data)]

/-- The payload keys a builder copies when they hold a string, each with the render-data
key it is stored under, per event type. -/
def stringKeys (eventType : String) : List (String × String) :=
  if eventType = EventTypeExpenseCreated ∨ eventType = EventTypeExpenseUpdated then
    [("expense_id", "ExpenseID"), ("amount", "Amount"), ("description", "Description"),
     ("category", "Category"), ("expense_date", "ExpenseDate")]
  else if eventType = EventTypeReceiptUploaded then
    [("receipt_id", "ReceiptID"), ("file_name", "FileName"), ("mime_type", "MimeType"),
     ("expense_id", "ExpenseID")]
  else if eventType = EventTypeReceiptLinked then
    [("receipt_id", "ReceiptID"), ("expense_id", "ExpenseID"), ("file_name", "FileName")]
  else if eventType = EventTypeUserRegistered then
    [("user_id", "UserID"), ("email", "Email"), ("name", "Name")]
  else []

/-- A repository write that returned nil. -/
def writeSucceeded : ServiceCall → Bool
  | ServiceCall.create _ none => true
  | ServiceCall.update _ none => true
  | _ => false

/-- The events handed to the publisher in a trace, in order. -/
def publishedEvents : List ServiceCall → List Event
  | [] => []
  | ServiceCall.publishAsync _ event :: rest => event :: publishedEvents rest
  | _ :: rest => publishedEvents rest

/-- Every hand-over to the publisher in the trace comes after a repository write that
returned nil; `written` tells whether such a write has been passed. -/
def onlyAfterWrite : Bool → List ServiceCall → Bool
  | _, [] => true
  | written, ServiceCall.publishAsync _ _ :: rest => written && onlyAfterWrite written rest
  | written, c :: rest => onlyAfterWrite (written || writeSucceeded c) rest

/-- What the trace of a producing operation satisfies: every hand-over to the publisher
comes after a repository write that returned nil; a trace without such a write hands over
no event; without a publisher no event is handed over; the events handed over have the
event type of the operation; and with a publisher a successful write is followed by
exactly one hand-over. -/
def PublishesAfterWrite (hasPublisher : Bool) (eventType : String) (calls : List ServiceCall) :
    Prop :=
  onlyAfterWrite false calls = true ∧
  ((∀ c ∈ calls, writeSucceeded c = false) → publishedEvents calls = []) ∧
  (hasPublisher = false → publishedEvents calls = []) ∧
  (∀ e ∈ publishedEvents calls, e.EventType = eventType) ∧
  (hasPublisher = true → (∃ c ∈ calls, writeSucceeded c = true) →
    (publishedEvents calls).length = 1)

/-- The MIME type `UploadReceipt` validates: the type of the extension of the file name,
`application/octet-stream` when there is none, with `image/jpg` normalised to
`image/jpeg`. -/
def uploadMimeType {σ : Type} (svc : ReceiptService σ) (filename : String) : String :=
  let detected := svc.runtime.TypeByExtension (Ext filename)
  let mimeType := if detected = "" then "application/octet-stream" else detected
  if mimeType = "image/jpg" then "image/jpeg" else mimeType

/-- What C28 says of an event a producer hands over, for the serialization `marshal` of
the producer: its serialization succeeds and is
read back by the consumer as an event of the same type, which the dispatcher recognises;
and the render data of the builder holds the value of every payload entry of the
producer: a string under the render-data key of its payload key, and the integer
`file_size` of a receipt.uploaded event, positive and at most `MaxFileSize`, under
`FileSize`. -/
def PayloadAgrees (marshal : Event → Option (List Char)) (event : Event) : Prop :=
  ∃ text received name subject data,
    marshal event = some text ∧
    unmarshalEvent (String.mk text) = some received ∧
    received.EventType = event.EventType ∧
    selectTemplate received = some (name, subject, data) ∧
    ∀ key value, event.get key = some value →
      (∃ content dst, value = GoVal.str content ∧ (key, dst) ∈ stringKeys event.EventType ∧
        GoMap.get data dst = some (GoVal.str content)) ∨
      (∃ n, value = GoVal.int64 n ∧ key = "file_size" ∧
        event.EventType = EventTypeReceiptUploaded ∧ 0 < n ∧ n ≤ MaxFileSize ∧
        GoMap.get data "FileSize" = some (GoVal.int64 n))

/-! ## Sample inputs -/

/-- A broker on the trivial world: empty receives, successful deletes, no cancellation. -/
def sampleBroker : Broker Unit :=
  ⟨fun _ s => (some [], s), fun _ _ s => (none, s), fun _ => none, fun _ s => s⟩

/-- A handler that always succeeds. -/
def okHandler : MessageHandler Unit := fun _ s => (none, s)

/-- A raw envelope as a producer writes it. -/
def sampleEnvelopeText : String :=
  "\x7b\"event_type\":\"user.registered\",\"user_id\":\"u1\",\"user_email\":\"a@b.com\",\"timestamp\":\"2024-01-05T10:20:30Z\",\"data\":\x7b\"name\":\"Ann\"\x7d\x7d"

/-- A batch whose first message is not JSON and whose second is a raw envelope. -/
def sampleBatch : List Message :=
  [⟨some "not json", some "rh-1"⟩, ⟨some sampleEnvelopeText, some "rh-2"⟩]

/-- The event `sampleEnvelopeText` decodes to. -/
def sampleEvent : Event :=
  ⟨"user.registered", "u1", "a@b.com", ⟨2024, 1, 5, 10, 20, 30, 0, 0⟩,
    some [("name", GoVal.str "Ann")]⟩

/-- The topic-wrapped form of `sampleEnvelopeText`. -/
def sampleWrappedText : String :=
  "\x7b\"Type\":\"Notification\",\"MessageId\":\"m-1\",\"Message\":\"\x7b\\\"event_type\\\":\\\"user.registered\\\",\\\"user_id\\\":\\\"u1\\\",\\\"user_email\\\":\\\"a@b.com\\\",\\\"timestamp\\\":\\\"2024-01-05T10:20:30Z\\\",\\\"data\\\":\x7b\\\"name\\\":\\\"Ann\\\"\x7d\x7d\"\x7d"

/-- A raw envelope with an extra member `Message` that is not a string. -/
def numericMessageText : String :=
  "\x7b\"event_type\":\"user.registered\",\"user_email\":\"a@b.com\",\"Message\":42\x7d"

/-- A raw envelope with an extra member `Type` equal to `Notification`. -/
def taggedEnvelopeText : String :=
  "\x7b\"event_type\":\"expense.created\",\"user_email\":\"a@b.com\",\"Type\":\"Notification\"\x7d"

/-- The topic-wrapped form of `taggedEnvelopeText`. -/
def taggedWrappedText : String :=
  "\x7b\"Type\":\"Notification\",\"Message\":\"\x7b\\\"event_type\\\":\\\"expense.created\\\",\\\"user_email\\\":\\\"a@b.com\\\",\\\"Type\\\":\\\"Notification\\\"\x7d\"\x7d"

/-- A service on the trivial world whose only template is `expense_created` and whose
SNS client accepts every publish. -/
def sampleService : NotificationService Unit :=
  ⟨⟨"arn:topic", fun _ s => (none, s)⟩,
   ⟨[("expense_created", fun data => Except.ok (fmtS (data.get "Content")))]⟩⟩

/-- The envelope of the scenario in the specification: an expense of 12.50 for coffee. -/
def coffeeEvent : Event :=
  ⟨"expense.created", "u1", "a@b.com", ⟨2024, 1, 5, 10, 20, 30, 0, 0⟩,
    some [("amount", GoVal.str "12.50"), ("category", GoVal.str "Food"),
          ("description", GoVal.str "Coffee"), ("expense_date", GoVal.str "2024-01-05")]⟩

/-- An event whose type is not one of the five supported ones. -/
def unknownEvent : Event := ⟨"expense.deleted", "u1", "a@b.com", Time.zero, none⟩

/-- The mapping of the scenario as the specification writes it: four keys only. -/
def coffeeFourKeys : GoMap :=
  [("Amount", GoVal.str "12.50"), ("Category", GoVal.str "Food"),
   ("Description", GoVal.str "Coffee"), ("ExpenseDate", GoVal.str "2024-01-05")]

/-- The `Content` entry `buildExpenseCreatedData` formats from the four values. -/
def expenseCreatedContent (amount description category expenseDate : String) : String :=
  "<h2>New Expense Added</h2><p>You\x27ve added a new expense:</p><ul><li><strong>Amount:</strong> $"
    ++ amount ++ "</li><li><strong>Description:</strong> "
    ++ description ++ "</li><li><strong>Category:</strong> "
    ++ category ++ "</li><li><strong>Date:</strong> "
    ++ expenseDate ++ "</li></ul>"

/-- A receipt.uploaded envelope as `UploadReceipt` builds it: the file size is an
`int64`. -/
def uploadEvent : Event :=
  ⟨"receipt.uploaded", "u1", "a@b.com", ⟨2024, 1, 5, 10, 20, 30, 0, 0⟩,
    some [("file_name", GoVal.str "r.pdf"), ("file_size", GoVal.int64 1024),
          ("mime_type", GoVal.str "application/pdf"), ("receipt_id", GoVal.str "r1")]⟩

/-- The text `json.Marshal` writes for `uploadEvent`. -/
def uploadText : String :=
  "\x7b\"event_type\":\"receipt.uploaded\",\"user_id\":\"u1\",\"user_email\":\"a@b.com\",\"timestamp\":\"2024-01-05T10:20:30Z\",\"data\":\x7b\"file_name\":\"r.pdf\",\"file_size\":1024,\"mime_type\":\"application/pdf\",\"receipt_id\":\"r1\"\x7d\x7d"

/-- An envelope whose integer payload value is 2 ^ 53 + 1. -/
def hugeEvent : Event :=
  ⟨"receipt.uploaded", "u1", "a@b.com", ⟨2024, 1, 5, 10, 20, 30, 0, 0⟩,
    some [("file_size", GoVal.int64 9007199254740993)]⟩

/-- The text `json.Marshal` writes for `hugeEvent`. -/
def hugeText : String :=
  "\x7b\"event_type\":\"receipt.uploaded\",\"user_id\":\"u1\",\"user_email\":\"a@b.com\",\"timestamp\":\"2024-01-05T10:20:30Z\",\"data\":\x7b\"file_size\":9007199254740993\x7d\x7d"

/-- The topic-wrapped form of `uploadText`. -/
def uploadWrappedText : String :=
  "\x7b\"Type\":\"Notification\",\"Message\":\"\x7b\\\"event_type\\\":\\\"receipt.uploaded\\\",\\\"user_id\\\":\\\"u1\\\",\\\"user_email\\\":\\\"a@b.com\\\",\\\"timestamp\\\":\\\"2024-01-05T10:20:30Z\\\",\\\"data\\\":\x7b\\\"file_name\\\":\\\"r.pdf\\\",\\\"file_size\\\":1024,\\\"mime_type\\\":\\\"application/pdf\\\",\\\"receipt_id\\\":\\\"r1\\\"\x7d\x7d\"\x7d"

/-- A handler on a counter world that always succeeds. -/
def idleHandler : MessageHandler Nat := fun _ n => (none, n)

/-- A broker on a counter: the first receive fails and later ones return no message;
every receive and every sleep advances the counter; the context is cancelled once the
counter has reached 3. -/
def flakyBroker : Broker Nat :=
  ⟨fun _ n => if n = 0 then (none, 1) else (some [], n + 1), fun _ _ n => (none, n),
   fun n => if 3 ≤ n then some "context canceled" else none, fun _ n => n + 1⟩

/-- A batch of two well-formed messages: a raw envelope and a topic-wrapped one. -/
def twoEnvelopes : List Message :=
  [⟨some sampleEnvelopeText, some "rh-1"⟩, ⟨some sampleWrappedText, some "rh-2"⟩]

/-- A broker on a counter whose context is cancelled while the first batch is in flight:
the context reports no error in state 0 and `context canceled` from the moment the
receive has returned. -/
def cancellingBroker : Broker Nat :=
  ⟨fun _ n => (some twoEnvelopes, n + 1), fun _ _ n => (none, n),
   fun n => if n = 0 then none else some "context canceled", fun _ n => n⟩

/-- A receipt.uploaded body whose file size is the number 1.5. -/
def fractionalSizeText : String :=
  "\x7b\"event_type\":\"receipt.uploaded\",\"user_email\":\"a@b.com\",\"data\":\x7b\"file_name\":\"r.pdf\",\"file_size\":1.5\x7d\x7d"

/-- The event `fractionalSizeText` decodes to: the file size is the float64 3/2. -/
def fractionalSizeEvent : Event :=
  ⟨"receipt.uploaded", "", "a@b.com", Time.zero,
    some [("file_name", GoVal.str "r.pdf"), ("file_size", GoVal.float64 ⟨3, 1⟩)]⟩

/-- An expense.created event whose payload has no amount. -/
def noAmountEvent : Event :=
  ⟨"expense.created", "u1", "a@b.com", ⟨2024, 1, 5, 10, 20, 30, 0, 0⟩,
    some [("category", GoVal.str "Food"), ("description", GoVal.str "Coffee"),
          ("expense_date", GoVal.str "2024-01-05")]⟩

/-- A receipt.uploaded event whose payload has no file size. -/
def noSizeEvent : Event :=
  ⟨"receipt.uploaded", "u1", "a@b.com", ⟨2024, 1, 5, 10, 20, 30, 0, 0⟩,
    some [("file_name", GoVal.str "r.pdf"), ("mime_type", GoVal.str "application/pdf"),
          ("receipt_id", GoVal.str "r1")]⟩

/-- A service on the trivial world with the default templates and an SNS client that
accepts every publish. -/
def defaultService : NotificationService Unit :=
  ⟨⟨"arn:topic", fun _ s => (none, s)⟩, defaultTemplateService⟩

/-- A publisher whose world is the list of messages the topic has accepted: the SNS client
refuses a call made under a cancelled context and accepts every other one. -/
def recordingPublisher : EventPublisher (List PublishInput) :=
  ⟨"arn:events", fun ctx input log =>
    match ctx.err with
    | some e => (some e, log)
    | none => (none, log ++ [input])⟩

/-- A context that has been cancelled. -/
def cancelledContext : Context := ⟨some "context canceled", []⟩

/-- An envelope whose timestamp lies in the year 10000, which `Time.MarshalJSON` refuses. -/
def lateEvent : Event :=
  ⟨"expense.created", "u1", "a@b.com", ⟨10000, 1, 1, 0, 0, 0, 0, 0⟩, some []⟩

/-- The empty environment: no variable is set. -/
def emptyEnv : Env := fun _ => ""

/-- An environment in which only `JWT_SECRET` is set. -/
def secretOnlyEnv : Env := fun key => if key = "JWT_SECRET" then "s3cr3t" else ""

/-- An environment with the credentials, the email topic and the receipt queue only. -/
def receiptQueueEnv : Env := fun key =>
  if key = "AWS_ACCESS_KEY_ID" then "AKIA"
  else if key = "AWS_SECRET_ACCESS_KEY" then "secret"
  else if key = "NOTIFICATION_EMAIL_TOPIC_ARN" then "arn:email"
  else if key = "RECEIPT_EVENTS_QUEUE_URL" then "https://sqs/receipts"
  else ""

/-- A runtime on any world: `ParseFloat` reads plain number tokens, the clock shows noon
of 2024-01-05 UTC, and the only id is `id-1`. -/
def sampleRuntime (σ : Type) : Runtime σ :=
  ⟨fun text => (parseFloat text.data).map Float64.finite, fun _ => "",
   fun s => (⟨2024, 1, 5, 12, 0, 0, 0, 0⟩, s), fun s => ("id-1", s)⟩

/-- An expense service with a publisher, on the list of stored expenses. -/
def memoryExpenseService : ExpenseService (List Expense) :=
  ⟨⟨fun _ expense stored => (none, stored ++ [expense]),
    fun _ id userID stored =>
      (Except.ok (stored.find? (fun e => e.ID = id && e.UserID = userID)), stored),
    fun _ expense stored =>
      (none, stored.map (fun e => if e.ID = expense.ID then expense else e))⟩,
   true, sampleRuntime (List Expense)⟩

/-- An expense service with a publisher whose repository refuses every write. -/
def brokenExpenseService : ExpenseService (List Expense) :=
  ⟨⟨fun _ _ stored => (some "db down", stored),
    fun _ _ _ stored => (Except.ok none, stored),
    fun _ _ stored => (some "db down", stored)⟩,
   true, sampleRuntime (List Expense)⟩

/-- The context of a request of the user with email `a@b.com`. -/
def requestContext : Context := ⟨none, [("user_email", GoVal.str "a@b.com")]⟩

/-- The request of the scenario: 12.50 for coffee on 2024-01-05. -/
def coffeeRequest : CreateExpenseRequest := ⟨"12.50", "Coffee", "Food", "2024-01-05"⟩

/-- A receipt service without publisher whose collaborators accept every call. -/
def acceptingReceiptService (σ : Type) : ReceiptService σ :=
  ⟨⟨fun _ _ s => (none, s), fun _ _ _ s => (Except.ok none, s), fun _ _ s => (none, s)⟩,
   ⟨fun _ _ _ _ _ s => (none, s), fun _ _ _ s => (Except.ok "https://s3/url", s),
    fun _ _ s => (none, s)⟩,
   false, sampleRuntime σ⟩

/-- An auth service without publisher whose collaborators accept every call. -/
def acceptingAuthService (σ : Type) : AuthService σ :=
  ⟨⟨fun _ _ s => (Except.ok none, s), fun _ _ s => (none, s)⟩,
   fun _ s => (Except.ok "hash", s), fun _ _ s => (Except.ok "token", s), false,
   sampleRuntime σ⟩

/-- A broker on a counter whose first batch holds one message without body. -/
def nilBodyBroker : Broker Nat :=
  ⟨fun _ n => (some [⟨none, some "rh-0"⟩, ⟨some sampleEnvelopeText, some "rh-1"⟩], n + 1),
   fun _ _ n => (none, n), fun _ => none, fun _ n => n⟩

/-- A runtime that knows the types of `.pdf`, `.png`, `.jpg` and `.txt`. -/
def mimeRuntime (σ : Type) : Runtime σ :=
  ⟨fun text => (parseFloat text.data).map Float64.finite,
   fun ext =>
     if ext = ".pdf" then "application/pdf"
     else if ext = ".png" then "image/png"
     else if ext = ".jpg" then "image/jpeg"
     else if ext = ".txt" then "text/plain; charset=utf-8"
     else "",
   fun s => (⟨2024, 1, 5, 12, 0, 0, 0, 0⟩, s), fun s => ("id-1", s)⟩

/-- A receipt service with a publisher, on the trivial world, whose collaborators accept
every call. -/
def pdfReceiptService : ReceiptService Unit :=
  ⟨⟨fun _ _ s => (none, s), fun _ _ _ s => (Except.ok none, s), fun _ _ s => (none, s)⟩,
   ⟨fun _ _ _ _ _ s => (none, s), fun _ _ _ s => (Except.ok "https://s3/url", s),
    fun _ _ s => (none, s)⟩,
   true, mimeRuntime Unit⟩

/-- A templates directory without any file, in which the default template can be written
and parses. -/
def emptyTemplatesDir : String → TemplateFile :=
  fun _ => ⟨false, none, Except.ok defaultTemplate⟩

/-- A runtime whose `ParseFloat` is `parseFloatText`; the clock shows noon of 2024-01-05
UTC, and the only id is `id-1`. -/
def textRuntime (σ : Type) : Runtime σ :=
  ⟨parseFloatText, fun _ => "", fun s => (⟨2024, 1, 5, 12, 0, 0, 0, 0⟩, s),
   fun s => ("id-1", s)⟩

/-- An expense service without publisher, on the list of stored expenses, that parses
amounts with `parseFloatText`. -/
def textExpenseService : ExpenseService (List Expense) :=
  ⟨⟨fun _ expense stored => (none, stored ++ [expense]),
    fun _ id userID stored =>
      (Except.ok (stored.find? (fun e => e.ID = id && e.UserID = userID)), stored),
    fun _ expense stored =>
      (none, stored.map (fun e => if e.ID = expense.ID then expense else e))⟩,
   false, textRuntime (List Expense)⟩

/-- The scenario request with the amount `NaN`. -/
def nanRequest : CreateExpenseRequest := ⟨"NaN", "Coffee", "Food", "2024-01-05"⟩

/-- An expense repository that finds no expense on the page and reports the largest
`int` as total. -/
def hugeTotalFind : Context → String → ListExpensesRequest → Unit →
    Except String (List Expense × Int) × Unit :=
  fun _ _ _ s => (Except.ok ([], 9223372036854775807), s)

/-- A Postgres repository whose pool counts 45 expenses and returns no row. -/
def countingRepository : PostgresExpenseRepository Unit :=
  ⟨⟨fun _ _ s => (Except.ok 45, s), fun _ _ s => (Except.ok [], s)⟩⟩

/-- A request for page 3 of the category Food, without limit. -/
def pageThreeRequest : ListExpensesRequest := ⟨"Food", "", "", 3, 0⟩

/-- A JWT service that accepts only the token `good`, of user `u1`. -/
def sampleJwt : String → Unit → Except String Claims × Unit :=
  fun tokenString s =>
    if tokenString = "good" then (Except.ok ⟨"u1", "a@b.com"⟩, s)
    else (Except.error "token is malformed", s)

/-- A user repository that holds the user `u1` only. -/
def sampleFindByID : Context → String → Unit → Except String (Option User) × Unit :=
  fun _ id s =>
    if id = "u1" then
      (Except.ok (some ⟨"u1", "a@b.com", "hash", "Ann", ⟨2024, 1, 5, 12, 0, 0, 0, 0⟩,
        ⟨2024, 1, 5, 12, 0, 0, 0, 0⟩, none⟩), s)
    else (Except.ok none, s)

/-- An expense service with a publisher, on the trivial world, whose repository accepts
every call and finds nothing. -/
def acceptingExpenseService : ExpenseService Unit :=
  ⟨⟨fun _ _ s => (none, s), fun _ _ _ s => (Except.ok none, s), fun _ _ s => (none, s)⟩,
   true, sampleRuntime Unit⟩

/-- The receipt.uploaded event of the upload of `r.pdf`, 1024 bytes, for expense `e1`. -/
def linkedUploadEvent : Event :=
  ⟨"receipt.uploaded", "u1", "a@b.com", ⟨2024, 1, 5, 12, 0, 0, 0, 0⟩,
    some [("expense_id", GoVal.str "e1"), ("file_name", GoVal.str "r.pdf"),
          ("file_size", GoVal.int64 1024), ("mime_type", GoVal.str "application/pdf"),
          ("receipt_id", GoVal.str "id-1")]⟩

/-- A batch whose first message is not JSON, whose second has no body and whose third is
a raw envelope. -/
def brokenBatch : List Message :=
  [⟨some "not json", some "rh-1"⟩, ⟨none, some "rh-2"⟩, ⟨some sampleEnvelopeText, some "rh-3"⟩]

/-- A broker on a counter that delivers `brokenBatch`; the context is never cancelled. -/
def brokenBatchBroker : Broker Nat :=
  ⟨fun _ n => (some brokenBatch, n + 1), fun _ _ n => (none, n), fun _ => none, fun _ n => n⟩

/-- A batch of a raw envelope, a message without body and a topic-wrapped envelope. -/
def envelopesAroundNilBody : List Message :=
  [⟨some sampleEnvelopeText, some "rh-1"⟩, ⟨none, some "rh-2"⟩,
   ⟨some sampleWrappedText, some "rh-3"⟩]

/-- A broker on a counter that delivers `envelopesAroundNilBody` and whose context is
cancelled while that batch is in flight: the context reports no error in state 0 and
`context canceled` from the moment the receive has returned. -/
def cancellingNilBodyBroker : Broker Nat :=
  ⟨fun _ n => (some envelopesAroundNilBody, n + 1), fun _ _ n => (none, n),
   fun n => if n = 0 then none else some "context canceled", fun _ n => n⟩

/-! ## Theorems: the consumer loop -/

theorem deleteCalls_append (xs ys : List Call) :
    deleteCalls (xs ++ ys) = deleteCalls xs ++ deleteCalls ys := by
  induction xs with
  | nil => rfl
  | cons c rest ih => cases c <;> simp [deleteCalls, ih]

theorem handlerEvents_append (xs ys : List Call) :
    handlerEvents (xs ++ ys) = handlerEvents xs ++ handlerEvents ys := by
  induction xs with
  | nil => rfl
  | cons c rest ih => cases c <;> simp [handlerEvents, ih]

/-- The handler call made by `callHandler` and its result. -/
theorem callHandler_spec {σ : Type} (handler : MessageHandler σ) (event : Event) (s : σ) :
    (callHandler handler event s).calls = [Call.handler event] ∧
    (callHandler handler event s).state = (handler event s).2 ∧
    ((callHandler handler event s).val = Outcome.ok ↔ (handler event s).1 = none) ∧
    (callHandler handler event s).val ≠ Outcome.panic := by
  unfold callHandler
  rcases h : handler event s with ⟨e, s1⟩
  cases e <;> simp

/-- `processMessage` is the unwrapping followed by the handler. -/
theorem processMessage_eq {σ : Type} (message : Message) (handler : MessageHandler σ) (s : σ) :
    processMessage message handler s =
      match message.Body with
      | none => ⟨Outcome.panic, s, []⟩
      | some body =>
        match unwrapBody body with
        | Except.error e => ⟨Outcome.error e, s, []⟩
        | Except.ok event => callHandler handler event s := by
  unfold processMessage unwrapBody
  cases message.Body with
  | none => rfl
  | some body =>
    simp only
    cases unmarshalSNS body with
    | none => rfl
    | some env =>
      simp only
      by_cases ht : env.Type_ = "Notification"
      · simp only [ht, if_true]
        cases unmarshalEvent env.Message <;> rfl
      · simp only [ht, if_false]
        cases unmarshalEvent body <;> rfl

/-- The four ways the loop body can go for one message. -/
theorem loopBody_eq {σ : Type} (b : Broker σ) (q : String) (handler : MessageHandler σ)
    (message : Message) (s : σ) :
    loopBody b q handler message s =
      match message.Body with
      | none => ⟨Outcome.panic, s, []⟩
      | some body =>
        match unwrapBody body with
        | Except.error e => ⟨Outcome.error e, s, []⟩
        | Except.ok event =>
          match (handler event s).1 with
          | some msg =>
            ⟨Outcome.error (ProcessError.handlerError msg), (handler event s).2,
              [Call.handler event]⟩
          | none =>
            ⟨Outcome.ok, (b.DeleteMessage q message.ReceiptHandle (handler event s).2).2,
              [Call.handler event, Call.deleteMessage q message.ReceiptHandle]⟩ := by
  unfold loopBody
  rw [processMessage_eq]
  cases message.Body with
  | none => rfl
  | some body =>
    simp only
    cases unwrapBody body with
    | error e => rfl
    | ok event =>
      simp only [callHandler]
      rcases h : handler event s with ⟨e, s1⟩
      cases e <;> simp

/-- One step of the batch loop. -/
theorem processBatch_cons {σ : Type} (b : Broker σ) (q : String) (handler : MessageHandler σ)
    (message : Message) (rest : List Message) (s : σ) :
    processBatch b q handler (message :: rest) s =
      if (loopBody b q handler message s).val = Outcome.panic then
        ⟨[Outcome.panic], (loopBody b q handler message s).state,
          (loopBody b q handler message s).calls⟩
      else
        ⟨(loopBody b q handler message s).val ::
            (processBatch b q handler rest (loopBody b q handler message s).state).val,
          (processBatch b q handler rest (loopBody b q handler message s).state).state,
          (loopBody b q handler message s).calls ++
            (processBatch b q handler rest (loopBody b q handler message s).state).calls⟩ := by
  rw [processBatch]
  cases h : (loopBody b q handler message s).val <;> simp

/-- C1. In ConsumeMessages, wherever the loop reaches a message (in state `s`, with the
messages `post` still to come), the calls made for that message come first in the rest of
the trace, and they contain a DeleteMessage request, for the polled queue and the
message's receipt handle, if and only if the body was unwrapped into an event and the
handler returned nil for it; when unwrapping fails or the handler returns an error no
delete is requested. -/
theorem delete_iff_dispatched {σ : Type} (b : Broker σ) (queueURL : String)
    (handler : MessageHandler σ) (message : Message) (post : List Message) (s : σ) :
    (processBatch b queueURL handler (message :: post) s).calls =
        (loopBody b queueURL handler message s).calls ++
          (if (loopBody b queueURL handler message s).val = Outcome.panic then []
           else (processBatch b queueURL handler post
                  (loopBody b queueURL handler message s).state).calls) ∧
    (deleteCalls (loopBody b queueURL handler message s).calls
        = [(queueURL, message.ReceiptHandle)] ↔
      ∃ body event, message.Body = some body ∧ unwrapBody body = Except.ok event ∧
        (handler event s).1 = none) ∧
    ((¬ ∃ body event, message.Body = some body ∧ unwrapBody body = Except.ok event ∧
        (handler event s).1 = none) →
      deleteCalls (loopBody b queueURL handler message s).calls = []) := by
  refine ⟨?_, ?_⟩
  · rw [processBatch_cons]
    by_cases hp : (loopBody b queueURL handler message s).val = Outcome.panic <;> simp [hp]
  · rw [loopBody_eq]
    cases hb : message.Body with
    | none => simp [deleteCalls]
    | some body =>
      cases hu : unwrapBody body with
      | error e => simp [deleteCalls, hu]
      | ok event =>
        cases hh : (handler event s).1 with
        | some msg => simp [deleteCalls, hu, hh]
        | none => simp [deleteCalls, hu, hh]

/-- C2. In every batch the DeleteMessage requests are, in order, exactly one request per
message for which `processMessage` returned nil, each with the polled queue URL and that
message's own receipt handle; so the number of requests equals the number of successfully
dispatched messages and no message is deleted twice. -/
theorem one_delete_per_success {σ : Type} (b : Broker σ) (queueURL : String)
    (handler : MessageHandler σ) (messages : List Message) (s : σ) :
    deleteCalls (processBatch b queueURL handler messages s).calls =
        ((messages.zip (processBatch b queueURL handler messages s).val).filter
            (fun p => decide (p.2 = Outcome.ok))).map
          (fun p => (queueURL, p.1.ReceiptHandle)) ∧
    (deleteCalls (processBatch b queueURL handler messages s).calls).length =
        (processBatch b queueURL handler messages s).val.count Outcome.ok := by
  induction messages generalizing s with
  | nil => simp [processBatch, deleteCalls]
  | cons message rest ih =>
    rw [processBatch_cons]
    have hl := loopBody_eq b queueURL handler message s
    cases hb : message.Body with
    | none =>
      simp only [hb] at hl
      simp [hl, deleteCalls]
    | some body =>
      cases hu : unwrapBody body with
      | error e =>
        simp only [hb, hu] at hl
        obtain ⟨h1, h2⟩ := ih (s)
        simp only [h1, List.length_map] at h2
        simp [hl, deleteCalls, h1, h2]
      | ok event =>
        cases hh : (handler event s).1 with
        | some msg =>
          simp only [hb, hu, hh] at hl
          obtain ⟨h1, h2⟩ := ih ((handler event s).2)
          simp only [h1, List.length_map] at h2
          simp [hl, deleteCalls, h1, h2]
        | none =>
          simp only [hb, hu, hh] at hl
          obtain ⟨h1, h2⟩ := ih ((b.DeleteMessage queueURL message.ReceiptHandle (handler event s).2).2)
          simp only [h1, List.length_map] at h2
          simp [hl, deleteCalls, h1, h2]

/-- The batch loop on messages that all carry a body: one outcome per message, none of
them a panic, and the handler is called for exactly the messages that unwrap. -/
theorem processBatch_bodies {σ : Type} (b : Broker σ) (q : String) (handler : MessageHandler σ)
    (messages : List Message) (s : σ) (hbody : ∀ m ∈ messages, m.Body ≠ none) :
    (processBatch b q handler messages s).val.length = messages.length ∧
    Outcome.panic ∉ (processBatch b q handler messages s).val ∧
    handlerEvents (processBatch b q handler messages s).calls
      = messages.filterMap unwrappedEvent := by
  induction messages generalizing s with
  | nil => simp [processBatch, handlerEvents]
  | cons message rest ih =>
    have hrest : ∀ m ∈ rest, m.Body ≠ none := fun m hm => hbody m (List.mem_cons_of_mem _ hm)
    have hm := hbody message (List.mem_cons_self _ _)
    rw [processBatch_cons]
    have hl := loopBody_eq b q handler message s
    cases hb : message.Body with
    | none => exact absurd hb hm
    | some body =>
      cases hu : unwrapBody body with
      | error e =>
        simp only [hb, hu] at hl
        obtain ⟨h1, h2, h3⟩ := ih s hrest
        simp [hl, handlerEvents, unwrappedEvent, hb, hu, h1, h2, h3]
      | ok event =>
        cases hh : (handler event s).1 with
        | some msg =>
          simp only [hb, hu, hh] at hl
          obtain ⟨h1, h2, h3⟩ := ih (handler event s).2 hrest
          simp [hl, handlerEvents, unwrappedEvent, hb, hu, h1, h2, h3]
        | none =>
          simp only [hb, hu, hh] at hl
          obtain ⟨h1, h2, h3⟩ :=
            ih (b.DeleteMessage q message.ReceiptHandle (handler event s).2).2 hrest
          simp [hl, handlerEvents, unwrappedEvent, hb, hu, h1, h2, h3]

/-- Isolation within a batch, where it holds: for every batch of messages that all carry
a body and every handler, every message of the batch is processed, whatever happened to
the others; the handler is invoked once, in batch order, for exactly the messages whose
own body unwraps into an event; and the iteration never makes ConsumeMessages return:
after the batch the loop goes on to its next iteration. A batch that holds a message
without body is treated with the theorems on such batches below. -/
theorem batch_isolation {σ : Type} (b : Broker σ) (queueURL : String)
    (handler : MessageHandler σ) (messages : List Message) (s : σ)
    (hbody : ∀ m ∈ messages, m.Body ≠ none) :
    (processBatch b queueURL handler messages s).val.length = messages.length ∧
    Outcome.panic ∉ (processBatch b queueURL handler messages s).val ∧
    handlerEvents (processBatch b queueURL handler messages s).calls
      = messages.filterMap unwrappedEvent ∧
    (∀ (fuel : Nat) (s0 : σ), b.ctxErr s0 = none →
      b.ReceiveMessage queueURL s0 = (some messages, s) →
      (ConsumeMessages b queueURL handler (fuel + 1) s0).val =
        (ConsumeMessages b queueURL handler fuel
          (processBatch b queueURL handler messages s).state).val) := by
  obtain ⟨h1, h2, h3⟩ := processBatch_bodies b queueURL handler messages s hbody
  refine ⟨h1, h2, h3, ?_⟩
  intro fuel s0 hctx hrecv
  rw [ConsumeMessages]
  simp [hctx, hrecv, h2]

/-- Example for `batch_isolation`: a batch whose first message is malformed and whose
second is a raw envelope; both are processed and the handler is called once, for the
second. -/
theorem batch_isolation_witness :
    (∀ m ∈ sampleBatch, m.Body ≠ none) ∧
    (processBatch sampleBroker "queue" okHandler sampleBatch ()).val.length = 2 ∧
    (handlerEvents (processBatch sampleBroker "queue" okHandler sampleBatch ()).calls).length
      = 1 :=
  have hb : ∀ m ∈ sampleBatch, m.Body ≠ none := by
    intro m hm
    simp [sampleBatch] at hm
    rcases hm with rfl | rfl <;> simp
  have h := batch_isolation sampleBroker "queue" okHandler sampleBatch () hb
  ⟨hb, h.1, by rw [h.2.2.1]; decide⟩

/-! ## Theorems: the unwrapper -/

/-- Counterexample to C5 as stated: the body `numericMessageText` fails to parse as the
Notification wrapper (its `Message` member is a number) and parses directly as an event,
yet `processMessage` returns the wrapper parse error and never calls the handler. -/
theorem wrapper_failure_no_fallback :
    unmarshalSNS numericMessageText = none ∧
    (unmarshalEvent numericMessageText).map (fun e => e.EventType) = some "user.registered" ∧
    (processMessage ⟨some numericMessageText, some "rh"⟩ okHandler ()).val
      = Outcome.error ProcessError.parseSNSEnvelope ∧
    (processMessage ⟨some numericMessageText, some "rh"⟩ okHandler ()).calls.length = 0 := by
  refine ⟨by decide, by decide, by decide, by decide⟩

/-- C5, amended. When the parse of the raw body as the Notification wrapper fails,
`processMessage` returns the wrapper parse error without calling the handler and without
a second parse. The raw body is parsed directly as an event only when the wrapper parse
succeeds with a `Type` other than `Notification`; when that direct parse succeeds the
handler is invoked with the resulting event. -/
theorem direct_parse_only_after_wrapper_parse {σ : Type} (message : Message) (body : String)
    (handler : MessageHandler σ) (s : σ) (hb : message.Body = some body) :
    (unmarshalSNS body = none →
      processMessage message handler s
        = ⟨Outcome.error ProcessError.parseSNSEnvelope, s, []⟩) ∧
    (∀ env event, unmarshalSNS body = some env → env.Type_ ≠ "Notification" →
      unmarshalEvent body = some event →
      processMessage message handler s = callHandler handler event s) := by
  constructor
  · intro h
    simp [processMessage, hb, h]
  · intro env event henv ht hev
    simp [processMessage, hb, henv, ht, hev]

/-- Witness for C5 amended: the wrapper parse of `numericMessageText` fails and the
message ends with the wrapper parse error; `sampleEnvelopeText` parses as a wrapper of
empty `Type` and is handed to the handler as `sampleEvent`. -/
theorem direct_parse_only_after_wrapper_parse_witness :
    unmarshalSNS numericMessageText = none ∧
    processMessage ⟨some numericMessageText, none⟩ okHandler ()
      = ⟨Outcome.error ProcessError.parseSNSEnvelope, (), []⟩ ∧
    processMessage ⟨some sampleEnvelopeText, none⟩ okHandler ()
      = callHandler okHandler sampleEvent () :=
  ⟨by decide,
   (direct_parse_only_after_wrapper_parse ⟨some numericMessageText, none⟩ numericMessageText
      okHandler () rfl).1 (by decide),
   (direct_parse_only_after_wrapper_parse ⟨some sampleEnvelopeText, none⟩ sampleEnvelopeText
      okHandler () rfl).2
      ⟨"", "", "", "", "2024-01-05T10:20:30Z", "", "", "", ""⟩ sampleEvent
      (by decide) (by decide) (by rfl)⟩

/-- Counterexample to C6 as stated: `taggedEnvelopeText` parses as an event, and
`taggedWrappedText` is its topic-wrapped form; on the wrapped body the handler is called,
on the raw body `processMessage` takes the `Type` member for the wrapper discriminator,
parses the empty `Message` and fails without calling the handler. -/
theorem wrapped_and_raw_differ :
    (unmarshalEvent taggedEnvelopeText).map (fun e => e.EventType) = some "expense.created" ∧
    (unmarshalSNS taggedWrappedText).map (fun e => (e.Type_, e.Message))
      = some ("Notification", taggedEnvelopeText) ∧
    (processMessage ⟨some taggedWrappedText, some "rh"⟩ okHandler ()).val = Outcome.ok ∧
    (handlerEvents (processMessage ⟨some taggedWrappedText, some "rh"⟩ okHandler ()).calls).map
      (fun e => e.EventType) = ["expense.created"] ∧
    (processMessage ⟨some taggedEnvelopeText, some "rh"⟩ okHandler ()).val
      = Outcome.error ProcessError.parseEventMessage ∧
    (processMessage ⟨some taggedEnvelopeText, some "rh"⟩ okHandler ()).calls.length = 0 := by
  refine ⟨by decide, by decide, by decide, by decide, by decide, by decide⟩

/-- C6, amended. For every JSON text `text` that parses as an event and whose own parse
as the Notification wrapper succeeds with a `Type` other than `Notification`, and every
body that parses as a wrapper of `Type` `Notification` with `Message` equal to `text`:
`processMessage` on the wrapped body and on the raw body give the same result, the handler
being called with the same event. -/
theorem wrapped_eq_raw {σ : Type} (text wrapped : String) (env wenv : SNSEnvelope)
    (event : Event) (handler : MessageHandler σ) (s : σ) (rh1 rh2 : Option String)
    (hev : unmarshalEvent text = some event)
    (henv : unmarshalSNS text = some env) (ht : env.Type_ ≠ "Notification")
    (hw : unmarshalSNS wrapped = some wenv) (hwt : wenv.Type_ = "Notification")
    (hwm : wenv.Message = text) :
    processMessage ⟨some wrapped, rh1⟩ handler s = processMessage ⟨some text, rh2⟩ handler s ∧
    processMessage ⟨some text, rh2⟩ handler s = callHandler handler event s := by
  constructor
  · simp [processMessage, hw, hwt, hwm, hev, henv, ht]
  · simp [processMessage, hev, henv, ht]

/-- Witness for C6 amended: `sampleEnvelopeText` and its topic-wrapped form. -/
theorem wrapped_eq_raw_witness :
    unmarshalEvent sampleEnvelopeText = some sampleEvent ∧
    processMessage ⟨some sampleWrappedText, some "rh"⟩ okHandler ()
      = processMessage ⟨some sampleEnvelopeText, some "rh"⟩ okHandler () ∧
    processMessage ⟨some sampleEnvelopeText, some "rh"⟩ okHandler ()
      = callHandler okHandler sampleEvent () :=
  ⟨by rfl,
   wrapped_eq_raw sampleEnvelopeText sampleWrappedText
     ⟨"", "", "", "", "2024-01-05T10:20:30Z", "", "", "", ""⟩
     ⟨"Notification", "m-1", "", sampleEnvelopeText, "", "", "", "", ""⟩
     sampleEvent okHandler () (some "rh") (some "rh")
     (by rfl) (by decide) (by decide) (by decide) (by decide) (by decide)⟩

/-! ## Theorems: the dispatcher -/

/-- The `switch` has a branch exactly for the five supported event types. -/
theorem selectTemplate_none_iff (event : Event) :
    selectTemplate event = none ↔ event.EventType ∉ supportedEventTypes := by
  unfold selectTemplate supportedEventTypes
  by_cases h1 : event.EventType = EventTypeExpenseCreated
  · rw [if_pos h1]; simp [h1]
  rw [if_neg h1]
  by_cases h2 : event.EventType = EventTypeExpenseUpdated
  · rw [if_pos h2]; simp [h2]
  rw [if_neg h2]
  by_cases h3 : event.EventType = EventTypeReceiptUploaded
  · rw [if_pos h3]; simp [h3]
  rw [if_neg h3]
  by_cases h4 : event.EventType = EventTypeReceiptLinked
  · rw [if_pos h4]; simp [h4]
  rw [if_neg h4]
  by_cases h5 : event.EventType = EventTypeUserRegistered
  · rw [if_pos h5]; simp [h5]
  rw [if_neg h5]
  simp [h1, h2, h3, h4, h5]

/-- C7. For every event whose event_type is empty or is not one of the five supported
types, ProcessEvent returns the error `unknown event type`, leaves the world unchanged and
calls neither Render nor SendEmail. -/
theorem unknown_type_fails_without_calls {σ : Type} (svc : NotificationService σ)
    (event : Event) (s : σ) (h : event.EventType ∉ supportedEventTypes) :
    ProcessEvent svc event s = ⟨some ("unknown event type: " ++ event.EventType), s, []⟩ := by
  have hn := (selectTemplate_none_iff event).2 h
  simp [ProcessEvent, hn]

/-- Witness for C7: the empty event type and the type `expense.deleted`. -/
theorem unknown_type_fails_without_calls_witness :
    "expense.deleted" ∉ supportedEventTypes ∧
    ProcessEvent sampleService unknownEvent ()
      = ⟨some ("unknown event type: " ++ "expense.deleted"), (), []⟩ ∧
    (ProcessEvent sampleService Event.zero ()).calls = [] :=
  ⟨by decide,
   unknown_type_fails_without_calls sampleService unknownEvent () (by decide),
   by rw [unknown_type_fails_without_calls sampleService Event.zero () (by decide)]⟩

/-- How `ProcessEvent` goes on after the `switch` has chosen a branch. -/
theorem ProcessEvent_selected {σ : Type} (svc : NotificationService σ) (event : Event) (s : σ)
    (name subject : String) (data : GoMap)
    (hsel : selectTemplate event = some (name, subject, data)) :
    ProcessEvent svc event s =
      match svc.templateService.Render name data with
      | Except.error e =>
        ⟨some ("failed to render template: " ++ e), s, [DispatchCall.render name data]⟩
      | Except.ok body =>
        match (svc.snsPublisher.SendEmail ⟨event.UserEmail, subject, body⟩ s).1 with
        | some e =>
          ⟨some ("failed to send email: " ++ e),
            (svc.snsPublisher.SendEmail ⟨event.UserEmail, subject, body⟩ s).2,
            [DispatchCall.render name data,
             DispatchCall.sendEmail ⟨event.UserEmail, subject, body⟩]⟩
        | none =>
          ⟨none, (svc.snsPublisher.SendEmail ⟨event.UserEmail, subject, body⟩ s).2,
            [DispatchCall.render name data,
             DispatchCall.sendEmail ⟨event.UserEmail, subject, body⟩]⟩ := by
  simp only [ProcessEvent, hsel]
  cases svc.templateService.Render name data with
  | error e => rfl
  | ok body =>
    simp only
    rcases hs : svc.snsPublisher.SendEmail ⟨event.UserEmail, subject, body⟩ s with ⟨e, s1⟩
    cases e <;> simp

/-- C8. For every event with a supported event_type, with the template name, subject and
data the `switch` selects: ProcessEvent returns nil if and only if Render succeeds and
SendEmail succeeds on the notification built from the rendered body; a Render failure
makes ProcessEvent fail without any SendEmail call; a SendEmail failure makes ProcessEvent
fail. -/
theorem success_iff_render_and_send {σ : Type} (svc : NotificationService σ) (event : Event)
    (s : σ) (h : event.EventType ∈ supportedEventTypes) :
    ∃ name subject data, selectTemplate event = some (name, subject, data) ∧
      ((ProcessEvent svc event s).err = none ↔
        ∃ body, svc.templateService.Render name data = Except.ok body ∧
          (svc.snsPublisher.SendEmail ⟨event.UserEmail, subject, body⟩ s).1 = none) ∧
      (∀ e, svc.templateService.Render name data = Except.error e →
        (ProcessEvent svc event s).err ≠ none ∧
        sendCalls (ProcessEvent svc event s).calls = []) ∧
      (∀ body e, svc.templateService.Render name data = Except.ok body →
        (svc.snsPublisher.SendEmail ⟨event.UserEmail, subject, body⟩ s).1 = some e →
        (ProcessEvent svc event s).err ≠ none) := by
  have hne : selectTemplate event ≠ none := fun hn => (selectTemplate_none_iff event).1 hn h
  rcases hsel : selectTemplate event with _ | ⟨name, subject, data⟩
  · exact absurd hsel hne
  refine ⟨name, subject, data, rfl, ?_, ?_, ?_⟩
  · rw [ProcessEvent_selected svc event s name subject data hsel]
    cases hr : svc.templateService.Render name data with
    | error e => simp
    | ok body =>
      cases hs : (svc.snsPublisher.SendEmail ⟨event.UserEmail, subject, body⟩ s).1 with
      | some e => simp [hs]
      | none => simp [hs]
  · intro e hr
    rw [ProcessEvent_selected svc event s name subject data hsel]
    simp [hr, sendCalls]
  · intro body e hr hs
    rw [ProcessEvent_selected svc event s name subject data hsel]
    simp [hr, hs]

/-- Witness for C8: the scenario event on the sample service is dispatched with success. -/
theorem success_iff_render_and_send_witness :
    coffeeEvent.EventType ∈ supportedEventTypes ∧
    ∃ name subject data, selectTemplate coffeeEvent = some (name, subject, data) ∧
      ((ProcessEvent sampleService coffeeEvent ()).err = none ↔
        ∃ body, sampleService.templateService.Render name data = Except.ok body ∧
          (sampleService.snsPublisher.SendEmail ⟨coffeeEvent.UserEmail, subject, body⟩ ()).1
            = none) :=
  ⟨by decide,
   match success_iff_render_and_send sampleService coffeeEvent () (by decide) with
   | ⟨name, subject, data, h1, h2, _⟩ => ⟨name, subject, data, h1, h2⟩⟩

/-- The branch of the `switch` for each supported event type. -/
theorem selectTemplate_supported (event : Event) :
    (event.EventType = "expense.created" → selectTemplate event
      = some ("expense_created", "New Expense Added", buildExpenseCreatedData event)) ∧
    (event.EventType = "expense.updated" → selectTemplate event
      = some ("expense_updated", "Expense Updated", buildExpenseUpdatedData event)) ∧
    (event.EventType = "receipt.uploaded" → selectTemplate event
      = some ("receipt_uploaded", "Receipt Uploaded", buildReceiptUploadedData event)) ∧
    (event.EventType = "receipt.linked" → selectTemplate event
      = some ("receipt_linked", "Receipt Linked to Expense", buildReceiptLinkedData event)) ∧
    (event.EventType = "user.registered" → selectTemplate event
      = some ("user_registered", "Welcome to Expense Tracker!",
          buildUserRegisteredData event)) := by
  refine ⟨?_, ?_, ?_, ?_, ?_⟩ <;> intro h <;>
    simp [selectTemplate, h, EventTypeExpenseCreated, EventTypeExpenseUpdated,
      EventTypeReceiptUploaded, EventTypeReceiptLinked, EventTypeUserRegistered]

/-- C9. For every event with a supported event_type, ProcessEvent renders with the
template name keyed by the type, uses the fixed subject of the type, and hands the Sender
a notification whose destination is the event's user_email and whose body is exactly the
rendered string. -/
theorem template_subject_destination {σ : Type} (svc : NotificationService σ) (event : Event)
    (s : σ) (h : event.EventType ∈ supportedEventTypes) :
    ∃ name subject data,
      ((event.EventType = "expense.created" ∧ name = "expense_created" ∧
          subject = "New Expense Added" ∧ data = buildExpenseCreatedData event) ∨
       (event.EventType = "expense.updated" ∧ name = "expense_updated" ∧
          subject = "Expense Updated" ∧ data = buildExpenseUpdatedData event) ∨
       (event.EventType = "receipt.uploaded" ∧ name = "receipt_uploaded" ∧
          subject = "Receipt Uploaded" ∧ data = buildReceiptUploadedData event) ∨
       (event.EventType = "receipt.linked" ∧ name = "receipt_linked" ∧
          subject = "Receipt Linked to Expense" ∧ data = buildReceiptLinkedData event) ∨
       (event.EventType = "user.registered" ∧ name = "user_registered" ∧
          subject = "Welcome to Expense Tracker!" ∧ data = buildUserRegisteredData event)) ∧
      (ProcessEvent svc event s).calls.head? = some (DispatchCall.render name data) ∧
      (∀ body, svc.templateService.Render name data = Except.ok body →
        (ProcessEvent svc event s).calls =
          [DispatchCall.render name data,
           DispatchCall.sendEmail ⟨event.UserEmail, subject, body⟩]) := by
  have key : ∀ name subject data, selectTemplate event = some (name, subject, data) →
      (ProcessEvent svc event s).calls.head? = some (DispatchCall.render name data) ∧
      (∀ body, svc.templateService.Render name data = Except.ok body →
        (ProcessEvent svc event s).calls =
          [DispatchCall.render name data,
           DispatchCall.sendEmail ⟨event.UserEmail, subject, body⟩]) := by
    intro name subject data hsel
    rw [ProcessEvent_selected svc event s name subject data hsel]
    constructor
    · cases hr : svc.templateService.Render name data with
      | error e => simp
      | ok body =>
        cases hs : (svc.snsPublisher.SendEmail ⟨event.UserEmail, subject, body⟩ s).1 <;>
          simp [hs]
    · intro body hr
      cases hs : (svc.snsPublisher.SendEmail ⟨event.UserEmail, subject, body⟩ s).1 <;>
        simp [hr, hs]
  obtain ⟨t1, t2, t3, t4, t5⟩ := selectTemplate_supported event
  simp only [supportedEventTypes, EventTypeExpenseCreated, EventTypeExpenseUpdated,
    EventTypeReceiptUploaded, EventTypeReceiptLinked, EventTypeUserRegistered,
    List.mem_cons, List.mem_singleton, List.not_mem_nil, or_false] at h
  rcases h with h | h | h | h | h
  · exact ⟨_, _, _, Or.inl ⟨h, rfl, rfl, rfl⟩, key _ _ _ (t1 h)⟩
  · exact ⟨_, _, _, Or.inr (Or.inl ⟨h, rfl, rfl, rfl⟩), key _ _ _ (t2 h)⟩
  · exact ⟨_, _, _, Or.inr (Or.inr (Or.inl ⟨h, rfl, rfl, rfl⟩)), key _ _ _ (t3 h)⟩
  · exact ⟨_, _, _, Or.inr (Or.inr (Or.inr (Or.inl ⟨h, rfl, rfl, rfl⟩))), key _ _ _ (t4 h)⟩
  · exact ⟨_, _, _, Or.inr (Or.inr (Or.inr (Or.inr ⟨h, rfl, rfl, rfl⟩))), key _ _ _ (t5 h)⟩

/-- Witness for C9: the scenario event is in the supported set and its first collaborator
call is a render. -/
theorem template_subject_destination_witness :
    coffeeEvent.EventType ∈ supportedEventTypes ∧
    ∃ name subject data,
      (ProcessEvent sampleService coffeeEvent ()).calls.head?
        = some (DispatchCall.render name data) ∧
      (∀ body, sampleService.templateService.Render name data = Except.ok body →
        (ProcessEvent sampleService coffeeEvent ()).calls =
          [DispatchCall.render name data,
           DispatchCall.sendEmail ⟨coffeeEvent.UserEmail, subject, body⟩]) :=
  ⟨by decide,
   match template_subject_destination sampleService coffeeEvent () (by decide) with
   | ⟨name, subject, data, _, h2, h3⟩ => ⟨name, subject, data, h2, h3⟩⟩

/-- Counterexample to C10 as stated: for the scenario event (amount 12.50, description
Coffee, category Food, expense_date 2024-01-05) the render data is not the four-key
mapping; it has the six keys Amount, Category, Content, Description, ExpenseDate and
UserEmail. -/
theorem render_data_not_four_keys :
    coffeeEvent.EventType = "expense.created" ∧
    buildExpenseCreatedData coffeeEvent ≠ coffeeFourKeys ∧
    (buildExpenseCreatedData coffeeEvent).map (fun kv => kv.1)
      = ["Amount", "Category", "Content", "Description", "ExpenseDate", "UserEmail"] := by
  refine ⟨by decide, ?_, by decide⟩
  intro h
  have hl := congrArg List.length h
  revert hl
  decide

/-- C10, amended. For every expense.created event whose payload has string values for
amount, description, category and expense_date, the render data the Dispatcher passes to
the Renderer holds those four values under Amount, Description, Category and ExpenseDate,
and besides them UserEmail (the event's user_email), Content (the HTML text formatted from
the four values) and, when the payload's expense_id is a string, ExpenseID. -/
theorem expense_created_render_data {σ : Type} (svc : NotificationService σ) (event : Event)
    (s : σ) (amount description category expenseDate : String)
    (ht : event.EventType = "expense.created")
    (ha : asString (event.get "amount") = some amount)
    (hd : asString (event.get "description") = some description)
    (hc : asString (event.get "category") = some category)
    (hx : asString (event.get "expense_date") = some expenseDate) :
    (ProcessEvent svc event s).calls.head?
      = some (DispatchCall.render "expense_created" (buildExpenseCreatedData event)) ∧
    buildExpenseCreatedData event =
      match asString (event.get "expense_id") with
      | none =>
        [("Amount", GoVal.str amount), ("Category", GoVal.str category),
         ("Content", GoVal.str (expenseCreatedContent amount description category expenseDate)),
         ("Description", GoVal.str description), ("ExpenseDate", GoVal.str expenseDate),
         ("UserEmail", GoVal.str event.UserEmail)]
      | some expenseID =>
        [("Amount", GoVal.str amount), ("Category", GoVal.str category),
         ("Content", GoVal.str (expenseCreatedContent amount description category expenseDate)),
         ("Description", GoVal.str description), ("ExpenseDate", GoVal.str expenseDate),
         ("ExpenseID", GoVal.str expenseID), ("UserEmail", GoVal.str event.UserEmail)] := by
  constructor
  · have hsel := (selectTemplate_supported event).1 ht
    rw [ProcessEvent_selected svc event s _ _ _ hsel]
    cases hr : svc.templateService.Render "expense_created" (buildExpenseCreatedData event) with
    | error e => simp
    | ok body =>
      cases hs : (svc.snsPublisher.SendEmail
          ⟨event.UserEmail, "New Expense Added", body⟩ s).1 <;> simp [hs]
  · cases hi : asString (event.get "expense_id") with
    | none =>
      simp +decide [buildExpenseCreatedData, copyString, ha, hd, hc, hx, hi, GoMap.set,
        GoMap.get, fmtS, expenseCreatedContent]
    | some expenseID =>
      simp +decide [buildExpenseCreatedData, copyString, ha, hd, hc, hx, hi, GoMap.set,
        GoMap.get, fmtS, expenseCreatedContent]

/-- Witness for C10 amended: the scenario of the specification. -/
theorem expense_created_render_data_witness :
    asString (coffeeEvent.get "amount") = some "12.50" ∧
    buildExpenseCreatedData coffeeEvent =
      [("Amount", GoVal.str "12.50"), ("Category", GoVal.str "Food"),
       ("Content", GoVal.str (expenseCreatedContent "12.50" "Coffee" "Food" "2024-01-05")),
       ("Description", GoVal.str "Coffee"), ("ExpenseDate", GoVal.str "2024-01-05"),
       ("UserEmail", GoVal.str "a@b.com")] :=
  ⟨by decide,
   (expense_created_render_data sampleService coffeeEvent () "12.50" "Coffee" "Food"
      "2024-01-05" (by decide) (by decide) (by decide) (by decide) (by decide)).2⟩

/-! ## Theorems: strings survive the encoder and the decoder -/

theorem hexDigit_spec : ∀ k : Fin 16,
    isHex (hexDigit k.val) = true ∧ hexVal (hexDigit k.val) = k.val := by decide

theorem isHex_hexDigit (n : Nat) : isHex (hexDigit n) = true := by
  have h := (hexDigit_spec ⟨n % 16, Nat.mod_lt _ (by decide)⟩).1
  simpa [hexDigit] using h

theorem hexVal_hexDigit (n : Nat) : hexVal (hexDigit n) = n % 16 := by
  have h := (hexDigit_spec ⟨n % 16, Nat.mod_lt _ (by decide)⟩).2
  simpa [hexDigit] using h

theorem char_eq_of_toNat (c : Char) (n : Nat) (h : c.toNat = n) : c = Char.ofNat n := by
  rw [← h, Char.ofNat_toNat]

theorem scanStringAux_copy (k : Nat) (cs tail : List Char) (h : cs.length = k) :
    scanStringAux k (cs ++ tail)
      = (scanStringAux 0 tail).map (fun p => (cs ++ p.1, p.2)) := by
  induction cs generalizing k with
  | nil =>
    subst h
    cases h0 : scanStringAux 0 tail <;> simp [h0]
  | cons c cs ih =>
    subst h
    have h := ih _ rfl
    simp only [List.length_cons, List.cons_append, scanStringAux, List.append_eq, h]
    cases scanStringAux 0 tail <;> simp

theorem scanStringAux_simple (e : Char) (t : List Char) (h1 : e ≠ 'u')
    (h2 : isSimpleEscape e = true) :
    scanStringAux 0 (bs :: e :: t)
      = (scanStringAux 0 t).map (fun p => (bs :: e :: p.1, p.2)) := by
  have hb : bs ≠ dq := by decide
  rw [scanStringAux]
  simp only [hb, if_false, if_true, List.head?_cons, Option.some.injEq, h1, Option.map_some',
    h2]
  have h := scanStringAux_copy 1 [e] t rfl
  simp only [List.cons_append, List.nil_append] at h
  rw [h]
  cases scanStringAux 0 t <;> simp

theorem scanStringAux_hex (h1 h2 h3 h4 : Char) (t : List Char)
    (k1 : isHex h1 = true) (k2 : isHex h2 = true) (k3 : isHex h3 = true)
    (k4 : isHex h4 = true) :
    scanStringAux 0 (bs :: 'u' :: h1 :: h2 :: h3 :: h4 :: t)
      = (scanStringAux 0 t).map
          (fun p => (bs :: 'u' :: h1 :: h2 :: h3 :: h4 :: p.1, p.2)) := by
  have hb : bs ≠ dq := by decide
  rw [scanStringAux]
  simp only [hb, if_false, if_true, List.head?_cons, List.drop_succ_cons, List.drop_zero,
    hexAhead, k1, k2, k3, k4, Bool.and_self]
  have h := scanStringAux_copy 5 ['u', h1, h2, h3, h4] t rfl
  simp only [List.cons_append, List.nil_append] at h
  rw [h]
  cases scanStringAux 0 t <;> simp

theorem scanStringAux_plain (c : Char) (t : List Char) (h1 : c ≠ dq) (h2 : c ≠ bs)
    (h3 : 32 ≤ c.toNat) :
    scanStringAux 0 (c :: t) = (scanStringAux 0 t).map (fun p => (c :: p.1, p.2)) := by
  rw [scanStringAux]
  simp [h1, h2, Nat.not_lt.2 h3]

/-- The scanner accepts the text the encoder writes for one character. -/
theorem scanStringAux_escapeChar (c : Char) (tail : List Char) :
    scanStringAux 0 (escapeChar c ++ tail)
      = (scanStringAux 0 tail).map (fun p => (escapeChar c ++ p.1, p.2)) := by
  unfold escapeChar
  by_cases h1 : c = dq
  · rw [if_pos h1]
    exact scanStringAux_simple dq tail (by decide) (by decide)
  rw [if_neg h1]
  by_cases h2 : c = bs
  · rw [if_pos h2]
    exact scanStringAux_simple bs tail (by decide) (by decide)
  rw [if_neg h2]
  by_cases h3 : c.toNat = 10
  · rw [if_pos h3]
    exact scanStringAux_simple 'n' tail (by decide) (by decide)
  rw [if_neg h3]
  by_cases h4 : c.toNat = 13
  · rw [if_pos h4]
    exact scanStringAux_simple 'r' tail (by decide) (by decide)
  rw [if_neg h4]
  by_cases h5 : c.toNat = 9
  · rw [if_pos h5]
    exact scanStringAux_simple 't' tail (by decide) (by decide)
  rw [if_neg h5]
  by_cases h6 : (c.toNat < 32 || c = '<' || c = '>' || c = '&') = true
  · rw [if_pos h6]
    exact scanStringAux_hex '0' '0' _ _ tail (by decide) (by decide) (isHex_hexDigit _)
      (isHex_hexDigit _)
  rw [if_neg h6]
  by_cases h7 : (c.toNat = 8232 || c.toNat = 8233) = true
  · rw [if_pos h7]
    exact scanStringAux_hex '2' '0' '2' _ tail (by decide) (by decide) (by decide)
      (isHex_hexDigit _)
  rw [if_neg h7]
  have h8 : 32 ≤ c.toNat := by
    by_contra h
    apply h6
    simp [Nat.lt_of_not_le h]
  exact scanStringAux_plain c tail h1 h2 h8

/-- The scanner returns the text the encoder writes for a string, up to the closing
quote. -/
theorem scanString_escapeChars (cs rest : List Char) :
    scanString (escapeChars cs ++ dq :: rest) = some (escapeChars cs, rest) := by
  unfold scanString
  induction cs with
  | nil => simp [escapeChars, scanStringAux]
  | cons c cs ih =>
    simp only [escapeChars, List.append_assoc]
    rw [scanStringAux_escapeChar, ih]
    simp

theorem unquoteAux_skip (k : Nat) (cs tail : List Char) (h : cs.length = k) :
    unquoteAux k (cs ++ tail) = unquoteAux 0 tail := by
  induction cs generalizing k with
  | nil => subst h; rfl
  | cons c cs ih =>
    subst h
    have h := ih _ rfl
    simp only [List.length_cons, List.cons_append, unquoteAux, List.append_eq, h]

theorem unquoteAux_simple (e : Char) (t : List Char) (h1 : e ≠ 'u') :
    unquoteAux 0 (bs :: e :: t) = simpleEscape e :: unquoteAux 0 t := by
  rw [unquoteAux]
  have h := unquoteAux_skip 1 [e] t rfl
  simp only [List.cons_append, List.nil_append] at h
  simp [h1, h]

theorem unquoteAux_hex (h1 h2 h3 h4 : Char) (t : List Char)
    (hr : hex4 h1 h2 h3 h4 < 55296) :
    unquoteAux 0 (bs :: 'u' :: h1 :: h2 :: h3 :: h4 :: t)
      = Char.ofNat (hex4 h1 h2 h3 h4) :: unquoteAux 0 t := by
  rw [unquoteAux]
  have h := unquoteAux_skip 5 ['u', h1, h2, h3, h4] t rfl
  simp only [List.cons_append, List.nil_append] at h
  simp [hex4At, h, Nat.not_le.2 hr]

theorem unquoteAux_plain (c : Char) (t : List Char) (h : c ≠ bs) :
    unquoteAux 0 (c :: t) = c :: unquoteAux 0 t := by
  rw [unquoteAux]
  simp [h]

theorem hex4_low (n : Nat) (h : n < 256) :
    hex4 '0' '0' (hexDigit (n / 16)) (hexDigit n) = n := by
  have h0 : hexVal '0' = 0 := by decide
  simp only [hex4, h0, hexVal_hexDigit]
  omega

theorem hex4_separator (n : Nat) (h : n = 8232 ∨ n = 8233) :
    hex4 '2' '0' '2' (hexDigit n) = n := by
  have h0 : hexVal '0' = 0 := by decide
  have h2 : hexVal '2' = 2 := by decide
  simp only [hex4, h0, h2, hexVal_hexDigit]
  omega

/-- The decoder reads back the character the encoder wrote. -/
theorem unquoteAux_escapeChar (c : Char) (tail : List Char) :
    unquoteAux 0 (escapeChar c ++ tail) = c :: unquoteAux 0 tail := by
  unfold escapeChar
  by_cases h1 : c = dq
  · rw [if_pos h1, h1]
    exact unquoteAux_simple dq tail (by decide)
  rw [if_neg h1]
  by_cases h2 : c = bs
  · rw [if_pos h2, h2]
    exact unquoteAux_simple bs tail (by decide)
  rw [if_neg h2]
  by_cases h3 : c.toNat = 10
  · rw [if_pos h3, char_eq_of_toNat c 10 h3]
    exact unquoteAux_simple 'n' tail (by decide)
  rw [if_neg h3]
  by_cases h4 : c.toNat = 13
  · rw [if_pos h4, char_eq_of_toNat c 13 h4]
    exact unquoteAux_simple 'r' tail (by decide)
  rw [if_neg h4]
  by_cases h5 : c.toNat = 9
  · rw [if_pos h5, char_eq_of_toNat c 9 h5]
    exact unquoteAux_simple 't' tail (by decide)
  rw [if_neg h5]
  by_cases h6 : (c.toNat < 32 || c = '<' || c = '>' || c = '&') = true
  · rw [if_pos h6]
    have hlt : c.toNat < 256 := by
      simp only [Bool.or_eq_true, decide_eq_true_eq] at h6
      rcases h6 with ((h | h) | h) | h
      · omega
      · subst h; decide
      · subst h; decide
      · subst h; decide
    have hv := hex4_low c.toNat hlt
    have hu := unquoteAux_hex '0' '0' (hexDigit (c.toNat / 16)) (hexDigit c.toNat) tail
      (by rw [hv]; omega)
    rw [hv, Char.ofNat_toNat] at hu
    exact hu
  rw [if_neg h6]
  by_cases h7 : (c.toNat = 8232 || c.toNat = 8233) = true
  · rw [if_pos h7]
    simp only [Bool.or_eq_true, decide_eq_true_eq] at h7
    have hv := hex4_separator c.toNat h7
    have hu := unquoteAux_hex '2' '0' '2' (hexDigit c.toNat) tail (by rw [hv]; omega)
    rw [hv, Char.ofNat_toNat] at hu
    exact hu
  rw [if_neg h7]
  exact unquoteAux_plain c tail h2

/-- Decoding the text the encoder writes for a string gives the string back. -/
theorem unquote_escapeChars (s : String) : unquote (escapeChars s.data) = s := by
  have h : ∀ cs : List Char, unquoteAux 0 (escapeChars cs) = cs := by
    intro cs
    induction cs with
    | nil => rfl
    | cons c cs ih =>
      simp only [escapeChars]
      rw [unquoteAux_escapeChar, ih]
  simp [unquote, unquoteChars, h]

/-! ## Theorems: integers survive the encoder and the decoder -/

theorem digitChar_spec : ∀ k : Fin 10,
    (digitChar k.val).toNat = 48 + k.val ∧ isDig (digitChar k.val) = true := by decide

theorem digitChar_toNat (d : Nat) : (digitChar d).toNat = 48 + d % 10 := by
  have h := (digitChar_spec ⟨d % 10, Nat.mod_lt _ (by decide)⟩).1
  simpa [digitChar] using h

theorem isDig_digitChar (d : Nat) : isDig (digitChar d) = true := by
  have h := (digitChar_spec ⟨d % 10, Nat.mod_lt _ (by decide)⟩).2
  simpa [digitChar] using h

theorem natOfDigits_append (ds : List Char) (c : Char) :
    natOfDigits (ds ++ [c]) = 10 * natOfDigits ds + (c.toNat - 48) := by
  simp [natOfDigits, List.foldl_append]

/-- The decimal digits of a number: all digits, not empty, value the number, and no
leading zero unless the number is zero. -/
theorem decDigits_spec (fuel n : Nat) (h : n < fuel) :
    (∀ c ∈ decDigits fuel n, isDig c = true) ∧ natOfDigits (decDigits fuel n) = n ∧
    (∃ c t, decDigits fuel n = c :: t ∧ (0 < n → c ≠ '0')) := by
  induction fuel generalizing n with
  | zero => omega
  | succ fuel ih =>
    rw [decDigits]
    by_cases hn : n < 10
    · rw [if_pos hn]
      refine ⟨?_, ?_, digitChar n, [], rfl, ?_⟩
      · intro c hc
        simp only [List.mem_singleton] at hc
        rw [hc]; exact isDig_digitChar n
      · simp [natOfDigits, digitChar_toNat, Nat.mod_eq_of_lt hn]
      · intro hpos hz
        have := congrArg Char.toNat hz
        rw [digitChar_toNat, Nat.mod_eq_of_lt hn] at this
        have h0 : ('0' : Char).toNat = 48 := by decide
        omega
    · rw [if_neg hn]
      have hlt : n / 10 < fuel := by omega
      obtain ⟨h1, h2, c, t, h3, h4⟩ := ih (n / 10) hlt
      refine ⟨?_, ?_, c, t ++ [digitChar n], ?_, ?_⟩
      · intro x hx
        rcases List.mem_append.1 hx with hx | hx
        · exact h1 x hx
        · simp only [List.mem_singleton] at hx
          rw [hx]; exact isDig_digitChar n
      · rw [natOfDigits_append, h2, digitChar_toNat]
        omega
      · rw [h3]; rfl
      · intro _
        exact h4 (by omega)

theorem spanDigits_append (ds rest : List Char) (h1 : ∀ c ∈ ds, isDig c = true)
    (h2 : ∀ c t, rest = c :: t → isDig c = false) :
    spanDigits (ds ++ rest) = (ds, rest) := by
  induction ds with
  | nil =>
    cases rest with
    | nil => rfl
    | cons c t => simp [spanDigits, h2 c t rfl]
  | cons d ds ih =>
    have hd := h1 d (List.mem_cons_self _ _)
    have ih' := ih (fun c hc => h1 c (List.mem_cons_of_mem _ hc))
    simp [spanDigits, hd, ih']

theorem scanInt_decimal (n : Nat) (sep : Char) (rest : List Char)
    (hs : isDig sep = false) :
    scanInt (decimal n ++ sep :: rest) = some (decimal n, sep :: rest) := by
  obtain ⟨h1, _, c, t, h3, h4⟩ := decDigits_spec (n + 1) n (Nat.lt_succ_self n)
  by_cases hn : n = 0
  · subst hn
    have : decimal 0 = ['0'] := by decide
    rw [this]
    simp [scanInt]
  · have hc : c ≠ '0' := h4 (Nat.pos_of_ne_zero hn)
    have hd : isDig c = true := h1 c (by rw [h3]; exact List.mem_cons_self _ _)
    have ht : ∀ x ∈ t, isDig x = true :=
      fun x hx => h1 x (by rw [h3]; exact List.mem_cons_of_mem _ hx)
    have hsp := spanDigits_append t (sep :: rest) ht
      (by intro c' t' h; injection h with h _; rw [← h]; exact hs)
    unfold decimal
    rw [h3]
    simp [scanInt, hc, hd, hsp]

theorem scanNumber_tail (ip : List Char) (sign : List Char) (sep : Char) (rest : List Char)
    (hs : endsNumber sep = true) :
    (match scanFrac (sep :: rest) with
      | none => none
      | some (fp, r2) =>
        match scanExp r2 with
        | none => none
        | some (ep, r3) => some (sign ++ ip ++ fp ++ ep, r3))
      = some (sign ++ ip, sep :: rest) := by
  simp only [endsNumber, Bool.and_eq_true, Bool.not_eq_true', bne_iff_ne, ne_eq] at hs
  obtain ⟨⟨⟨_, h2⟩, h3⟩, h4⟩ := hs
  simp [scanFrac, scanExp, h2, h3, h4]

/-- The scanner returns the decimal text of an integer as one number token. -/
theorem scanNumber_intDecimal (i : Int) (sep : Char) (rest : List Char)
    (hs : endsNumber sep = true) :
    scanNumber (intDecimal i ++ sep :: rest) = some (intDecimal i, sep :: rest) := by
  have hdig : isDig sep = false := by
    simp only [endsNumber, Bool.and_eq_true, Bool.not_eq_true'] at hs
    exact hs.1.1.1
  obtain ⟨h1, _, c, t, h3, _⟩ :=
    decDigits_spec (i.natAbs + 1) i.natAbs (Nat.lt_succ_self _)
  have hint := scanInt_decimal i.natAbs sep rest hdig
  unfold intDecimal
  by_cases hneg : i < 0
  · rw [if_pos hneg]
    unfold scanNumber
    simp only [List.cons_append, if_true]
    rw [hint]
    simpa using scanNumber_tail (decimal i.natAbs) ['-'] sep rest hs
  · rw [if_neg hneg]
    have hc : c ≠ '-' := by
      intro hc
      have hd : isDig c = true := h1 c (by rw [h3]; exact List.mem_cons_self _ _)
      rw [hc] at hd
      exact absurd hd (by decide)
    unfold scanNumber
    have hdec : decimal i.natAbs = c :: t := h3
    rw [hdec] at hint ⊢
    simp only [List.cons_append, hc, if_false]
    simp only [List.cons_append] at hint
    rw [hint]
    simpa using scanNumber_tail (c :: t) [] sep rest hs

theorem bitLen_zero (fuel : Nat) : bitLen fuel 0 = 0 := by
  cases fuel <;> simp [bitLen]

/-- The number of binary digits brackets the number between two powers of two. -/
theorem bitLen_spec (fuel n : Nat) (h : n ≤ fuel) :
    n < 2 ^ bitLen fuel n ∧ (0 < n → 1 ≤ bitLen fuel n ∧ 2 ^ (bitLen fuel n - 1) ≤ n) := by
  induction fuel generalizing n with
  | zero =>
    have : n = 0 := by omega
    subst this
    simp [bitLen]
  | succ fuel ih =>
    by_cases hn : n = 0
    · subst hn; simp [bitLen]
    · rw [bitLen, if_neg hn]
      obtain ⟨h1, h2⟩ := ih (n / 2) (by omega)
      refine ⟨?_, fun _ => ⟨by omega, ?_⟩⟩
      · rw [Nat.pow_succ]; omega
      · simp only [Nat.add_sub_cancel]
        by_cases hh : 0 < n / 2
        · obtain ⟨h3, h4⟩ := h2 hh
          have : 2 ^ bitLen fuel (n / 2) = 2 * 2 ^ (bitLen fuel (n / 2) - 1) := by
            rw [← Nat.pow_succ']
            congr 1
            omega
          omega
        · have h0 : n / 2 = 0 := by omega
          rw [h0, bitLen_zero]
          simp
          omega

theorem normDyadic_shift (n j : Nat) : normDyadic (n * 2 ^ j) j = (n, 0) := by
  induction j with
  | zero => simp [normDyadic]
  | succ j ih =>
    rw [normDyadic]
    have h1 : n * 2 ^ (j + 1) % 2 = 0 := by
      rw [Nat.pow_succ, ← Nat.mul_assoc]; exact Nat.mul_mod_left _ _
    have h2 : n * 2 ^ (j + 1) / 2 = n * 2 ^ j := by
      rw [Nat.pow_succ, ← Nat.mul_assoc]; exact Nat.mul_div_cancel _ (by decide)
    rw [if_pos h1, h2, ih]

/-- An integer below 2 ^ 53 is a binary64 value: rounding leaves it as it is. -/
theorem roundBinary64_small (n : Nat) (h : n < 2 ^ 53) : roundBinary64 n 1 = some (n, 0) := by
  by_cases hn : n = 0
  · subst hn; simp [roundBinary64]
  obtain ⟨h1, h2⟩ := bitLen_spec n n (Nat.le_refl n)
  obtain ⟨h3, h4⟩ := h2 (Nat.pos_of_ne_zero hn)
  have ha : bitLen n n ≤ 53 := by
    by_contra hc
    have : 2 ^ 53 ≤ 2 ^ (bitLen n n - 1) := Nat.pow_le_pow_right (by decide) (by omega)
    omega
  have hb : bitLen 1 1 = 1 := by decide
  generalize hA : bitLen n n = a at *
  unfold roundBinary64
  simp only [hn, if_false, hb, hA]
  have e1 : ((1 : Nat) : Int) ≤ (a : Int) := by omega
  have e2 : ((a : Int) - ((1 : Nat) : Int)).toNat = a - 1 := by omega
  simp only [e1, if_true, e2, Nat.one_mul, h4, decide_True]
  have e3 : max ((a : Int) - ((1 : Nat) : Int) - 52) (-1074) = (a : Int) - 53 := by omega
  rw [e3]
  by_cases h53 : a = 53
  · subst h53
    simp [hA, Nat.mod_one]
  · have e4 : ¬ (0 : Int) ≤ (a : Int) - 53 := by omega
    have e5 : (-((a : Int) - 53)).toNat = 53 - a := by omega
    simp only [e4, if_false, e5, Nat.div_one, Nat.mod_one]
    simp [normDyadic_shift]

theorem roundBinary64_exact (n : Nat) (h : n ≤ 9007199254740992) :
    roundBinary64 n 1 = some (n, 0) := by
  by_cases h53 : n = 9007199254740992
  · subst h53; decide
  · exact roundBinary64_small n (by norm_num; omega)

theorem parseFloat_digits (ds : List Char) (h1 : ∀ c ∈ ds, isDig c = true)
    (neg : Bool) (h2 : neg = false → ∀ c t, ds = c :: t → c ≠ '-') :
    parseFloat (if neg then '-' :: ds else ds) =
      match roundBinary64 (natOfDigits ds) 1 with
      | none => none
      | some (m, e) => some ⟨if neg then - (m : Int) else m, e⟩ := by
  have hsp : spanDigits ds = (ds, []) := by
    have := spanDigits_append ds [] h1 (by intro c t h; cases h)
    simpa using this
  cases neg with
  | true =>
    rcases hr : roundBinary64 (natOfDigits ds) 1 with _ | ⟨m, e⟩ <;>
      simp [parseFloat, hsp, hr]
  | false =>
    have hh : ds.head? ≠ some '-' := by
      cases ds with
      | nil => simp
      | cons c t =>
        have := h2 rfl c t rfl
        simpa using this
    rcases hr : roundBinary64 (natOfDigits ds) 1 with _ | ⟨m, e⟩ <;>
      simp [parseFloat, hsp, hh, hr]

/-- The decoder turns the decimal text of an integer of magnitude at most 2 ^ 53 into the
binary64 value of that integer. -/
theorem parseFloat_intDecimal (i : Int) (h : i.natAbs ≤ 9007199254740992) :
    parseFloat (intDecimal i) = some ⟨i, 0⟩ := by
  obtain ⟨h1, h2, c, t, h3, _⟩ :=
    decDigits_spec (i.natAbs + 1) i.natAbs (Nat.lt_succ_self _)
  have hne : ∀ c' t', decimal i.natAbs = c' :: t' → c' ≠ '-' := by
    intro c' t' hc hm
    have hd : isDig c' = true := h1 c' (by
      have : decDigits (i.natAbs + 1) i.natAbs = c' :: t' := hc
      rw [this]; exact List.mem_cons_self _ _)
    rw [hm] at hd
    exact absurd hd (by decide)
  have hval : natOfDigits (decimal i.natAbs) = i.natAbs := h2
  unfold intDecimal
  by_cases hneg : i < 0
  · rw [if_pos hneg]
    have := parseFloat_digits (decimal i.natAbs) h1 true (by intro hf; cases hf)
    simp only [if_true] at this
    rw [this, hval, roundBinary64_exact _ h]
    simp only [F64.mk.injEq, Option.some.injEq, and_true]
    omega
  · rw [if_neg hneg]
    have := parseFloat_digits (decimal i.natAbs) h1 false (fun _ => hne)
    simp only [Bool.false_eq_true, if_false] at this
    rw [this, hval, roundBinary64_exact _ h]
    simp only [F64.mk.injEq, Option.some.injEq, and_true]
    omega

/-! ## Theorems: timestamps survive the encoder and the decoder -/

theorem digitChar_val (d : Nat) : (digitChar d).toNat - 48 = d % 10 := by
  rw [digitChar_toNat]; omega

theorem parseUint_two (n lo hi : Nat) (h : n < 100) (hlo : lo ≤ n) (hhi : n ≤ hi) :
    parseUint [digitChar (n / 10), digitChar n] lo hi = some n := by
  have hv : natOfDigits [digitChar (n / 10), digitChar n] = n := by
    simp only [natOfDigits, List.foldl_cons, List.foldl_nil, digitChar_val]
    omega
  simp [parseUint, hv, isDig_digitChar, hlo, hhi]

theorem parseUint_four (n lo hi : Nat) (h : n < 10000) (hlo : lo ≤ n) (hhi : n ≤ hi) :
    parseUint [digitChar (n / 1000), digitChar (n / 100), digitChar (n / 10), digitChar n]
      lo hi = some n := by
  have hv : natOfDigits
      [digitChar (n / 1000), digitChar (n / 100), digitChar (n / 10), digitChar n] = n := by
    simp only [natOfDigits, List.foldl_cons, List.foldl_nil, digitChar_val]
    omega
  simp [parseUint, hv, isDig_digitChar, hlo, hhi]

theorem natOfDigits_nine (n : Nat) (h : n < 1000000000) : natOfDigits (pad9 n) = n := by
  simp only [pad9, natOfDigits, List.foldl_cons, List.foldl_nil, digitChar_val]
  omega

theorem natOfDigits_zeros (l zs : List Char) (h : ∀ c ∈ zs, c = '0') :
    natOfDigits (l ++ zs) = natOfDigits l * 10 ^ zs.length := by
  induction zs generalizing l with
  | nil => simp
  | cons z zs ih =>
    have hz : z = '0' := h z (List.mem_cons_self _ _)
    have := ih (l ++ [z]) (fun c hc => h c (List.mem_cons_of_mem _ hc))
    rw [List.append_assoc] at this
    simp only [List.singleton_append] at this
    rw [this, natOfDigits_append, hz, List.length_cons, Nat.pow_succ]
    have h0 : ('0' : Char).toNat - 48 = 0 := by decide
    rw [h0]
    ring

/-- Trimming splits a digit run into the kept part and a run of zeros. -/
theorem trimZeros_split (ds : List Char) :
    ∃ zs, ds = trimZeros ds ++ zs ∧ (∀ c ∈ zs, c = '0') := by
  refine ⟨(ds.reverse.takeWhile (fun c => c = '0')).reverse, ?_, ?_⟩
  · have h := List.takeWhile_append_dropWhile (fun c => decide (c = '0')) ds.reverse
    have h2 := congrArg List.reverse h
    simp only [List.reverse_append, List.reverse_reverse] at h2
    exact h2.symm
  · intro c hc
    have hc' := List.mem_reverse.1 hc
    have := List.mem_takeWhile_imp hc'
    simpa using this

theorem trimZeros_subset (ds : List Char) : ∀ c ∈ trimZeros ds, c ∈ ds := by
  intro c hc
  obtain ⟨zs, h, _⟩ := trimZeros_split ds
  rw [h]
  exact List.mem_append_left _ hc

theorem parseZone_formatZone (offset : Int) (h1 : -1440 < offset) (h2 : offset < 1440) :
    parseZone (formatZone offset) = some offset := by
  unfold formatZone
  by_cases h0 : offset = 0
  · subst h0; decide
  · rw [if_neg h0]
    have ha : offset.natAbs < 1440 := by omega
    have hh := parseUint_two (offset.natAbs / 60) 0 23 (by omega) (Nat.zero_le _) (by omega)
    have hm := parseUint_two (offset.natAbs % 60) 0 59 (by omega) (Nat.zero_le _) (by omega)
    have e : offset.natAbs / 60 * 60 + offset.natAbs % 60 = offset.natAbs := by omega
    have hp : ('+' : Char) ≠ '-' := by decide
    by_cases hneg : offset < 0
    · have hab : -((offset.natAbs : Nat) : Int) = offset := by omega
      simp only [hneg, if_true, pad2, List.cons_append, List.nil_append, parseZone, hh, hm,
        e, decide_True, Bool.true_or, Bool.and_self, hab]
    · have hab : ((offset.natAbs : Nat) : Int) = offset := by omega
      simp only [hneg, if_false, pad2, List.cons_append, List.nil_append, parseZone, hh, hm,
        e, decide_True, Bool.or_true, Bool.and_self, hp, if_true, hab]

/-- The zone text starts with a character that is neither a digit nor a point. -/
theorem formatZone_head (offset : Int) :
    ∃ c t, formatZone offset = c :: t ∧ isDig c = false ∧ c ≠ '.' := by
  unfold formatZone
  by_cases h0 : offset = 0
  · exact ⟨'Z', [], by simp [h0], by decide, by decide⟩
  · by_cases hneg : offset < 0
    · exact ⟨'-', pad2 (offset.natAbs / 60) ++ ':' :: pad2 (offset.natAbs % 60),
        by simp [h0, hneg], by decide, by decide⟩
    · exact ⟨'+', pad2 (offset.natAbs / 60) ++ ':' :: pad2 (offset.natAbs % 60),
        by simp [h0, hneg], by decide, by decide⟩

theorem parseFracZone_format (nsec : Nat) (offset : Int) (hn : nsec < 1000000000)
    (h1 : -1440 < offset) (h2 : offset < 1440) :
    parseFracZone (formatFrac nsec ++ formatZone offset) = some (nsec, offset) := by
  have hz := parseZone_formatZone offset h1 h2
  obtain ⟨zc, zt, hzf, hzd, hzp⟩ := formatZone_head offset
  unfold formatFrac
  by_cases h0 : nsec = 0
  · subst h0
    simp only [if_true, List.nil_append]
    rw [hzf] at hz ⊢
    cases zt with
    | nil => simp [parseFracZone, hz]
    | cons d t => simp [parseFracZone, hzp, hz]
  · rw [if_neg h0]
    obtain ⟨zs, hsplit, hzeros⟩ := trimZeros_split (pad9 nsec)
    have hdig : ∀ c ∈ trimZeros (pad9 nsec), isDig c = true := by
      intro c hc
      have := trimZeros_subset _ c hc
      simp only [pad9, List.mem_cons, List.mem_singleton, List.not_mem_nil, or_false] at this
      rcases this with h | h | h | h | h | h | h | h | h <;> rw [h] <;> exact isDig_digitChar _
    have hval : natOfDigits (trimZeros (pad9 nsec)) * 10 ^ zs.length = nsec := by
      rw [← natOfDigits_zeros _ _ hzeros, ← hsplit, natOfDigits_nine nsec hn]
    have hlen : (trimZeros (pad9 nsec)).length + zs.length = 9 := by
      have := congrArg List.length hsplit
      simp only [List.length_append] at this
      rw [← this]; rfl
    cases htr : trimZeros (pad9 nsec) with
    | nil =>
      rw [htr] at hval
      simp [natOfDigits] at hval
      omega
    | cons d t =>
      have hd : isDig d = true := hdig d (by rw [htr]; exact List.mem_cons_self _ _)
      have hsp := spanDigits_append (d :: t) (formatZone offset)
        (by rw [← htr]; exact hdig)
        (by intro c t' h; rw [hzf] at h; injection h with h _; rw [← h]; exact hzd)
      have htake : (d :: t).take 9 = d :: t := by
        apply List.take_of_length_le
        rw [← htr]; omega
      have hlen' : 9 - (d :: t).length = zs.length := by
        rw [← htr]; omega
      simp only [List.cons_append] at hsp ⊢
      simp only [parseFracZone, hd, decide_True, Bool.and_self, if_true, hsp, hz,
        Option.map_some', htake, hlen']
      rw [← htr, hval]

/-- Parsing the text `MarshalJSON` writes for a timestamp gives the timestamp back. -/
theorem parseRFC3339_formatTime (t : Time) (text : List Char)
    (h : formatTime t = some text) : parseRFC3339 text = some t := by
  unfold formatTime at h
  by_cases hv : t.valid = true
  · rw [if_pos hv] at h
    injection h with h
    subst h
    simp only [Time.valid, Bool.and_eq_true, decide_eq_true_eq] at hv
    obtain ⟨⟨⟨⟨⟨⟨⟨⟨⟨⟨hy, hm1⟩, hm2⟩, hd1⟩, hd2⟩, hh⟩, hmi⟩, hs⟩, hn⟩, ho1⟩, ho2⟩ := hv
    have py := parseUint_four t.year 0 9999 (by omega) (Nat.zero_le _) hy
    have pm := parseUint_two t.month 1 12 (by omega) hm1 hm2
    have hdl : t.day < 100 := by
      have : daysIn t.month t.year ≤ 31 := by
        unfold daysIn; split_ifs <;> omega
      omega
    have pd := parseUint_two t.day 1 (daysIn t.month t.year) hdl hd1 hd2
    have ph := parseUint_two t.hour 0 23 (by omega) (Nat.zero_le _) hh
    have pn := parseUint_two t.minute 0 59 (by omega) (Nat.zero_le _) hmi
    have ps := parseUint_two t.second 0 59 (by omega) (Nat.zero_le _) hs
    have pf := parseFracZone_format t.nsec t.offset hn ho1 ho2
    simp only [pad4, pad2, List.cons_append, List.nil_append, List.append_assoc, parseRFC3339,
      py, pm, pd, ph, pn, ps, pf, decide_True, Bool.and_self, if_true, Option.map_some']
  · rw [if_neg hv] at h
    cases h

/-- The scanner returns a run of characters that need no escape, up to the closing
quote. -/
theorem scanString_plain_run (l rest : List Char)
    (h : ∀ c ∈ l, c ≠ dq ∧ c ≠ bs ∧ 32 ≤ c.toNat) :
    scanString (l ++ dq :: rest) = some (l, rest) := by
  unfold scanString
  induction l with
  | nil => simp [scanStringAux]
  | cons c l ih =>
    obtain ⟨h1, h2, h3⟩ := h c (List.mem_cons_self _ _)
    have ih' := ih (fun x hx => h x (List.mem_cons_of_mem _ hx))
    rw [List.cons_append, scanStringAux_plain c _ h1 h2 h3, ih']
    simp

theorem digitChar_plain (d : Nat) :
    digitChar d ≠ dq ∧ digitChar d ≠ bs ∧ 32 ≤ (digitChar d).toNat := by
  have h := digitChar_toNat d
  have hq : dq.toNat = 34 := by decide
  have hb : bs.toNat = 92 := by decide
  refine ⟨fun e => ?_, fun e => ?_, by omega⟩
  · rw [e] at h; omega
  · rw [e] at h; omega

/-- The text of a timestamp has no character that needs an escape. -/
theorem formatTime_plain (t : Time) (text : List Char) (h : formatTime t = some text) :
    ∀ c ∈ text, c ≠ dq ∧ c ≠ bs ∧ 32 ≤ c.toNat := by
  unfold formatTime at h
  by_cases hv : t.valid = true
  · rw [if_pos hv] at h
    injection h with h
    subst h
    have hfrac : ∀ c ∈ formatFrac t.nsec, c ≠ dq ∧ c ≠ bs ∧ 32 ≤ c.toNat := by
      intro c hc
      unfold formatFrac at hc
      split_ifs at hc with h0
      · cases hc
      · rcases List.mem_cons.1 hc with hc | hc
        · rw [hc]; decide
        · have := trimZeros_subset _ c hc
          simp only [pad9, List.mem_cons, List.mem_singleton, List.not_mem_nil, or_false] at this
          rcases this with h | h | h | h | h | h | h | h | h <;> rw [h] <;>
            exact digitChar_plain _
    have hzone : ∀ c ∈ formatZone t.offset, c ≠ dq ∧ c ≠ bs ∧ 32 ≤ c.toNat := by
      intro c hc
      unfold formatZone at hc
      split_ifs at hc with h0 h1
      · simp only [List.mem_singleton] at hc; rw [hc]; decide
      · simp only [pad2, List.cons_append, List.nil_append, List.mem_cons, List.mem_singleton,
          List.not_mem_nil, or_false] at hc
        rcases hc with h | h | h | h | h | h <;> rw [h] <;>
          first | exact digitChar_plain _ | decide
      · simp only [pad2, List.cons_append, List.nil_append, List.mem_cons, List.mem_singleton,
          List.not_mem_nil, or_false] at hc
        rcases hc with h | h | h | h | h | h <;> rw [h] <;>
          first | exact digitChar_plain _ | decide
    intro c hc
    simp only [pad4, pad2, List.cons_append, List.nil_append, List.append_assoc, List.mem_cons,
      List.mem_append] at hc
    rcases hc with h | h | h | h | h | h | h | h | h | h | h | h | h | h | h | h | h | h | h | h | h
    all_goals first
      | exact hfrac c h
      | exact hzone c h
      | (rw [h]; exact digitChar_plain _)
      | (rw [h]; decide)
  · rw [if_neg hv] at h
    cases h

/-! ## Theorems: the parser on the text of a marshalled event -/

theorem skipWs_cons (c : Char) (t : List Char) (h : isWs c = false) :
    skipWs (c :: t) = c :: t := by
  simp [skipWs, h]

theorem skipWs_encodeString (s : String) (t : List Char) :
    skipWs (encodeString s ++ t) = encodeString s ++ t := by
  unfold encodeString
  exact skipWs_cons dq _ (by decide)

/-- The text of an integer starts with a digit or a minus sign. -/
theorem intDecimal_head (i : Int) :
    ∃ c t, intDecimal i = c :: t ∧ (isDig c = true ∨ c = '-') := by
  obtain ⟨h1, _, c, t, h3, _⟩ :=
    decDigits_spec (i.natAbs + 1) i.natAbs (Nat.lt_succ_self _)
  unfold intDecimal
  by_cases hneg : i < 0
  · rw [if_pos hneg]
    exact ⟨'-', decimal i.natAbs, rfl, Or.inr rfl⟩
  · rw [if_neg hneg]
    exact ⟨c, t, h3, Or.inl (h1 c (by rw [h3]; exact List.mem_cons_self _ _))⟩

theorem numberStart_facts (c : Char) (h : isDig c = true ∨ c = '-') :
    isWs c = false ∧ c ≠ '{' ∧ c ≠ '[' ∧ c ≠ dq ∧ c ≠ 't' ∧ c ≠ 'f' ∧ c ≠ 'n' := by
  rcases h with h | h
  · refine ⟨?_, ?_, ?_, ?_, ?_, ?_, ?_⟩
    · cases hw : isWs c
      · rfl
      · simp only [isWs, Bool.or_eq_true, decide_eq_true_eq] at hw
        rcases hw with ((hw | hw) | hw) | hw <;> rw [hw] at h <;> exact absurd h (by decide)
    all_goals (intro e; rw [e] at h; exact absurd h (by decide))
  · subst h
    decide

/-- The parser reads the text of a string or integer payload value as one value. -/
theorem parseValue_plain (v : GoVal) (text : List Char) (hp : plainVal v = true)
    (hm : marshalVal v = some text) (fuel : Nat) (sep : Char) (rest : List Char)
    (hs : endsNumber sep = true) :
    parseValue (fuel + 1) (text ++ sep :: rest) = some (plainAst v, sep :: rest) ∧
    skipWs (text ++ sep :: rest) = text ++ sep :: rest := by
  cases v with
  | str s =>
    simp only [marshalVal, Option.some.injEq] at hm
    subst hm
    refine ⟨?_, skipWs_encodeString s _⟩
    have hq1 : dq ≠ '{' := by decide
    have hq2 : dq ≠ '[' := by decide
    have hsc := scanString_escapeChars s.data (sep :: rest)
    simp only [encodeString, List.cons_append, List.append_assoc, List.singleton_append,
      List.nil_append, parseValue, hq1, hq2, if_false, if_true, hsc, Option.map_some',
      plainAst]
  | int64 i =>
    simp only [marshalVal, Option.some.injEq] at hm
    subst hm
    obtain ⟨c, t, hc, hd⟩ := intDecimal_head i
    obtain ⟨f0, f1, f2, f3, f4, f5, f6⟩ := numberStart_facts c hd
    have hsn := scanNumber_intDecimal i sep rest hs
    rw [hc] at hsn ⊢
    refine ⟨?_, skipWs_cons c _ f0⟩
    simp only [List.cons_append] at hsn ⊢
    simp only [parseValue, f1, f2, f3, f4, f5, f6, if_false, hsn, Option.map_some', plainAst, hc]
  | nil => simp [plainVal] at hp
  | bool b => simp [plainVal] at hp
  | float64 f => simp [plainVal] at hp
  | slice items => simp [plainVal] at hp
  | map entries => simp [plainVal] at hp

/-- One member of an object: a key, a colon, a value the parser reads, and a comma or
the closing brace. -/
theorem parseMembers_step (f : Nat) (key : String) (vt : List Char) (v : Json) (sep : Char)
    (more : List Char)
    (hv : parseValue f (vt ++ sep :: more) = some (v, sep :: more))
    (hws : skipWs (vt ++ sep :: more) = vt ++ sep :: more) (hsep : isWs sep = false) :
    parseMembers (f + 1) (encodeString key ++ ':' :: (vt ++ sep :: more)) =
      if sep = '}' then some ([(escapeChars key.data, v)], more)
      else if sep = ',' then
        (parseMembers f (skipWs more)).map (fun p => ((escapeChars key.data, v) :: p.1, p.2))
      else none := by
  have hsc := scanString_escapeChars key.data (':' :: (vt ++ sep :: more))
  have hc : skipWs (':' :: (vt ++ sep :: more)) = ':' :: (vt ++ sep :: more) :=
    skipWs_cons ':' _ (by decide)
  have hs2 : skipWs (sep :: more) = sep :: more := skipWs_cons sep _ hsep
  simp only [encodeString, List.cons_append, List.append_assoc, List.singleton_append,
    List.nil_append, parseMembers, if_true, hsc, hc, hws, hv, hs2]

theorem endsNumber_comma : endsNumber ',' = true := by decide

theorem endsNumber_brace : endsNumber '}' = true := by decide

/-- Shape of the text written for the members of a non-empty map. -/
theorem marshalEntries_cons (k : String) (v : GoVal) (tail : List (String × GoVal))
    (text : List Char) (h : marshalEntries ((k, v) :: tail) = some text) :
    ∃ tv ts, marshalVal v = some tv ∧ marshalEntries tail = some ts ∧
      text = (if tail.isEmpty then encodeString k ++ ':' :: tv
              else encodeString k ++ ':' :: (tv ++ ',' :: ts)) := by
  rw [marshalEntries] at h
  cases hv : marshalVal v with
  | none => simp [hv] at h
  | some tv =>
    cases ht : marshalEntries tail with
    | none => simp [hv, ht] at h
    | some ts =>
      simp only [hv, ht, Option.some.injEq] at h
      exact ⟨tv, ts, rfl, rfl, h.symm⟩

theorem marshalEntries_length (entries : List (String × GoVal)) (text : List Char)
    (h : marshalEntries entries = some text) : entries.length ≤ text.length := by
  induction entries generalizing text with
  | nil => simp
  | cons kv tail ih =>
    obtain ⟨k, v⟩ := kv
    obtain ⟨tv, ts, _, h2, h3⟩ := marshalEntries_cons k v tail text h
    have := ih ts h2
    cases tail with
    | nil => simp [h3, encodeString]
    | cons e tail' =>
      simp only [List.isEmpty_cons, Bool.false_eq_true, if_false] at h3
      simp only [h3, List.length_append, List.length_cons, encodeString] at this ⊢
      omega

/-- The parser reads the members written for a non-empty payload of strings and
integers, up to the closing brace. -/
theorem parseMembers_entries (entries : List (String × GoVal)) (text : List Char)
    (hne : entries ≠ []) (hp : ∀ kv ∈ entries, plainVal kv.2 = true)
    (hm : marshalEntries entries = some text) (fuel : Nat) (hf : entries.length ≤ fuel)
    (rest : List Char) :
    parseMembers (fuel + 1) (text ++ '}' :: rest) = some (entriesAst entries, rest) := by
  induction entries generalizing text fuel with
  | nil => exact absurd rfl hne
  | cons kv tail ih =>
    obtain ⟨k, v⟩ := kv
    obtain ⟨tv, ts, h1, h2, h3⟩ := marshalEntries_cons k v tail text hm
    have hpv : plainVal v = true := hp (k, v) (List.mem_cons_self _ _)
    obtain ⟨f, rfl⟩ : ∃ f, fuel = f + 1 := ⟨fuel - 1, by simp at hf; omega⟩
    cases tail with
    | nil =>
      simp only [List.isEmpty_nil, if_true] at h3
      subst h3
      obtain ⟨hv, hws⟩ := parseValue_plain v tv hpv h1 f '}' rest endsNumber_brace
      have := parseMembers_step (f + 1) k tv (plainAst v) '}' rest hv hws (by decide)
      simp only [List.append_assoc, List.cons_append]
      rw [this]
      simp [entriesAst]
    | cons e tail' =>
      simp only [List.isEmpty_cons, Bool.false_eq_true, if_false] at h3
      subst h3
      have hne' : e :: tail' ≠ [] := by simp
      have hp' : ∀ kv ∈ e :: tail', plainVal kv.2 = true :=
        fun kv hkv => hp kv (List.mem_cons_of_mem _ hkv)
      have hf' : (e :: tail').length ≤ f := by
        simp only [List.length_cons] at hf ⊢; omega
      have ih' := ih ts hne' hp' h2 f hf'
      obtain ⟨k2, v2⟩ := e
      obtain ⟨tv2, ts2, _, _, h6⟩ := marshalEntries_cons k2 v2 tail' ts h2
      have hws2 : skipWs (ts ++ '}' :: rest) = ts ++ '}' :: rest := by
        rw [h6]
        split_ifs
        · rw [List.append_assoc]; exact skipWs_encodeString k2 _
        · rw [List.append_assoc]; exact skipWs_encodeString k2 _
      obtain ⟨hv, hws⟩ :=
        parseValue_plain v tv hpv h1 f ',' (ts ++ '}' :: rest) endsNumber_comma
      have := parseMembers_step (f + 1) k tv (plainAst v) ',' (ts ++ '}' :: rest) hv hws
        (by decide)
      simp only [List.append_assoc, List.cons_append]
      rw [this, hws2, ih']
      simp +decide [entriesAst]

/-- The parser reads the text written for the `data` member. -/
theorem parseValue_data (data : Option GoMap) (text : List Char)
    (hm : marshalData data = some text)
    (hp : ∀ m, data = some m → ∀ kv ∈ m, plainVal kv.2 = true)
    (fuel : Nat) (hf : ∀ m, data = some m → m.length + 1 ≤ fuel) (rest : List Char) :
    parseValue (fuel + 1) (text ++ '}' :: rest) = some (dataAst data, '}' :: rest) ∧
    skipWs (text ++ '}' :: rest) = text ++ '}' :: rest := by
  cases data with
  | none =>
    simp only [marshalData, Option.some.injEq] at hm
    subst hm
    exact ⟨by simp +decide [parseValue, stripWord, dataAst], by simp +decide [skipWs]⟩
  | some m =>
    simp only [marshalData] at hm
    cases hme : marshalEntries m with
    | none => simp [hme] at hm
    | some ts =>
      simp only [hme, Option.map_some', Option.some.injEq] at hm
      subst hm
      refine ⟨?_, skipWs_cons '{' _ (by decide)⟩
      cases m with
      | nil =>
        simp only [marshalEntries, Option.some.injEq] at hme
        subst hme
        simp +decide [parseValue, skipWs, dataAst, entriesAst]
      | cons kv tail =>
        obtain ⟨f, rfl⟩ : ∃ f, fuel = f + 1 :=
          ⟨fuel - 1, by have := hf _ rfl; simp at this; omega⟩
        have hlen : (kv :: tail).length ≤ f := by
          have := hf _ rfl
          omega
        have hpm := parseMembers_entries (kv :: tail) ts (by simp) (hp _ rfl) hme f hlen
          ('}' :: rest)
        obtain ⟨k, v⟩ := kv
        obtain ⟨tv, ts2, _, _, h6⟩ := marshalEntries_cons k v tail ts hme
        have hhead : ∃ t', ts = dq :: t' := by
          rw [h6]
          split_ifs <;> exact ⟨_, rfl⟩
        obtain ⟨t', ht'⟩ := hhead
        have hq : dq ≠ '}' := by decide
        have hws : skipWs (dq :: (t' ++ '}' :: '}' :: rest)) = dq :: (t' ++ '}' :: '}' :: rest) :=
          skipWs_cons dq _ (by decide)
        rw [ht'] at hpm
        simp only [List.cons_append, List.append_assoc, List.singleton_append] at hpm
        simp only [ht', List.cons_append, List.append_assoc, List.singleton_append,
          List.nil_append, parseValue, if_true, hws, hq, if_false, hpm, Option.map_some',
          dataAst]

/-- Shape of the text `json.Marshal` writes for an event. -/
theorem marshalEvent_shape (event : Event) (text : List Char)
    (h : marshalEvent event = some text) :
    ∃ ts dt, formatTime event.Timestamp = some ts ∧ marshalData event.Data = some dt ∧
      text = '{' :: (encodeString "event_type" ++ ':' :: (encodeString event.EventType ++ ','
        :: (encodeString "user_id" ++ ':' :: (encodeString event.UserID ++ ','
        :: (encodeString "user_email" ++ ':' :: (encodeString event.UserEmail ++ ','
        :: (encodeString "timestamp" ++ ':' :: ((dq :: (ts ++ [dq])) ++ ','
        :: (encodeString "data" ++ ':' :: (dt ++ ['}'])))))))))) := by
  unfold marshalEvent at h
  cases hts : formatTime event.Timestamp with
  | none => simp [hts] at h
  | some ts =>
    cases hdt : marshalData event.Data with
    | none => simp [hts, hdt] at h
    | some dt =>
      simp only [hts, hdt, Option.some.injEq] at h
      refine ⟨ts, dt, rfl, rfl, ?_⟩
      rw [← h]
      have e1 : encodeString "event_type" = "\"event_type\"".data := by decide
      have e2 : encodeString "user_id" = "\"user_id\"".data := by decide
      have e3 : encodeString "user_email" = "\"user_email\"".data := by decide
      have e4 : encodeString "timestamp" = "\"timestamp\"".data := by decide
      have e5 : encodeString "data" = "\"data\"".data := by decide
      rw [e1, e2, e3, e4, e5]
      simp

theorem parseValue_timestamp (ts : List Char)
    (hpl : ∀ c ∈ ts, c ≠ dq ∧ c ≠ bs ∧ 32 ≤ c.toNat) (fuel : Nat) (sep : Char)
    (rest : List Char) :
    parseValue (fuel + 1) ((dq :: (ts ++ [dq])) ++ sep :: rest) = some (Json.str ts, sep :: rest) ∧
    skipWs ((dq :: (ts ++ [dq])) ++ sep :: rest) = (dq :: (ts ++ [dq])) ++ sep :: rest := by
  refine ⟨?_, skipWs_cons dq _ (by decide)⟩
  have hq1 : dq ≠ '{' := by decide
  have hq2 : dq ≠ '[' := by decide
  have hsc := scanString_plain_run ts (sep :: rest) hpl
  simp only [List.cons_append, List.append_assoc, List.singleton_append, List.nil_append,
    parseValue, hq1, hq2, if_false, if_true, hsc, Option.map_some']

theorem marshalData_length (data : Option GoMap) (dt : List Char)
    (h : marshalData data = some dt) : ∀ m, data = some m → m.length ≤ dt.length := by
  intro m hm
  subst hm
  simp only [marshalData] at h
  cases hme : marshalEntries m with
  | none => simp [hme] at h
  | some t =>
    simp only [hme, Option.map_some', Option.some.injEq] at h
    have := marshalEntries_length m t hme
    rw [← h]
    simp only [List.length_cons, List.length_append, List.length_nil]
    omega

/-- The parser reads the text `json.Marshal` writes for an event with a payload of
strings and integers as the syntax tree `eventAst`. -/
theorem parseJson_marshalEvent (event : Event) (text : List Char)
    (h : marshalEvent event = some text)
    (hp : ∀ m, event.Data = some m → ∀ kv ∈ m, plainVal kv.2 = true) :
    ∃ ts, formatTime event.Timestamp = some ts ∧ parseJson text = some (eventAst event ts) := by
  obtain ⟨ts, dt, hts, hdt, hshape⟩ := marshalEvent_shape event text h
  refine ⟨ts, hts, ?_⟩
  have hlen := marshalData_length event.Data dt hdt
  have htl : dt.length + 20 ≤ text.length := by
    rw [hshape]
    simp only [List.length_cons, List.length_append, encodeString, List.length_nil]
    omega
  obtain ⟨f5, hf5, hf5'⟩ : ∃ f5, 2 * text.length + 2 = f5 + 7 ∧ dt.length + 1 ≤ f5 :=
    ⟨2 * text.length - 5, by omega, by omega⟩
  have hfd : ∀ m, event.Data = some m → m.length + 1 ≤ f5 := by
    intro m hm
    have := hlen m hm
    omega
  obtain ⟨pv5, ws5⟩ := parseValue_data event.Data dt hdt hp f5 hfd []
  have m5 := parseMembers_step (f5 + 1) "data" dt (dataAst event.Data) '}' [] pv5 ws5
    (by decide)
  simp only [if_true] at m5
  obtain ⟨pv4, ws4⟩ := parseValue_timestamp ts (formatTime_plain _ ts hts) (f5 + 1) ','
    (encodeString "data" ++ ':' :: (dt ++ ['}']))
  have m4 := parseMembers_step (f5 + 2) "timestamp" (dq :: (ts ++ [dq]))
    (Json.str ts) ',' _ pv4 ws4 (by decide)
  have hc : (',' : Char) ≠ '}' := by decide
  simp only [hc, if_false, if_true, skipWs_encodeString, m5, Option.map_some'] at m4
  obtain ⟨pv3, ws3⟩ := parseValue_plain (GoVal.str event.UserEmail) _ rfl rfl (f5 + 2) ','
    (encodeString "timestamp" ++ ':' :: ((dq :: (ts ++ [dq])) ++ ','
      :: (encodeString "data" ++ ':' :: (dt ++ ['}'])))) endsNumber_comma
  have m3 := parseMembers_step (f5 + 3) "user_email" _ _ ',' _ pv3 ws3 (by decide)
  simp only [hc, if_false, if_true, skipWs_encodeString, m4, Option.map_some'] at m3
  obtain ⟨pv2, ws2⟩ := parseValue_plain (GoVal.str event.UserID) _ rfl rfl (f5 + 3) ','
    (encodeString "user_email" ++ ':' :: (encodeString event.UserEmail ++ ','
      :: (encodeString "timestamp" ++ ':' :: ((dq :: (ts ++ [dq])) ++ ','
      :: (encodeString "data" ++ ':' :: (dt ++ ['}'])))))) endsNumber_comma
  have m2 := parseMembers_step (f5 + 4) "user_id" _ _ ',' _ pv2 ws2 (by decide)
  simp only [hc, if_false, if_true, skipWs_encodeString, m3, Option.map_some'] at m2
  obtain ⟨pv1, ws1⟩ := parseValue_plain (GoVal.str event.EventType) _ rfl rfl (f5 + 4) ','
    (encodeString "user_id" ++ ':' :: (encodeString event.UserID ++ ','
      :: (encodeString "user_email" ++ ':' :: (encodeString event.UserEmail ++ ','
      :: (encodeString "timestamp" ++ ':' :: ((dq :: (ts ++ [dq])) ++ ','
      :: (encodeString "data" ++ ':' :: (dt ++ ['}'])))))))) endsNumber_comma
  have m1 := parseMembers_step (f5 + 5) "event_type" _ _ ',' _ pv1 ws1 (by decide)
  simp only [hc, if_false, if_true, skipWs_encodeString, m2, Option.map_some'] at m1
  have hq : dq ≠ '}' := by decide
  have hws0 : skipWs text = text := by rw [hshape]; exact skipWs_cons '{' _ (by decide)
  unfold parseJson
  rw [hws0, hf5, hshape]
  have hes : ∀ (s : String) (t : List Char),
      encodeString s ++ t = dq :: (escapeChars s.data ++ dq :: t) := by
    intro s t; simp [encodeString]
  rw [parseValue]
  simp only [if_true]
  rw [skipWs_encodeString, hes "event_type"]
  simp only [hq, if_false]
  rw [← hes "event_type", m1]
  simp [skipWs, eventAst, plainAst]

/-! ## Theorems: the decoder on the syntax tree of a marshalled event -/

theorem GoMap_set_append (acc : GoMap) (k : String) (v : GoVal)
    (h : ∀ kv ∈ acc, kv.1.data < k.data) : GoMap.set acc k v = acc ++ [(k, v)] := by
  induction acc with
  | nil => rfl
  | cons a rest ih =>
    obtain ⟨k1, v1⟩ := a
    have h1 : k1.data < k.data := h (k1, v1) (List.mem_cons_self _ _)
    have h2 : ¬ k.data < k1.data := lt_asymm h1
    have h3 : k ≠ k1 := by
      intro e
      rw [e] at h1
      exact lt_irrefl _ h1
    have ih' := ih (fun kv hkv => h kv (List.mem_cons_of_mem _ hkv))
    simp [GoMap.set, h2, h3, ih']

theorem sortedKeys_cons (a : String × GoVal) (l : List (String × GoVal))
    (h : sortedKeys (a :: l) = true) :
    (∀ kv ∈ l, a.1.data < kv.1.data) ∧ sortedKeys l = true := by
  induction l generalizing a with
  | nil => simp [sortedKeys]
  | cons b rest ih =>
    simp only [sortedKeys, Bool.and_eq_true, decide_eq_true_eq] at h
    obtain ⟨hab, hrest⟩ := h
    obtain ⟨h1, _⟩ := ih b hrest
    refine ⟨?_, hrest⟩
    intro kv hkv
    rcases List.mem_cons.1 hkv with e | e
    · rw [e]; exact hab
    · exact lt_trans hab (h1 kv e)

theorem jsonToGo_plain (v : GoVal) (hp : plainVal v = true) :
    jsonToGo (plainAst v) = some (receivedVal v) := by
  cases v with
  | str s => simp [plainAst, jsonToGo, receivedVal, unquote_escapeChars]
  | int64 i =>
    simp only [plainVal, decide_eq_true_eq] at hp
    simp [plainAst, jsonToGo, receivedVal, parseFloat_intDecimal i hp]
  | nil => simp [plainVal] at hp
  | bool b => simp [plainVal] at hp
  | float64 f => simp [plainVal] at hp
  | slice items => simp [plainVal] at hp
  | map entries => simp [plainVal] at hp

/-- Decoding the members of a sorted payload of strings and integers into a map stores
them in order: strings as they were, integers as `float64`. -/
theorem jsonMembersToGo_entries (post : List (String × GoVal)) (acc : GoMap)
    (hp : ∀ kv ∈ post, plainVal kv.2 = true) (hs : sortedKeys post = true)
    (hacc : ∀ a ∈ acc, ∀ p ∈ post, a.1.data < p.1.data) :
    jsonMembersToGo (entriesAst post) acc
      = some (acc ++ post.map (fun kv => (kv.1, receivedVal kv.2))) := by
  induction post generalizing acc with
  | nil => simp [entriesAst, jsonMembersToGo]
  | cons kv rest ih =>
    obtain ⟨k, v⟩ := kv
    obtain ⟨h1, h2⟩ := sortedKeys_cons (k, v) rest hs
    have hv := jsonToGo_plain v (hp (k, v) (List.mem_cons_self _ _))
    have hset := GoMap_set_append acc k (receivedVal v)
      (fun a ha => hacc a ha (k, v) (List.mem_cons_self _ _))
    have ih' := ih (acc ++ [(k, receivedVal v)])
      (fun kv hkv => hp kv (List.mem_cons_of_mem _ hkv)) h2
      (by
        intro a ha p hpm
        rcases List.mem_append.1 ha with ha | ha
        · exact hacc a ha p (List.mem_cons_of_mem _ hpm)
        · simp only [List.mem_singleton] at ha
          rw [ha]
          exact h1 p hpm)
    simp only [entriesAst, List.map_cons] at ih' ⊢
    simp only [jsonMembersToGo, hv, unquote_escapeChars, hset, ih']
    simp

theorem decodeSNS_five (r1 r2 r3 r4 r5 ts : List Char) (v1 v2 v3 v5 : Json)
    (u1 : unquote r1 = "event_type") (u2 : unquote r2 = "user_id")
    (u3 : unquote r3 = "user_email") (u4 : unquote r4 = "timestamp")
    (u5 : unquote r5 = "data") :
    decodeSNS (Json.obj [(r1, v1), (r2, v2), (r3, v3), (r4, Json.str ts), (r5, v5)])
      = some { SNSEnvelope.zero with Timestamp := unquote ts } := by
  have f1 : findField snsFieldNames "event_type" = none := by decide
  have f2 : findField snsFieldNames "user_id" = none := by decide
  have f3 : findField snsFieldNames "user_email" = none := by decide
  have f4 : findField snsFieldNames "timestamp" = some "Timestamp" := by decide
  have f5 : findField snsFieldNames "data" = none := by decide
  simp only [decodeSNS, decodeSNSMembers, u1, u2, u3, u4, u5, f1, f2, f3, f4, f5]
  simp +decide [SNSEnvelope.setField]

/-- The text of an event, parsed as the Notification wrapper, gives a wrapper with an
empty `Type`: only the `timestamp` member matches a wrapper field (`Timestamp`, by case
folding), and it holds a string. -/
theorem decodeSNS_eventAst (event : Event) (ts : List Char) :
    ∃ env, decodeSNS (eventAst event ts) = some env ∧ env.Type_ = "" :=
  ⟨{ SNSEnvelope.zero with Timestamp := unquote ts },
    decodeSNS_five _ _ _ _ _ ts _ _ _ _ (unquote_escapeChars _) (unquote_escapeChars _)
      (unquote_escapeChars _) (unquote_escapeChars _) (unquote_escapeChars _), rfl⟩

theorem decodeEvent_five (r1 r2 r3 r4 r5 ts s1 s2 s3 : List Char) (v5 : Json) (t : Time)
    (data : Option GoMap)
    (u1 : unquote r1 = "event_type") (u2 : unquote r2 = "user_id")
    (u3 : unquote r3 = "user_email") (u4 : unquote r4 = "timestamp")
    (u5 : unquote r5 = "data") (hts : parseRFC3339 ts = some t)
    (hd : decodeEventField ⟨unquote s1, unquote s2, unquote s3, t, none⟩ "data" v5
      = some ⟨unquote s1, unquote s2, unquote s3, t, data⟩) :
    decodeEvent (Json.obj [(r1, Json.str s1), (r2, Json.str s2), (r3, Json.str s3),
        (r4, Json.str ts), (r5, v5)])
      = some ⟨unquote s1, unquote s2, unquote s3, t, data⟩ := by
  have f1 : findField eventFieldNames "event_type" = some "event_type" := by decide
  have f2 : findField eventFieldNames "user_id" = some "user_id" := by decide
  have f3 : findField eventFieldNames "user_email" = some "user_email" := by decide
  have f4 : findField eventFieldNames "timestamp" = some "timestamp" := by decide
  have f5 : findField eventFieldNames "data" = some "data" := by decide
  have d1 : decodeEventField Event.zero "event_type" (Json.str s1)
      = some ⟨unquote s1, "", "", Time.zero, none⟩ := by
    unfold decodeEventField; simp +decide [Event.zero]
  have d2 : decodeEventField ⟨unquote s1, "", "", Time.zero, none⟩ "user_id" (Json.str s2)
      = some ⟨unquote s1, unquote s2, "", Time.zero, none⟩ := by
    unfold decodeEventField; simp +decide
  have d3 : decodeEventField ⟨unquote s1, unquote s2, "", Time.zero, none⟩ "user_email"
      (Json.str s3) = some ⟨unquote s1, unquote s2, unquote s3, Time.zero, none⟩ := by
    unfold decodeEventField; simp +decide
  have d4 : decodeEventField ⟨unquote s1, unquote s2, unquote s3, Time.zero, none⟩ "timestamp"
      (Json.str ts) = some ⟨unquote s1, unquote s2, unquote s3, t, none⟩ := by
    unfold decodeEventField; simp +decide [hts]
  simp only [decodeEvent, decodeEventMembers, u1, u2, u3, u4, u5, f1, f2, f3, f4, f5, d1, d2,
    d3, d4, hd]

/-- Decoding the syntax tree of a marshalled event gives the event back, with integer
payload values held as `float64`. -/
theorem decodeEvent_eventAst (event : Event) (ts : List Char)
    (hts : parseRFC3339 ts = some event.Timestamp)
    (hp : ∀ m, event.Data = some m → ∀ kv ∈ m, plainVal kv.2 = true)
    (hs : ∀ m, event.Data = some m → sortedKeys m = true) :
    decodeEvent (eventAst event ts) = some (receivedEvent event) := by
  obtain ⟨et, uid, em, t, data⟩ := event
  simp only at hts hp hs
  have key := decodeEvent_five (escapeChars "event_type".data) (escapeChars "user_id".data)
    (escapeChars "user_email".data) (escapeChars "timestamp".data) (escapeChars "data".data)
    ts (escapeChars et.data) (escapeChars uid.data) (escapeChars em.data) (dataAst data) t
    (data.map (fun m => m.map (fun kv => (kv.1, receivedVal kv.2))))
    (unquote_escapeChars _) (unquote_escapeChars _) (unquote_escapeChars _)
    (unquote_escapeChars _) (unquote_escapeChars _) hts
    (by
      cases data with
      | none => unfold decodeEventField; simp +decide [dataAst]
      | some m =>
        have hm := jsonMembersToGo_entries m [] (hp m rfl) (hs m rfl) (by simp)
        simp only [List.nil_append] at hm
        unfold decodeEventField; simp +decide [dataAst, hm])
  simp only [unquote_escapeChars] at key
  exact key

/-! ## Theorems: the round trip of an envelope -/

theorem marshalEntries_plain (m : List (String × GoVal))
    (hp : ∀ kv ∈ m, plainVal kv.2 = true) : ∃ t, marshalEntries m = some t := by
  induction m with
  | nil => exact ⟨[], rfl⟩
  | cons kv rest ih =>
    obtain ⟨k, v⟩ := kv
    obtain ⟨ts, hts⟩ := ih (fun kv hkv => hp kv (List.mem_cons_of_mem _ hkv))
    have hv : ∃ tv, marshalVal v = some tv := by
      have := hp (k, v) (List.mem_cons_self _ _)
      cases v with
      | str s => exact ⟨_, rfl⟩
      | int64 i => exact ⟨_, rfl⟩
      | nil => simp [plainVal] at this
      | bool b => simp [plainVal] at this
      | float64 f => simp [plainVal] at this
      | slice items => simp [plainVal] at this
      | map entries => simp [plainVal] at this
    obtain ⟨tv, htv⟩ := hv
    rw [marshalEntries]
    simp only [htv, hts]
    exact ⟨_, rfl⟩

/-- What `plainEvent` says, unpacked. -/
theorem plainEvent_spec (event : Event) (h : plainEvent event = true) :
    event.Timestamp.valid = true ∧
    (∀ m, event.Data = some m → ∀ kv ∈ m, plainVal kv.2 = true) ∧
    (∀ m, event.Data = some m → sortedKeys m = true) := by
  unfold plainEvent at h
  simp only [Bool.and_eq_true] at h
  obtain ⟨h1, h2⟩ := h
  refine ⟨h1, ?_, ?_⟩
  · intro m hm kv hkv
    rw [hm] at h2
    simp only [Bool.and_eq_true, List.all_eq_true] at h2
    exact h2.2 kv hkv
  · intro m hm
    rw [hm] at h2
    simp only [Bool.and_eq_true] at h2
    exact h2.1

/-- Serialization of a plain envelope succeeds, and both parses the consumer makes of
the text go as the round trip needs: as a wrapper it has an empty `Type`, as an event it
is the envelope with integers held as `float64`. -/
theorem unmarshal_marshalEvent (event : Event) (h : plainEvent event = true) :
    ∃ text, marshalEvent event = some text ∧
      (∃ env, unmarshalSNS (String.mk text) = some env ∧ env.Type_ = "") ∧
      unmarshalEvent (String.mk text) = some (receivedEvent event) := by
  obtain ⟨hv, hp, hs⟩ := plainEvent_spec event h
  have hts : ∃ ts, formatTime event.Timestamp = some ts := by
    unfold formatTime
    rw [if_pos hv]
    exact ⟨_, rfl⟩
  obtain ⟨ts0, hts0⟩ := hts
  have hdt : ∃ dt, marshalData event.Data = some dt := by
    cases hd : event.Data with
    | none => exact ⟨_, rfl⟩
    | some m =>
      obtain ⟨t, ht⟩ := marshalEntries_plain m (hp m hd)
      exact ⟨'{' :: (t ++ ['}']), by simp [marshalData, ht]⟩
  obtain ⟨dt, hdt⟩ := hdt
  have hm : ∃ text, marshalEvent event = some text := by
    unfold marshalEvent
    rw [hts0, hdt]
    exact ⟨_, rfl⟩
  obtain ⟨text, hm⟩ := hm
  obtain ⟨ts, hts, hparse⟩ := parseJson_marshalEvent event text hm hp
  have htime := parseRFC3339_formatTime event.Timestamp ts hts
  obtain ⟨env, henv, htype⟩ := decodeSNS_eventAst event ts
  refine ⟨text, hm, ⟨env, ?_, htype⟩, ?_⟩
  · simp [unmarshalSNS, hparse, henv]
  · simp [unmarshalEvent, hparse, decodeEvent_eventAst event ts htime hp hs]

/-- Counterexample to C4 as stated. The envelope `uploadEvent` (a receipt.uploaded event
as the producer builds it, file size the `int64` 1024) serializes to `uploadText`, and the
consumer hands the handler an event that is not equal to it: the file size arrives as the
`float64` 1024, the dynamic type the dispatcher asserts. For the envelope `hugeEvent` the
integer 2 ^ 53 + 1 arrives as another number, 2 ^ 53. -/
theorem round_trip_changes_integers :
    (marshalEvent uploadEvent).map String.mk = some uploadText ∧
    handlerEvents (processMessage ⟨some uploadText, none⟩ okHandler ()).calls
      = [receivedEvent uploadEvent] ∧
    receivedEvent uploadEvent ≠ uploadEvent ∧
    uploadEvent.get "file_size" = some (GoVal.int64 1024) ∧
    (receivedEvent uploadEvent).get "file_size" = some (GoVal.float64 ⟨1024, 0⟩) ∧
    (marshalEvent hugeEvent).map String.mk = some hugeText ∧
    (handlerEvents (processMessage ⟨some hugeText, none⟩ okHandler ()).calls).map
      (fun e => e.get "file_size") = [some (GoVal.float64 ⟨9007199254740992, 0⟩)] := by
  refine ⟨by decide, by rfl, ?_, by rfl, by rfl, by decide, by rfl⟩
  intro h
  have h2 : (receivedEvent uploadEvent).get "file_size" = uploadEvent.get "file_size" := by
    rw [h]
  have h3 : (receivedEvent uploadEvent).get "file_size" = some (GoVal.float64 ⟨1024, 0⟩) := by
    rfl
  have h4 : uploadEvent.get "file_size" = some (GoVal.int64 1024) := by rfl
  rw [h3, h4] at h2
  cases h2

/-- C4, amended. For every envelope with a representable timestamp and a payload (nil or
sorted by key) of strings and of integers of magnitude at most 2 ^ 53, of any event type
and so of each of the five supported ones: the producer's serialization succeeds, and the
consumer, given the serialization as the raw message body or as the `Message` of a
wrapper of `Type` `Notification`, calls the handler with the envelope in which every
field is unchanged except that each integer payload value is held as the `float64` of the
same value. -/
theorem envelope_round_trip {σ : Type} (event : Event) (handler : MessageHandler σ) (s : σ)
    (rh : Option String) (h : plainEvent event = true) :
    ∃ text, marshalEvent event = some text ∧
      processMessage ⟨some (String.mk text), rh⟩ handler s
        = callHandler handler (receivedEvent event) s ∧
      (∀ wrapped wenv, unmarshalSNS wrapped = some wenv → wenv.Type_ = "Notification" →
        wenv.Message = String.mk text →
        processMessage ⟨some wrapped, rh⟩ handler s
          = callHandler handler (receivedEvent event) s) := by
  obtain ⟨text, hm, ⟨env, henv, htype⟩, hev⟩ := unmarshal_marshalEvent event h
  refine ⟨text, hm, ?_, ?_⟩
  · have hne : env.Type_ ≠ "Notification" := by rw [htype]; decide
    simp [processMessage, henv, hne, hev]
  · intro wrapped wenv hw hwt hwm
    simp [processMessage, hw, hwt, hwm, hev]

/-- Witness for C4 amended: the receipt.uploaded envelope `uploadEvent`, raw and
topic-wrapped. -/
theorem envelope_round_trip_witness :
    plainEvent uploadEvent = true ∧
    ∃ text, marshalEvent uploadEvent = some text ∧
      processMessage ⟨some (String.mk text), some "rh"⟩ okHandler ()
        = callHandler okHandler (receivedEvent uploadEvent) () ∧
      (∀ wrapped wenv, unmarshalSNS wrapped = some wenv → wenv.Type_ = "Notification" →
        wenv.Message = String.mk text →
        processMessage ⟨some wrapped, some "rh"⟩ okHandler ()
          = callHandler okHandler (receivedEvent uploadEvent) ()) :=
  ⟨by decide, envelope_round_trip uploadEvent okHandler () (some "rh") (by decide)⟩

/-! ## Theorems: cancellation and idle iterations of the polling loop -/

/-- The inner loop never reads the context: replacing the cancellation signal of the
broker leaves the processing of a batch unchanged. -/
theorem processBatch_ctxErr {σ : Type} (b : Broker σ) (ctxErr1 : σ → Option String)
    (q : String) (handler : MessageHandler σ) (messages : List Message) (s : σ) :
    processBatch ⟨b.ReceiveMessage, b.DeleteMessage, ctxErr1, b.sleep⟩ q handler messages s
      = processBatch b q handler messages s := by
  induction messages generalizing s with
  | nil => simp [processBatch]
  | cons message rest ih =>
    simp only [processBatch, loopBody]
    cases (processMessage message handler s).val <;> simp [ih]

/-- A return of `ConsumeMessages` happens at a loop-top check: the error returned is the
error of the context in the state in which the loop ended. -/
theorem ConsumeMessages_returned {σ : Type} (b : Broker σ) (q : String)
    (handler : MessageHandler σ) (n : Nat) (s : σ) (err : String)
    (h : (ConsumeMessages b q handler n s).val = some (LoopEnd.returned err)) :
    b.ctxErr (ConsumeMessages b q handler n s).state = some err := by
  induction n generalizing s with
  | zero => simp [ConsumeMessages] at h
  | succ n ih =>
    rw [ConsumeMessages] at h ⊢
    cases hc : b.ctxErr s with
    | some e =>
      simp only [hc] at h ⊢
      simp at h
      simp [hc, h]
    | none =>
      simp only [hc] at h ⊢
      rcases hr : b.ReceiveMessage q s with ⟨_ | messages, s1⟩
      · simp only [hr] at h ⊢
        exact ih _ h
      · simp only [hr] at h ⊢
        by_cases hp : Outcome.panic ∈ (processBatch b q handler messages s1).val
        · simp [hp] at h
        · simp only [hp, if_false] at h ⊢
          exact ih _ h

/-- Cancellation and a batch in flight, where every message of the batch carries a body
(a batch that holds a message without body is treated with the theorems on such batches
below). In `ConsumeMessages` the cancellation signal is read only at the top of the
polling loop. Once an iteration has passed the check and received a batch (of messages
that carry a body), the whole batch is processed whatever the context reports from then
on: the processing of the batch does not depend on the cancellation signal, every message
gets an outcome, the handler is called for every message that unwraps, and the calls of
the batch are all in the trace before the next loop-top check. When the context is
cancelled at a loop top the call returns the context error at once, without a further
call; and every return of `ConsumeMessages` is such a return: the error returned is the
(non-nil) error the context reports in the state in which the loop ended. -/
theorem cancellation_only_at_loop_top {σ : Type} (b : Broker σ) (queueURL : String)
    (handler : MessageHandler σ) (messages : List Message) (fuel : Nat) (s0 s1 : σ)
    (hctx : b.ctxErr s0 = none)
    (hrecv : b.ReceiveMessage queueURL s0 = (some messages, s1))
    (hbody : ∀ m ∈ messages, m.Body ≠ none) :
    (∀ ctxErr1 : σ → Option String,
      processBatch ⟨b.ReceiveMessage, b.DeleteMessage, ctxErr1, b.sleep⟩ queueURL handler
        messages s1 = processBatch b queueURL handler messages s1) ∧
    (processBatch b queueURL handler messages s1).val.length = messages.length ∧
    handlerEvents (processBatch b queueURL handler messages s1).calls
      = messages.filterMap unwrappedEvent ∧
    (ConsumeMessages b queueURL handler (fuel + 1) s0).calls
      = Call.receive queueURL 10 20 30 ::
          ((processBatch b queueURL handler messages s1).calls ++
            (ConsumeMessages b queueURL handler fuel
              (processBatch b queueURL handler messages s1).state).calls) ∧
    (∀ (n : Nat) (s : σ) (err : String), b.ctxErr s = some err →
      ConsumeMessages b queueURL handler (n + 1) s = ⟨some (LoopEnd.returned err), s, []⟩) ∧
    (∀ (n : Nat) (s : σ) (err : String),
      (ConsumeMessages b queueURL handler n s).val = some (LoopEnd.returned err) →
      b.ctxErr (ConsumeMessages b queueURL handler n s).state = some err) := by
  obtain ⟨h1, h2, h3⟩ := processBatch_bodies b queueURL handler messages s1 hbody
  refine ⟨fun c => processBatch_ctxErr b c queueURL handler messages s1, h1, h3, ?_, ?_, ?_⟩
  · rw [ConsumeMessages]
    simp [hctx, hrecv, h2]
  · intro n s err h
    rw [ConsumeMessages]
    simp [h]
  · intro n s err h
    exact ConsumeMessages_returned b queueURL handler n s err h

/-- Example for `cancellation_only_at_loop_top`: the context of `cancellingBroker` is
cancelled as soon as the batch of two messages has been received; both messages are
still dispatched and deleted, and the
loop then returns `context canceled` from the next loop-top check. -/
theorem cancellation_only_at_loop_top_witness :
    cancellingBroker.ctxErr 0 = none ∧
    cancellingBroker.ctxErr 1 = some "context canceled" ∧
    (ConsumeMessages cancellingBroker "queue" idleHandler 2 0).calls
      = Call.receive "queue" 10 20 30 ::
          ((processBatch cancellingBroker "queue" idleHandler twoEnvelopes 1).calls ++
            (ConsumeMessages cancellingBroker "queue" idleHandler 1
              (processBatch cancellingBroker "queue" idleHandler twoEnvelopes 1).state).calls) ∧
    deleteCalls (ConsumeMessages cancellingBroker "queue" idleHandler 2 0).calls
      = [("queue", some "rh-1"), ("queue", some "rh-2")] ∧
    (ConsumeMessages cancellingBroker "queue" idleHandler 2 0).val
      = some (LoopEnd.returned "context canceled") :=
  have hb : ∀ m ∈ twoEnvelopes, m.Body ≠ none := by
    intro m hm
    simp [twoEnvelopes] at hm
    rcases hm with rfl | rfl <;> simp
  ⟨rfl, rfl,
   (cancellation_only_at_loop_top cancellingBroker "queue" idleHandler twoEnvelopes 1 0 1
      rfl rfl hb).2.2.2.1,
   by decide, by decide⟩

/-- C17. A polling iteration whose receive call fails makes, besides the receive, only
the 5-second sleep: no handler call and no delete call; the loop does not return but goes
on with the next iteration, which starts in the state reached after the sleep. An
iteration whose receive call returns no message makes no call besides the receive, and
the loop goes on with the next iteration. -/
theorem idle_iteration_continues {σ : Type} (b : Broker σ) (queueURL : String)
    (handler : MessageHandler σ) (fuel : Nat) (s s1 : σ) (hctx : b.ctxErr s = none) :
    (b.ReceiveMessage queueURL s = (none, s1) →
      (ConsumeMessages b queueURL handler (fuel + 1) s).calls
        = Call.receive queueURL 10 20 30 :: Call.sleep 5 ::
            (ConsumeMessages b queueURL handler fuel (b.sleep 5 s1)).calls ∧
      (ConsumeMessages b queueURL handler (fuel + 1) s).val
        = (ConsumeMessages b queueURL handler fuel (b.sleep 5 s1)).val ∧
      (ConsumeMessages b queueURL handler (fuel + 1) s).state
        = (ConsumeMessages b queueURL handler fuel (b.sleep 5 s1)).state ∧
      handlerEvents (ConsumeMessages b queueURL handler (fuel + 1) s).calls
        = handlerEvents (ConsumeMessages b queueURL handler fuel (b.sleep 5 s1)).calls ∧
      deleteCalls (ConsumeMessages b queueURL handler (fuel + 1) s).calls
        = deleteCalls (ConsumeMessages b queueURL handler fuel (b.sleep 5 s1)).calls) ∧
    (b.ReceiveMessage queueURL s = (some [], s1) →
      (ConsumeMessages b queueURL handler (fuel + 1) s).calls
        = Call.receive queueURL 10 20 30 ::
            (ConsumeMessages b queueURL handler fuel s1).calls ∧
      (ConsumeMessages b queueURL handler (fuel + 1) s).val
        = (ConsumeMessages b queueURL handler fuel s1).val ∧
      (ConsumeMessages b queueURL handler (fuel + 1) s).state
        = (ConsumeMessages b queueURL handler fuel s1).state ∧
      handlerEvents (ConsumeMessages b queueURL handler (fuel + 1) s).calls
        = handlerEvents (ConsumeMessages b queueURL handler fuel s1).calls ∧
      deleteCalls (ConsumeMessages b queueURL handler (fuel + 1) s).calls
        = deleteCalls (ConsumeMessages b queueURL handler fuel s1).calls) := by
  constructor
  · intro hr
    rw [ConsumeMessages]
    simp [hctx, hr, handlerEvents, deleteCalls]
  · intro hr
    rw [ConsumeMessages]
    simp [hctx, hr, processBatch, handlerEvents, deleteCalls]

/-- Witness for C17: the first receive of `flakyBroker` fails and the second returns no
message; the loop sleeps 5 seconds after the failure, polls again, and ends only at the
loop-top check that finds the context cancelled. -/
theorem idle_iteration_continues_witness :
    flakyBroker.ctxErr 0 = none ∧ flakyBroker.ReceiveMessage "queue" 0 = (none, 1) ∧
    flakyBroker.ctxErr 2 = none ∧ flakyBroker.ReceiveMessage "queue" 2 = (some [], 3) ∧
    (ConsumeMessages flakyBroker "queue" idleHandler 3 0).calls
      = [Call.receive "queue" 10 20 30, Call.sleep 5, Call.receive "queue" 10 20 30] ∧
    (ConsumeMessages flakyBroker "queue" idleHandler 3 0).val
      = some (LoopEnd.returned "context canceled") :=
  have h1 := (idle_iteration_continues flakyBroker "queue" idleHandler 2 0 1 rfl).1 rfl
  have h2 := (idle_iteration_continues flakyBroker "queue" idleHandler 1 2 3 rfl).2 rfl
  ⟨rfl, rfl, rfl, rfl, by
    rw [h1.1]
    have e : flakyBroker.sleep 5 1 = 2 := rfl
    rw [e, h2.1]
    rfl, by
    rw [h1.2.1]
    have e : flakyBroker.sleep 5 1 = 2 := rfl
    rw [e, h2.2.1]
    rfl⟩

/-! ## Theorems: the render-data builders -/

/-- Lookup after an assignment. -/
theorem GoMap_get_set (m : GoMap) (k k1 : String) (v : GoVal) :
    GoMap.get (GoMap.set m k v) k1 = if k1 = k then some v else GoMap.get m k1 := by
  induction m with
  | nil => simp [GoMap.set, GoMap.get]
  | cons e rest ih =>
    obtain ⟨k2, v2⟩ := e
    unfold GoMap.set
    by_cases h1 : k.data < k2.data
    · simp [h1, GoMap.get]
    · by_cases h2 : k = k2
      · subst h2
        simp only [h1, if_false, if_true, GoMap.get]
        by_cases h3 : k1 = k <;> simp [h3]
      · simp only [h1, h2, if_false, GoMap.get, ih]
        by_cases h3 : k1 = k
        · subst h3
          simp [h2]
        · simp [h3]

/-- Lookup after the conditional copy of a string entry. -/
theorem copyString_get (event : Event) (src dst : String) (data : GoMap) (k : String) :
    GoMap.get (copyString event src dst data) k =
      if k = dst then
        (match asString (event.get src) with
          | some v => some (GoVal.str v)
          | none => GoMap.get data dst)
      else GoMap.get data k := by
  unfold copyString
  cases asString (event.get src) with
  | none => by_cases h : k = dst <;> simp [h]
  | some v => simp [GoMap_get_set]

/-- The conversion `int64(f)` keeps an integer that is in the range of `int64`. -/
theorem toInt64_integer (n : Int) (h1 : -9223372036854775808 ≤ n)
    (h2 : n < 9223372036854775808) : F64.toInt64 ⟨n, 0⟩ = n := by
  simp [F64.toInt64, h1, h2]

/-- The entries `buildExpenseCreatedData` projects. -/
theorem buildExpenseCreatedData_get (event : Event) (p : String × String)
    (hp : p ∈ stringKeys EventTypeExpenseCreated) :
    GoMap.get (buildExpenseCreatedData event) p.2
      = (asString (event.get p.1)).map GoVal.str := by
  simp [stringKeys, EventTypeExpenseCreated] at hp
  rcases hp with rfl | rfl | rfl | rfl | rfl <;>
    simp [buildExpenseCreatedData, GoMap_get_set, copyString_get, GoMap.get] <;>
    cases asString (event.get _) <;> rfl

/-- The entries `buildExpenseUpdatedData` projects. -/
theorem buildExpenseUpdatedData_get (event : Event) (p : String × String)
    (hp : p ∈ stringKeys EventTypeExpenseUpdated) :
    GoMap.get (buildExpenseUpdatedData event) p.2
      = (asString (event.get p.1)).map GoVal.str := by
  simp [stringKeys, EventTypeExpenseUpdated, EventTypeExpenseCreated] at hp
  rcases hp with rfl | rfl | rfl | rfl | rfl <;>
    simp [buildExpenseUpdatedData, GoMap_get_set, copyString_get, GoMap.get] <;>
    cases asString (event.get _) <;> rfl

/-- The string entries `buildReceiptUploadedData` projects. -/
theorem buildReceiptUploadedData_get (event : Event) (p : String × String)
    (hp : p ∈ stringKeys EventTypeReceiptUploaded) :
    GoMap.get (buildReceiptUploadedData event) p.2
      = (asString (event.get p.1)).map GoVal.str := by
  simp [stringKeys, EventTypeReceiptUploaded, EventTypeExpenseUpdated,
    EventTypeExpenseCreated] at hp
  rcases hp with rfl | rfl | rfl | rfl <;>
    simp only [buildReceiptUploadedData] <;>
    cases asFloat64 (event.get "file_size") <;>
    simp [GoMap_get_set, copyString_get, GoMap.get] <;>
    cases asString (event.get _) <;> rfl

/-- The file size `buildReceiptUploadedData` projects. -/
theorem buildReceiptUploadedData_size (event : Event) :
    GoMap.get (buildReceiptUploadedData event) "FileSize"
      = (asFloat64 (event.get "file_size")).map (fun f => GoVal.int64 f.toInt64) := by
  simp only [buildReceiptUploadedData]
  cases asFloat64 (event.get "file_size") <;>
    simp [GoMap_get_set, copyString_get, GoMap.get]

/-- The entries `buildReceiptLinkedData` projects. -/
theorem buildReceiptLinkedData_get (event : Event) (p : String × String)
    (hp : p ∈ stringKeys EventTypeReceiptLinked) :
    GoMap.get (buildReceiptLinkedData event) p.2
      = (asString (event.get p.1)).map GoVal.str := by
  simp [stringKeys, EventTypeReceiptLinked, EventTypeReceiptUploaded, EventTypeExpenseUpdated,
    EventTypeExpenseCreated] at hp
  rcases hp with rfl | rfl | rfl <;>
    simp [buildReceiptLinkedData, GoMap_get_set, copyString_get, GoMap.get] <;>
    cases asString (event.get _) <;> rfl

/-- The entries `buildUserRegisteredData` projects. -/
theorem buildUserRegisteredData_get (event : Event) (p : String × String)
    (hp : p ∈ stringKeys EventTypeUserRegistered) :
    GoMap.get (buildUserRegisteredData event) p.2
      = (asString (event.get p.1)).map GoVal.str := by
  simp [stringKeys, EventTypeUserRegistered, EventTypeReceiptLinked, EventTypeReceiptUploaded,
    EventTypeExpenseUpdated, EventTypeExpenseCreated] at hp
  rcases hp with rfl | rfl | rfl <;>
    simp [buildUserRegisteredData, GoMap_get_set, copyString_get, GoMap.get] <;>
    cases asString (event.get _) <;> rfl


/-- Counterexample to C11 as stated: the body `fractionalSizeText` is received as a
receipt.uploaded event whose `file_size` has the expected type (the float64 1.5), yet the
render data does not hold that value: `FileSize` is the integer 1. -/
theorem file_size_not_projected_as_is :
    unmarshalEvent fractionalSizeText = some fractionalSizeEvent ∧
    fractionalSizeEvent.get "file_size" = some (GoVal.float64 ⟨3, 1⟩) ∧
    GoMap.get (buildReceiptUploadedData fractionalSizeEvent) "FileSize"
      = some (GoVal.int64 1) :=
  ⟨rfl, rfl, rfl⟩

/-- C11, amended. For every event of a supported type and every payload (none, empty, or
with values of unexpected types) the builder of the type returns a render-data mapping:
each payload key the builder reads is present in it if and only if the payload holds a
string under that key, and then with that string; `FileSize` is present if and only if
the payload holds a float64 under `file_size`, and then holds its conversion to `int64`
(truncation toward zero, the same number when the value is an integer in the range of
`int64`); and the error `ProcessEvent` returns is decided by the results of Render and
SendEmail alone. -/
theorem builders_tolerate_payload {σ : Type} (svc : NotificationService σ) (event : Event)
    (s : σ) (h : event.EventType ∈ supportedEventTypes) :
    ∃ name subject data, selectTemplate event = some (name, subject, data) ∧
      (∀ p ∈ stringKeys event.EventType,
        GoMap.get data p.2 = (asString (event.get p.1)).map GoVal.str) ∧
      (event.EventType = EventTypeReceiptUploaded →
        GoMap.get data "FileSize"
          = (asFloat64 (event.get "file_size")).map (fun f => GoVal.int64 f.toInt64)) ∧
      (∀ n : Int, -9223372036854775808 ≤ n → n < 9223372036854775808 →
        F64.toInt64 ⟨n, 0⟩ = n) ∧
      (ProcessEvent svc event s).err =
        match svc.templateService.Render name data with
        | Except.error e => some ("failed to render template: " ++ e)
        | Except.ok body =>
          (svc.snsPublisher.SendEmail ⟨event.UserEmail, subject, body⟩ s).1.map
            (fun e => "failed to send email: " ++ e) := by
  have herr : ∀ name subject data, selectTemplate event = some (name, subject, data) →
      (ProcessEvent svc event s).err =
        match svc.templateService.Render name data with
        | Except.error e => some ("failed to render template: " ++ e)
        | Except.ok body =>
          (svc.snsPublisher.SendEmail ⟨event.UserEmail, subject, body⟩ s).1.map
            (fun e => "failed to send email: " ++ e) := by
    intro name subject data hsel
    rw [ProcessEvent_selected svc event s name subject data hsel]
    cases svc.templateService.Render name data with
    | error e => rfl
    | ok body =>
      simp only
      cases (svc.snsPublisher.SendEmail ⟨event.UserEmail, subject, body⟩ s).1 <;> rfl
  obtain ⟨h1, h2, h3, h4, h5⟩ := selectTemplate_supported event
  simp only [supportedEventTypes, List.mem_cons, List.mem_singleton, List.not_mem_nil,
    or_false] at h
  rcases h with h | h | h | h | h
  · have hs := h1 h
    refine ⟨_, _, _, hs, ?_, ?_, toInt64_integer, herr _ _ _ hs⟩
    · rw [h]; exact buildExpenseCreatedData_get event
    · rw [h]; intro hc; exact absurd hc (by decide)
  · have hs := h2 h
    refine ⟨_, _, _, hs, ?_, ?_, toInt64_integer, herr _ _ _ hs⟩
    · rw [h]; exact buildExpenseUpdatedData_get event
    · rw [h]; intro hc; exact absurd hc (by decide)
  · have hs := h3 h
    refine ⟨_, _, _, hs, ?_, ?_, toInt64_integer, herr _ _ _ hs⟩
    · rw [h]; exact buildReceiptUploadedData_get event
    · intro _; exact buildReceiptUploadedData_size event
  · have hs := h4 h
    refine ⟨_, _, _, hs, ?_, ?_, toInt64_integer, herr _ _ _ hs⟩
    · rw [h]; exact buildReceiptLinkedData_get event
    · rw [h]; intro hc; exact absurd hc (by decide)
  · have hs := h5 h
    refine ⟨_, _, _, hs, ?_, ?_, toInt64_integer, herr _ _ _ hs⟩
    · rw [h]; exact buildUserRegisteredData_get event
    · rw [h]; intro hc; exact absurd hc (by decide)

/-- Witness for C11: the receipt.uploaded event with a file name, the file size 1.5 and no
MIME type is dispatched with a render data that holds the file name, no `MimeType`, and
the file size 1. -/
theorem builders_tolerate_payload_witness :
    fractionalSizeEvent.EventType ∈ supportedEventTypes ∧
    ∃ data, (∃ name subject, selectTemplate fractionalSizeEvent = some (name, subject, data)) ∧
      GoMap.get data "FileName" = some (GoVal.str "r.pdf") ∧
      GoMap.get data "MimeType" = none ∧
      GoMap.get data "FileSize" = some (GoVal.int64 1) :=
  ⟨by decide,
   match builders_tolerate_payload defaultService fractionalSizeEvent () (by decide) with
   | ⟨name, subject, data, hsel, hk, hf, _, _⟩ =>
     ⟨data, ⟨name, subject, hsel⟩,
      (hk ("file_name", "FileName") (by decide)).trans rfl,
      (hk ("mime_type", "MimeType") (by decide)).trans rfl,
      (hf rfl).trans rfl⟩⟩

/-- C12, evaluated on the code. An expense.created event without `amount` has no `Amount`
entry in its render data, but the `Content` text formatted from it is not blank at that
place: it reads `$%!s(<nil>)`; likewise a receipt.uploaded event without `file_size` gets
`%!d(<nil>) bytes`. With the default template the notification sent carries that text
(escaped) in its body. -/
theorem missing_key_prints_nil_marker :
    GoMap.get (buildExpenseCreatedData noAmountEvent) "Amount" = none ∧
    fmtS (GoMap.get (buildExpenseCreatedData noAmountEvent) "Content")
      = "<h2>New Expense Added</h2><p>You\x27ve added a new expense:</p><ul><li><strong>Amount:</strong> $%!s(<nil>)</li><li><strong>Description:</strong> Coffee</li><li><strong>Category:</strong> Food</li><li><strong>Date:</strong> 2024-01-05</li></ul>" ∧
    GoMap.get (buildReceiptUploadedData noSizeEvent) "FileSize" = none ∧
    fmtS (GoMap.get (buildReceiptUploadedData noSizeEvent) "Content")
      = "<h2>Receipt Uploaded</h2><p>You\x27ve uploaded a new receipt:</p><ul><li><strong>File Name:</strong> r.pdf</li><li><strong>File Size:</strong> %!d(<nil>) bytes</li><li><strong>Type:</strong> application/pdf</li></ul>" ∧
    (ProcessEvent defaultService noAmountEvent ()).err = none ∧
    sendCalls (ProcessEvent defaultService noAmountEvent ()).calls
      = [⟨"a@b.com", "New Expense Added",
          defaultHTMLHead ++ "&lt;h2&gt;New Expense Added&lt;/h2&gt;&lt;p&gt;You&#39;ve added a new expense:&lt;/p&gt;&lt;ul&gt;&lt;li&gt;&lt;strong&gt;Amount:&lt;/strong&gt; $%!s(&lt;nil&gt;)&lt;/li&gt;&lt;li&gt;&lt;strong&gt;Description:&lt;/strong&gt; Coffee&lt;/li&gt;&lt;li&gt;&lt;strong&gt;Category:&lt;/strong&gt; Food&lt;/li&gt;&lt;li&gt;&lt;strong&gt;Date:&lt;/strong&gt; 2024-01-05&lt;/li&gt;&lt;/ul&gt;"
            ++ defaultHTMLTail⟩] := by
  refine ⟨rfl, by decide, rfl, by decide, by decide, rfl⟩

/-! ## Theorems: the event publisher -/

/-- Counterexample to C13 as stated: for an envelope whose timestamp `json.Marshal`
refuses (year 10000), `PublishEvent` returns the serialization error without a `Publish`
call. -/
theorem marshal_failure_publishes_nothing :
    marshalEvent lateEvent = none ∧
    (recordingPublisher.PublishEvent Context.background lateEvent []).calls.length = 0 ∧
    (recordingPublisher.PublishEvent Context.background lateEvent []).err
      = some "failed to marshal event" ∧
    (recordingPublisher.PublishEvent Context.background lateEvent []).state = [] :=
  ⟨rfl, rfl, rfl, rfl⟩

/-- C13, amended. Every invocation of `PublishEvent` whose envelope serializes makes
exactly one `Publish` call, with the context it was given, addressed to the configured
topic, with the envelope's event type as Subject and the JSON text of the envelope as
Message; an invocation whose envelope does not serialize makes no `Publish` call and
returns the serialization error. -/
theorem publish_once_when_serialized {σ : Type} (p : EventPublisher σ) (ctx : Context)
    (event : Event) (s : σ) :
    (∀ text, marshalEvent event = some text →
      (p.PublishEvent ctx event s).calls
        = [⟨ctx, ⟨p.topicARN, event.EventType, String.mk text⟩⟩] ∧
      (p.PublishEvent ctx event s).state
        = (p.Publish ctx ⟨p.topicARN, event.EventType, String.mk text⟩ s).2) ∧
    (marshalEvent event = none →
      (p.PublishEvent ctx event s).calls = [] ∧
      (p.PublishEvent ctx event s).err = some "failed to marshal event" ∧
      (p.PublishEvent ctx event s).state = s) := by
  constructor
  · intro text h
    simp only [EventPublisher.PublishEvent, h]
    rcases hp : p.Publish ctx ⟨p.topicARN, event.EventType, String.mk text⟩ s with ⟨e, s1⟩
    cases e <;> simp
  · intro h
    simp [EventPublisher.PublishEvent, h]

/-- Witness for C13: publishing `uploadEvent` makes one `Publish` call, to the topic of
the publisher, with Subject `receipt.uploaded` and the JSON text as Message, and the
topic has accepted that one message. -/
theorem publish_once_when_serialized_witness :
    marshalEvent uploadEvent = some uploadText.data ∧
    (recordingPublisher.PublishEvent Context.background uploadEvent []).calls
      = [⟨Context.background, ⟨"arn:events", "receipt.uploaded", uploadText⟩⟩] ∧
    (recordingPublisher.PublishEvent Context.background uploadEvent []).state
      = [⟨"arn:events", "receipt.uploaded", uploadText⟩] :=
  have hm : marshalEvent uploadEvent = some uploadText.data := by decide
  have h := (publish_once_when_serialized recordingPublisher Context.background uploadEvent
    []).1 uploadText.data hm
  ⟨hm, h.1, h.2.trans rfl⟩

/-- C14. `PublishEvent` returns an error if and only if serializing the envelope fails or
the `Publish` call on the client fails, and nil otherwise; the error is `failed to marshal
event` in the first case and wraps the client error in the second. `PublishEventAsync`
hands its caller nothing: the caller goes on in the state it called in whatever the
client does with the publish, and the goroutine it starts does what `PublishEvent` does
under the background context, its error dropped. -/
theorem publish_error_iff {σ : Type} (p : EventPublisher σ) (ctx : Context) (event : Event)
    (s : σ) :
    ((p.PublishEvent ctx event s).err ≠ none ↔
      (marshalEvent event = none ∨
        ∃ text e, marshalEvent event = some text ∧
          (p.Publish ctx ⟨p.topicARN, event.EventType, String.mk text⟩ s).1 = some e)) ∧
    (marshalEvent event = none →
      (p.PublishEvent ctx event s).err = some "failed to marshal event") ∧
    (∀ text e, marshalEvent event = some text →
      (p.Publish ctx ⟨p.topicARN, event.EventType, String.mk text⟩ s).1 = some e →
      (p.PublishEvent ctx event s).err = some ("failed to publish event: " ++ e)) ∧
    (∀ publish : Context → PublishInput → σ → Option String × σ,
      ((⟨p.topicARN, publish⟩ : EventPublisher σ).PublishEventAsync ctx event s).state = s) ∧
    (∀ s1 : σ,
      ((p.PublishEventAsync ctx event s).goroutine s1).state
        = (p.PublishEvent Context.background event s1).state ∧
      ((p.PublishEventAsync ctx event s).goroutine s1).calls
        = (p.PublishEvent Context.background event s1).calls) := by
  refine ⟨?_, ?_, ?_, fun _ => rfl, fun _ => ⟨rfl, rfl⟩⟩
  · cases hm : marshalEvent event with
    | none => simp [EventPublisher.PublishEvent, hm]
    | some text =>
      simp only [EventPublisher.PublishEvent, hm]
      rcases hp : p.Publish ctx ⟨p.topicARN, event.EventType, String.mk text⟩ s with ⟨e, s1⟩
      cases e <;> simp [hp]
  · intro h
    simp [EventPublisher.PublishEvent, h]
  · intro text e hm he
    simp only [EventPublisher.PublishEvent, hm]
    rcases hp : p.Publish ctx ⟨p.topicARN, event.EventType, String.mk text⟩ s with ⟨e1, s1⟩
    rw [hp] at he
    simp only at he
    subst he
    rfl

/-- Witness for C14: under a cancelled context the client of `recordingPublisher` refuses
the call, and `PublishEvent` returns the wrapped error. -/
theorem publish_error_iff_witness :
    marshalEvent uploadEvent = some uploadText.data ∧
    (recordingPublisher.Publish cancelledContext ⟨"arn:events", "receipt.uploaded", uploadText⟩
      []).1 = some "context canceled" ∧
    (recordingPublisher.PublishEvent cancelledContext uploadEvent []).err
      = some "failed to publish event: context canceled" :=
  have hm : marshalEvent uploadEvent = some uploadText.data := by decide
  ⟨hm, rfl,
   (publish_error_iff recordingPublisher cancelledContext uploadEvent []).2.2.1
     uploadText.data "context canceled" hm rfl⟩

/-- C15. `PublishEventAsync` is detached from the context of its caller: what it returns
and the goroutine it starts are the same for any two caller contexts; every `Publish`
call of the goroutine is made under the background context; and whenever the envelope
serializes the goroutine makes the `Publish` call on the client, whatever the state of
the caller's context. -/
theorem async_publish_detached {σ : Type} (p : EventPublisher σ) (ctx1 ctx2 : Context)
    (event : Event) (s : σ) :
    p.PublishEventAsync ctx1 event s = p.PublishEventAsync ctx2 event s ∧
    (∀ (s1 : σ) (c : PublishCall), c ∈ ((p.PublishEventAsync ctx1 event s).goroutine s1).calls →
      c.ctx = Context.background) ∧
    (∀ (s1 : σ) (text : List Char), marshalEvent event = some text →
      ((p.PublishEventAsync ctx1 event s).goroutine s1).calls
        = [⟨Context.background, ⟨p.topicARN, event.EventType, String.mk text⟩⟩] ∧
      ((p.PublishEventAsync ctx1 event s).goroutine s1).state
        = (p.Publish Context.background ⟨p.topicARN, event.EventType, String.mk text⟩
            s1).2) := by
  refine ⟨rfl, ?_, ?_⟩
  · intro s1 c hc
    simp only [EventPublisher.PublishEventAsync, EventPublisher.PublishEvent] at hc
    cases hm : marshalEvent event with
    | none => simp [hm] at hc
    | some text =>
      simp only [hm] at hc
      rcases hp : p.Publish Context.background ⟨p.topicARN, event.EventType, String.mk text⟩ s1
        with ⟨e, s2⟩
      rw [hp] at hc
      cases e <;> simp at hc <;> rw [hc]
  · intro s1 text hm
    simp only [EventPublisher.PublishEventAsync, EventPublisher.PublishEvent, hm]
    rcases hp : p.Publish Context.background ⟨p.topicARN, event.EventType, String.mk text⟩ s1
      with ⟨e, s2⟩
    cases e <;> simp

/-- Witness for C15: called under a cancelled context, `PublishEventAsync` still starts a
goroutine whose publish reaches the topic: the client of `recordingPublisher`, which
refuses every call made under a cancelled context, accepts the message. -/
theorem async_publish_detached_witness :
    marshalEvent uploadEvent = some uploadText.data ∧
    (recordingPublisher.PublishEvent cancelledContext uploadEvent []).state = [] ∧
    ((recordingPublisher.PublishEventAsync cancelledContext uploadEvent []).goroutine []).state
      = [⟨"arn:events", "receipt.uploaded", uploadText⟩] :=
  have hm : marshalEvent uploadEvent = some uploadText.data := by decide
  ⟨hm, by decide,
   ((async_publish_detached recordingPublisher cancelledContext Context.background uploadEvent
      []).2.2 [] uploadText.data hm).2.trans rfl⟩

/-! ## Theorems: configuration and start-up -/

/-- With an empty default, `getEnv` returns the value of the variable. -/
theorem getEnv_empty (env : Env) (key : String) : getEnv env key "" = env key := by
  unfold getEnv
  by_cases h : env key = "" <;> simp [h]

/-- Counterexample to C19 as stated: with no variable set at all the configuration of the
expense service loads, and with only `JWT_SECRET` set the configuration of the auth
service loads; both hold empty credentials. -/
theorem load_succeeds_without_credentials :
    emptyEnv "AWS_ACCESS_KEY_ID" = "" ∧ emptyEnv "AWS_SECRET_ACCESS_KEY" = "" ∧
    ExpenseConfig.Load emptyEnv
      = Except.ok ⟨"localhost", 5432, "postgres", "", "expense_db", "http://localhost:8080",
          "us-east-1", "", "", "", "8081"⟩ ∧
    secretOnlyEnv "AWS_ACCESS_KEY_ID" = "" ∧ secretOnlyEnv "AWS_SECRET_ACCESS_KEY" = "" ∧
    AuthConfig.Load secretOnlyEnv
      = Except.ok ⟨"localhost", 5432, "postgres", "", "auth_db", "s3cr3t", 86400000000000,
          "us-east-1", "", "", "", "8080"⟩ :=
  ⟨rfl, rfl, rfl, rfl, rfl, rfl⟩

/-- C19, amended. In an environment in which `AWS_ACCESS_KEY_ID` or
`AWS_SECRET_ACCESS_KEY` is absent (or empty), loading the configuration fails for the
notification service and for the receipt service, and `main` of the notification service
ends with that fatal error. For the expense service the load succeeds, and for the auth
service it succeeds whenever `JWT_SECRET` is set: the credentials are optional there, the
loaded configuration holds what the environment holds, and the test `main` makes before
it creates the event publisher fails, so the service runs without publisher. -/
theorem credentials_required_where_checked (env : Env)
    (h : env "AWS_ACCESS_KEY_ID" = "" ∨ env "AWS_SECRET_ACCESS_KEY" = "") :
    NotificationConfig.Load env = Except.error
      "AWS credentials are required. Please set AWS_ACCESS_KEY_ID and AWS_SECRET_ACCESS_KEY" ∧
    (∀ init : Initialisation, notificationMain env init = Except.error
      ("Failed to load config: " ++
        "AWS credentials are required. Please set AWS_ACCESS_KEY_ID and AWS_SECRET_ACCESS_KEY")) ∧
    ReceiptConfig.Load env = Except.error
      "AWS S3 configuration is incomplete. Please set AWS_ACCESS_KEY_ID, AWS_SECRET_ACCESS_KEY, and S3_BUCKET_NAME" ∧
    (∃ cfg, ExpenseConfig.Load env = Except.ok cfg ∧
      cfg.AWSAccessKeyID = env "AWS_ACCESS_KEY_ID" ∧
      cfg.AWSSecretKey = env "AWS_SECRET_ACCESS_KEY" ∧
      publisherConfigured cfg.ExpenseEventsTopicARN cfg.AWSAccessKeyID cfg.AWSSecretKey
        = false) ∧
    (env "JWT_SECRET" ≠ "" →
      ∃ cfg, AuthConfig.Load env = Except.ok cfg ∧
        cfg.AWSAccessKeyID = env "AWS_ACCESS_KEY_ID" ∧
        cfg.AWSSecretKey = env "AWS_SECRET_ACCESS_KEY" ∧
        publisherConfigured cfg.AuthEventsTopicARN cfg.AWSAccessKeyID cfg.AWSSecretKey
          = false) := by
  have hn : NotificationConfig.Load env = Except.error
      "AWS credentials are required. Please set AWS_ACCESS_KEY_ID and AWS_SECRET_ACCESS_KEY" := by
    unfold NotificationConfig.Load
    simp only [getEnv_empty]
    rw [if_pos h]
  have hurl : getEnv env "AUTH_SERVICE_URL" "http://localhost:8080" ≠ "" := by
    unfold getEnv
    by_cases hu : env "AUTH_SERVICE_URL" = ""
    · simp [hu]
    · simp [hu]
  refine ⟨hn, ?_, ?_, ?_, ?_⟩
  · intro init
    simp only [notificationMain, hn]
  · unfold ReceiptConfig.Load
    simp only [getEnv_empty]
    rw [if_neg hurl, if_pos]
    rcases h with h | h
    · exact Or.inl h
    · exact Or.inr (Or.inl h)
  · unfold ExpenseConfig.Load
    rw [if_neg hurl]
    refine ⟨_, rfl, getEnv_empty _ _, getEnv_empty _ _, ?_⟩
    simp only [getEnv_empty, publisherConfigured]
    rcases h with h | h <;> simp [h]
  · intro hj
    unfold AuthConfig.Load
    simp only [getEnv_empty]
    rw [if_neg hj]
    refine ⟨_, rfl, rfl, rfl, ?_⟩
    simp only [publisherConfigured]
    rcases h with h | h <;> simp [h]

/-- Witness for C19: in the environment that sets only `JWT_SECRET` the notification and
receipt configurations fail to load, and the auth configuration loads. -/
theorem credentials_required_where_checked_witness :
    (secretOnlyEnv "AWS_ACCESS_KEY_ID" = "" ∨ secretOnlyEnv "AWS_SECRET_ACCESS_KEY" = "") ∧
    NotificationConfig.Load secretOnlyEnv = Except.error
      "AWS credentials are required. Please set AWS_ACCESS_KEY_ID and AWS_SECRET_ACCESS_KEY" ∧
    ReceiptConfig.Load secretOnlyEnv = Except.error
      "AWS S3 configuration is incomplete. Please set AWS_ACCESS_KEY_ID, AWS_SECRET_ACCESS_KEY, and S3_BUCKET_NAME" ∧
    ∃ cfg, AuthConfig.Load secretOnlyEnv = Except.ok cfg ∧ cfg.AWSAccessKeyID = "" :=
  have h := credentials_required_where_checked secretOnlyEnv (Or.inl rfl)
  ⟨Or.inl rfl, h.1, h.2.2.1,
   match h.2.2.2.2 (by decide) with
   | ⟨cfg, hc, hk, _⟩ => ⟨cfg, hc, hk.trans rfl⟩⟩

/-- C20. In the notification service a missing queue URL is never an error: whenever both
credentials and `NOTIFICATION_EMAIL_TOPIC_ARN` are non-empty, `Load` succeeds with the
three queue URLs as the environment holds them, whatever subset of them is set; and
`main` (its three initialisations succeeding) starts a consumer for a queue if and only
if the URL of that queue is non-empty, on that URL, and no other consumer. -/
theorem missing_queue_url_is_no_error (env : Env)
    (hkey : env "AWS_ACCESS_KEY_ID" ≠ "") (hsecret : env "AWS_SECRET_ACCESS_KEY" ≠ "")
    (htopic : env "NOTIFICATION_EMAIL_TOPIC_ARN" ≠ "") :
    ∃ cfg, NotificationConfig.Load env = Except.ok cfg ∧
      cfg.ExpenseEventsQueueURL = env "EXPENSE_EVENTS_QUEUE_URL" ∧
      cfg.ReceiptEventsQueueURL = env "RECEIPT_EVENTS_QUEUE_URL" ∧
      cfg.AuthEventsQueueURL = env "AUTH_EVENTS_QUEUE_URL" ∧
      notificationMain env ⟨none, none, none⟩ = Except.ok (startConsumers cfg) ∧
      (∀ url, (Queue.expenseEvents, url) ∈ startConsumers cfg ↔
        (env "EXPENSE_EVENTS_QUEUE_URL" ≠ "" ∧ url = env "EXPENSE_EVENTS_QUEUE_URL")) ∧
      (∀ url, (Queue.receiptEvents, url) ∈ startConsumers cfg ↔
        (env "RECEIPT_EVENTS_QUEUE_URL" ≠ "" ∧ url = env "RECEIPT_EVENTS_QUEUE_URL")) ∧
      (∀ url, (Queue.authEvents, url) ∈ startConsumers cfg ↔
        (env "AUTH_EVENTS_QUEUE_URL" ≠ "" ∧ url = env "AUTH_EVENTS_QUEUE_URL")) ∧
      (startConsumers cfg).length
        = (if env "EXPENSE_EVENTS_QUEUE_URL" ≠ "" then 1 else 0)
          + (if env "RECEIPT_EVENTS_QUEUE_URL" ≠ "" then 1 else 0)
          + (if env "AUTH_EVENTS_QUEUE_URL" ≠ "" then 1 else 0) := by
  have hl : NotificationConfig.Load env = Except.ok
      ⟨getEnv env "AWS_REGION" "us-east-1", env "AWS_ACCESS_KEY_ID",
        env "AWS_SECRET_ACCESS_KEY", env "EXPENSE_EVENTS_QUEUE_URL",
        env "RECEIPT_EVENTS_QUEUE_URL", env "AUTH_EVENTS_QUEUE_URL",
        env "NOTIFICATION_EMAIL_TOPIC_ARN", getEnv env "SERVER_PORT" "8083"⟩ := by
    unfold NotificationConfig.Load
    simp only [getEnv_empty]
    rw [if_neg (by simp [hkey, hsecret]), if_neg htopic]
  refine ⟨_, hl, rfl, rfl, rfl, ?_, ?_, ?_, ?_, ?_⟩
  · simp only [notificationMain, hl]
  · intro url
    by_cases h1 : env "EXPENSE_EVENTS_QUEUE_URL" = "" <;>
    by_cases h2 : env "RECEIPT_EVENTS_QUEUE_URL" = "" <;>
    by_cases h3 : env "AUTH_EVENTS_QUEUE_URL" = "" <;>
    simp [startConsumers, h1, h2, h3]
  · intro url
    by_cases h1 : env "EXPENSE_EVENTS_QUEUE_URL" = "" <;>
    by_cases h2 : env "RECEIPT_EVENTS_QUEUE_URL" = "" <;>
    by_cases h3 : env "AUTH_EVENTS_QUEUE_URL" = "" <;>
    simp [startConsumers, h1, h2, h3]
  · intro url
    by_cases h1 : env "EXPENSE_EVENTS_QUEUE_URL" = "" <;>
    by_cases h2 : env "RECEIPT_EVENTS_QUEUE_URL" = "" <;>
    by_cases h3 : env "AUTH_EVENTS_QUEUE_URL" = "" <;>
    simp [startConsumers, h1, h2, h3]
  · by_cases h1 : env "EXPENSE_EVENTS_QUEUE_URL" = "" <;>
    by_cases h2 : env "RECEIPT_EVENTS_QUEUE_URL" = "" <;>
    by_cases h3 : env "AUTH_EVENTS_QUEUE_URL" = "" <;>
    simp [startConsumers, h1, h2, h3]

/-- Witness for C20: with the credentials, the email topic and only the receipt queue
set, the configuration loads and `main` starts the receipt consumer alone. -/
theorem missing_queue_url_is_no_error_witness :
    receiptQueueEnv "AWS_ACCESS_KEY_ID" ≠ "" ∧ receiptQueueEnv "AWS_SECRET_ACCESS_KEY" ≠ "" ∧
    receiptQueueEnv "NOTIFICATION_EMAIL_TOPIC_ARN" ≠ "" ∧
    receiptQueueEnv "EXPENSE_EVENTS_QUEUE_URL" = "" ∧
    notificationMain receiptQueueEnv ⟨none, none, none⟩
      = Except.ok [(Queue.receiptEvents, "https://sqs/receipts")] :=
  ⟨by decide, by decide, by decide, rfl,
   match missing_queue_url_is_no_error receiptQueueEnv (by decide) (by decide) (by decide) with
   | ⟨_, hl, _, _, _, hm, _⟩ =>
     hm.trans (by
       have hc : NotificationConfig.Load receiptQueueEnv = Except.ok
         ⟨"us-east-1", "AKIA", "secret", "", "https://sqs/receipts", "", "arn:email",
           "8083"⟩ := rfl
       rw [hc] at hl
       injection hl with hl
       rw [← hl]
       rfl)⟩

/-! ## Theorems: the producing operations -/

/-- The trace of `CreateExpense`. -/
theorem CreateExpense_trace {σ : Type} (svc : ExpenseService σ) (ctx : Context) (s : σ)
    (userID : String) (req : CreateExpenseRequest) :
    PublishesAfterWrite svc.eventPublisher "expense.created"
      (svc.CreateExpense ctx userID req s).calls ∧
    ((∃ e, (svc.CreateExpense ctx userID req s).val = Except.error e) →
      publishedEvents (svc.CreateExpense ctx userID req s).calls = []) := by
  unfold ExpenseService.CreateExpense ExpenseService.publishAndRespond
  (repeat' (first | split | dsimp only)) <;>
    simp_all [PublishesAfterWrite, onlyAfterWrite, publishedEvents, writeSucceeded]

/-- The trace of `UpdateExpense`. -/
theorem UpdateExpense_trace {σ : Type} (svc : ExpenseService σ) (ctx : Context) (s : σ)
    (expenseID userID : String) (req : UpdateExpenseRequest) :
    PublishesAfterWrite svc.eventPublisher "expense.updated"
      (svc.UpdateExpense ctx expenseID userID req s).calls ∧
    ((∃ e, (svc.UpdateExpense ctx expenseID userID req s).val = Except.error e) →
      publishedEvents (svc.UpdateExpense ctx expenseID userID req s).calls = []) := by
  unfold ExpenseService.UpdateExpense ExpenseService.publishAndRespond
  (repeat' (first | split | dsimp only)) <;>
    simp_all [PublishesAfterWrite, onlyAfterWrite, publishedEvents, writeSucceeded]

/-- The trace of `UploadReceipt`. -/
theorem UploadReceipt_trace {σ : Type} (svc : ReceiptService σ) (ctx : Context) (s : σ)
    (userID : String) (file : List Nat) (filename : String) (fileSize : Int)
    (expenseID : Option String) :
    PublishesAfterWrite svc.eventPublisher "receipt.uploaded"
      (svc.UploadReceipt ctx userID file filename fileSize expenseID s).calls ∧
    ((∃ e, (svc.UploadReceipt ctx userID file filename fileSize expenseID s).val
        = Except.error e) →
      publishedEvents (svc.UploadReceipt ctx userID file filename fileSize expenseID s).calls
        = []) := by
  unfold ReceiptService.UploadReceipt ReceiptService.storeReceipt
  (repeat' (first | split | dsimp only)) <;>
    simp [PublishesAfterWrite, onlyAfterWrite, publishedEvents, writeSucceeded, *]

/-- The trace of `LinkToExpense`. -/
theorem LinkToExpense_trace {σ : Type} (svc : ReceiptService σ) (ctx : Context) (s : σ)
    (receiptID expenseID userID : String) :
    PublishesAfterWrite svc.eventPublisher "receipt.linked"
      (svc.LinkToExpense ctx receiptID expenseID userID s).calls ∧
    ((∃ e, (svc.LinkToExpense ctx receiptID expenseID userID s).val = Except.error e) →
      publishedEvents (svc.LinkToExpense ctx receiptID expenseID userID s).calls = []) := by
  unfold ReceiptService.LinkToExpense
  (repeat' (first | split | dsimp only)) <;>
    simp_all [PublishesAfterWrite, onlyAfterWrite, publishedEvents, writeSucceeded]

/-- The trace of `Register`. -/
theorem Register_trace {σ : Type} (svc : AuthService σ) (ctx : Context) (s : σ)
    (req : RegisterRequest) :
    PublishesAfterWrite svc.eventPublisher "user.registered" (svc.Register ctx req s).calls := by
  unfold AuthService.Register AuthService.respond
  (repeat' (first | split | dsimp only)) <;>
    simp_all [PublishesAfterWrite, onlyAfterWrite, publishedEvents, writeSucceeded]


/-- C18. In every producing operation an event is handed to the publisher only after the
repository write of the operation returned nil. For `CreateExpense`, `UpdateExpense`,
`UploadReceipt`, `LinkToExpense` and `Register`, with any collaborators and any input:
every `PublishEventAsync` call in the trace comes after a `Create` or `Update` call that
returned nil; a run in which no write returned nil (a validation failed before the write,
or the write failed) hands over no event; a run that does hand over an event has a
publisher set and hands over one event, of the type of the operation; and the first four
operations hand over no event whenever they return an error. -/
theorem publish_only_after_write {σ : Type} (expenseService : ExpenseService σ)
    (receiptService : ReceiptService σ) (authService : AuthService σ) (ctx : Context) (s : σ) :
    (∀ (userID : String) (req : CreateExpenseRequest),
      PublishesAfterWrite expenseService.eventPublisher "expense.created"
        (expenseService.CreateExpense ctx userID req s).calls ∧
      ((∃ e, (expenseService.CreateExpense ctx userID req s).val = Except.error e) →
        publishedEvents (expenseService.CreateExpense ctx userID req s).calls = [])) ∧
    (∀ (expenseID userID : String) (req : UpdateExpenseRequest),
      PublishesAfterWrite expenseService.eventPublisher "expense.updated"
        (expenseService.UpdateExpense ctx expenseID userID req s).calls ∧
      ((∃ e, (expenseService.UpdateExpense ctx expenseID userID req s).val = Except.error e) →
        publishedEvents (expenseService.UpdateExpense ctx expenseID userID req s).calls = [])) ∧
    (∀ (userID : String) (file : List Nat) (filename : String) (fileSize : Int)
        (expenseID : Option String),
      PublishesAfterWrite receiptService.eventPublisher "receipt.uploaded"
        (receiptService.UploadReceipt ctx userID file filename fileSize expenseID s).calls ∧
      ((∃ e, (receiptService.UploadReceipt ctx userID file filename fileSize expenseID s).val
          = Except.error e) →
        publishedEvents
          (receiptService.UploadReceipt ctx userID file filename fileSize expenseID s).calls
          = [])) ∧
    (∀ (receiptID expenseID userID : String),
      PublishesAfterWrite receiptService.eventPublisher "receipt.linked"
        (receiptService.LinkToExpense ctx receiptID expenseID userID s).calls ∧
      ((∃ e, (receiptService.LinkToExpense ctx receiptID expenseID userID s).val
          = Except.error e) →
        publishedEvents (receiptService.LinkToExpense ctx receiptID expenseID userID s).calls
          = [])) ∧
    (∀ (req : RegisterRequest),
      PublishesAfterWrite authService.eventPublisher "user.registered"
        (authService.Register ctx req s).calls) := by
  exact ⟨fun userID req => CreateExpense_trace expenseService ctx s userID req,
    fun expenseID userID req => UpdateExpense_trace expenseService ctx s expenseID userID req,
    fun userID file filename fileSize expenseID =>
      UploadReceipt_trace receiptService ctx s userID file filename fileSize expenseID,
    fun receiptID expenseID userID =>
      LinkToExpense_trace receiptService ctx s receiptID expenseID userID,
    fun req => Register_trace authService ctx s req⟩

/-- Witness for C18: on the in-memory expense service the scenario request is written and
then handed to the publisher as one expense.created event; when the repository refuses
the write, and when the amount is not a number, no event is handed over. -/
theorem publish_only_after_write_witness :
    publishedEvents (memoryExpenseService.CreateExpense requestContext "u1" coffeeRequest []).calls
      = [⟨"expense.created", "u1", "a@b.com", ⟨2024, 1, 5, 12, 0, 0, 0, 0⟩,
          some [("amount", GoVal.str "12.50"), ("category", GoVal.str "Food"),
                ("description", GoVal.str "Coffee"), ("expense_date", GoVal.str "2024-01-05"),
                ("expense_id", GoVal.str "id-1")]⟩] ∧
    (brokenExpenseService.CreateExpense requestContext "u1" coffeeRequest []).val
      = Except.error "db down" ∧
    publishedEvents (brokenExpenseService.CreateExpense requestContext "u1" coffeeRequest []).calls
      = [] ∧
    publishedEvents
      (memoryExpenseService.CreateExpense requestContext "u1"
        ⟨"abc", "Coffee", "Food", "2024-01-05"⟩ []).calls = [] :=
  ⟨rfl, rfl,
   ((publish_only_after_write brokenExpenseService (acceptingReceiptService (List Expense))
      (acceptingAuthService (List Expense))
      requestContext []).1 "u1" coffeeRequest).2 ⟨"db down", rfl⟩,
   rfl⟩

/-! ## Theorems: a message without body -/

/-- C26, evaluated on the code. `processMessage` dereferences the body pointer without a
test: on a message whose body is nil it panics, before any parse and any handler call,
where the claim has it return. The panic is not recovered by `ConsumeMessages`: a batch
that received such a message ends the poller, and the messages behind it are not
processed. On every message that carries a body `processMessage` returns nil or an
error. -/
theorem nil_body_panics {σ : Type} (handler : MessageHandler σ) (receiptHandle : Option String)
    (s : σ) :
    processMessage ⟨none, receiptHandle⟩ handler s = ⟨Outcome.panic, s, []⟩ ∧
    (∀ body : String,
      (processMessage ⟨some body, receiptHandle⟩ handler s).val ≠ Outcome.panic) ∧
    (ConsumeMessages nilBodyBroker "queue" idleHandler 3 0).val = some LoopEnd.panicked ∧
    (ConsumeMessages nilBodyBroker "queue" idleHandler 3 0).calls
      = [Call.receive "queue" 10 20 30] := by
  refine ⟨rfl, ?_, by decide, rfl⟩
  intro body
  have h := processMessage_eq ⟨some body, receiptHandle⟩ handler s
  simp only at h
  rw [h]
  cases unwrapBody body with
  | error e => simp
  | ok event =>
    simp only [callHandler]
    rcases hh : handler event s with ⟨e, s1⟩
    cases e <;> simp


/-! ## Theorems: the receipt upload -/

/-- The last element `Base` returns is never empty, and holds a separator only when it is
the separator alone. -/
theorem Base_segment (path : String) :
    Base path ≠ "" ∧ (Base path = "/" ∨ '/' ∉ (Base path).data) := by
  unfold Base
  by_cases hp : path = ""
  · rw [if_pos hp]
    decide
  · rw [if_neg hp]
    have hmem : ∀ c ∈ (path.data.reverse.dropWhile (fun c => c = '/')).takeWhile
        (fun c => c ≠ '/'), c ≠ '/' := by
      intro c hc
      have h := List.mem_takeWhile_imp hc
      simpa using h
    generalize (path.data.reverse.dropWhile (fun c => c = '/')).takeWhile
        (fun c => c ≠ '/') = last at hmem
    cases last with
    | nil => decide
    | cons a l =>
      simp only [List.isEmpty_cons]
      constructor
      · intro h
        have h2 : (a :: l).reverse = [] := congrArg String.data h
        have h3 := congrArg List.length h2
        rw [List.length_reverse] at h3
        simp only [List.length_cons, List.length_nil] at h3
        omega
      · right
        intro hm
        have hm2 : '/' ∈ (a :: l).reverse := hm
        rw [List.mem_reverse] at hm2
        exact hmem _ hm2 rfl

/-- C24, evaluated on the code. `GenerateFileKey` takes `filepath.Base` of the file name
for the last segment. For the file names `..` and `docs/..` that segment is the traversal
component `..`; for `/` it is the separator itself, so the key has four segments; for
the empty name it is `.`. For every file name the segment is non-empty and, unless it is
the separator alone, free of separators. -/
theorem base_keeps_traversal_component :
    GenerateFileKey "u1" "r1" ".." = "u1/r1/.." ∧
    GenerateFileKey "u1" "r1" "docs/.." = "u1/r1/.." ∧
    GenerateFileKey "u1" "r1" "/" = "u1/r1//" ∧
    GenerateFileKey "u1" "r1" "" = "u1/r1/." ∧
    GenerateFileKey "u1" "r1" "../../etc/passwd" = "u1/r1/passwd" ∧
    (∀ userID receiptID filename : String,
      GenerateFileKey userID receiptID filename
        = userID ++ "/" ++ receiptID ++ "/" ++ Base filename ∧
      Base filename ≠ "" ∧ (Base filename = "/" ∨ '/' ∉ (Base filename).data)) := by
  refine ⟨by decide, by decide, by decide, by decide, by decide, ?_⟩
  intro userID receiptID filename
  exact ⟨rfl, Base_segment filename⟩

/-- C23. `UploadReceipt` rejects a file whose size is not positive or exceeds
`MaxFileSize` (10 * 1024 * 1024), and a file whose MIME type (taken from the extension,
`image/jpg` normalised to `image/jpeg`) is not `image/jpeg`, `image/png` or
`application/pdf`: it returns an error without any call on S3, the repository or the
publisher and leaves the world unchanged. Every other file passes the validation: the
operation goes on with the upload, whose first call is the S3 upload; this holds for a
file of exactly `MaxFileSize` bytes. -/
theorem upload_validation {σ : Type} (svc : ReceiptService σ) (ctx : Context) (userID : String)
    (file : List Nat) (filename : String) (fileSize : Int) (expenseID : Option String) (s : σ) :
    MaxFileSize = 10485760 ∧
    ((fileSize ≤ 0 ∨ MaxFileSize < fileSize ∨
        uploadMimeType svc filename ∉ ["image/jpeg", "image/png", "application/pdf"]) →
      (∃ e, (svc.UploadReceipt ctx userID file filename fileSize expenseID s).val
        = Except.error e) ∧
      (svc.UploadReceipt ctx userID file filename fileSize expenseID s).calls = [] ∧
      (svc.UploadReceipt ctx userID file filename fileSize expenseID s).state = s) ∧
    (0 < fileSize → fileSize ≤ MaxFileSize →
      uploadMimeType svc filename ∈ ["image/jpeg", "image/png", "application/pdf"] →
      svc.UploadReceipt ctx userID file filename fileSize expenseID s
        = svc.storeReceipt ctx userID file filename fileSize expenseID
            (uploadMimeType svc filename) s ∧
      ∃ key err rest,
        (svc.UploadReceipt ctx userID file filename fileSize expenseID s).calls
          = ServiceCall.uploadFile key err :: rest) := by
  have hallow : ∀ m : String, (if m = "image/jpg" then "image/jpeg" else m)
      ∈ ["image/jpeg", "image/png", "application/pdf"] ↔
      AllowedMimeTypes (if m = "image/jpg" then "image/jpeg" else m) = true := by
    intro m
    by_cases h : m = "image/jpg"
    · simp [h, AllowedMimeTypes]
    · simp [h, AllowedMimeTypes, or_assoc]
  have hstore : ∃ key err rest,
      (svc.storeReceipt ctx userID file filename fileSize expenseID
        (uploadMimeType svc filename) s).calls = ServiceCall.uploadFile key err :: rest := by
    unfold ReceiptService.storeReceipt
    (repeat' (first | split | dsimp only)) <;> exact ⟨_, _, _, rfl⟩
  refine ⟨by decide, ?_, ?_⟩
  · intro h
    unfold ReceiptService.UploadReceipt
    by_cases h1 : fileSize > MaxFileSize
    · simp [h1]
    · rw [if_neg h1]
      by_cases h2 : fileSize ≤ 0
      · simp [h2]
      · rw [if_neg h2]
        have h3 : uploadMimeType svc filename
            ∉ ["image/jpeg", "image/png", "application/pdf"] := by
          rcases h with h | h | h
          · exact absurd h h2
          · exact absurd h h1
          · exact h
        unfold uploadMimeType at h3
        simp only at h3
        rw [hallow] at h3
        simp only [Bool.not_eq_true] at h3
        simp [h3]
  · intro h1 h2 h3
    have hu : svc.UploadReceipt ctx userID file filename fileSize expenseID s
        = svc.storeReceipt ctx userID file filename fileSize expenseID
            (uploadMimeType svc filename) s := by
      unfold ReceiptService.UploadReceipt
      rw [if_neg (by omega), if_neg (by omega)]
      unfold uploadMimeType at h3 ⊢
      simp only at h3 ⊢
      rw [hallow] at h3
      simp [h3]
    refine ⟨hu, ?_⟩
    rw [hu]
    exact hstore

/-- Witness for C23: a PDF of exactly 10 * 1024 * 1024 bytes passes the validation and is
uploaded, saved and published; one byte more, an empty file and a text file are rejected
without a call. -/
theorem upload_validation_witness :
    uploadMimeType pdfReceiptService "r.pdf" = "application/pdf" ∧
    (pdfReceiptService.UploadReceipt requestContext "u1" [] "r.pdf" 10485760 none ()).calls.length
      = 4 ∧
    (pdfReceiptService.UploadReceipt requestContext "u1" [] "r.pdf" 10485761 none ()).calls
      = [] ∧
    (pdfReceiptService.UploadReceipt requestContext "u1" [] "r.pdf" 0 none ()).calls = [] ∧
    (pdfReceiptService.UploadReceipt requestContext "u1" [] "notes.txt" 10 none ()).calls
      = [] :=
  have h := upload_validation pdfReceiptService requestContext "u1" [] "r.pdf" 10485761 none ()
  have h0 := upload_validation pdfReceiptService requestContext "u1" [] "r.pdf" 0 none ()
  have ht := upload_validation pdfReceiptService requestContext "u1" [] "notes.txt" 10 none ()
  ⟨rfl, rfl, (h.2.1 (Or.inr (Or.inl (by decide)))).2.1, (h0.2.1 (Or.inl (by decide))).2.1,
   (ht.2.1 (Or.inr (Or.inr (by decide)))).2.1⟩

/-! ## Theorems: the templates loaded at start-up -/

/-- Lookup after the assignment of a template. -/
theorem lookup_setTemplate (templates : List (String × Template)) (key k : String)
    (tmpl : Template) :
    (setTemplate templates key tmpl).lookup k
      = if k = key then some tmpl else templates.lookup k := by
  have hbeq : ∀ a b : String, ¬a = b → (a == b) = false := by
    intro a b hab
    simp [hab]
  induction templates with
  | nil =>
    by_cases h : k = key
    · simp [setTemplate, List.lookup, h]
    · simp [setTemplate, List.lookup, h, hbeq k key h]
  | cons e rest ih =>
    obtain ⟨k1, t1⟩ := e
    unfold setTemplate
    by_cases h1 : key = k1
    · subst h1
      by_cases h : k = key
      · simp [List.lookup, h]
      · simp [List.lookup, h, hbeq k key h]
    · rw [if_neg h1]
      by_cases h : k = k1
      · subst h
        have h2 : ¬k = key := fun hk => h1 hk.symm
        simp [List.lookup, h2]
      · simp [List.lookup, ih, hbeq k k1 h]

/-- A successful load holds a template for every file name of the loop, besides what was
there before. -/
theorem loadTemplates_keys (dir : String → TemplateFile) (files : List String)
    (templates loaded : List (String × Template))
    (h : loadTemplates dir files templates = Except.ok loaded) :
    (∀ k, (templates.lookup k).isSome = true → (loaded.lookup k).isSome = true) ∧
    (∀ f ∈ files, (loaded.lookup (templateKey f)).isSome = true) := by
  induction files generalizing templates with
  | nil =>
    simp only [loadTemplates] at h
    injection h with h
    subst h
    exact ⟨fun _ hk => hk, by simp⟩
  | cons f rest ih =>
    unfold loadTemplates at h
    split at h
    · exact absurd h (by simp)
    · split at h
      · exact absurd h (by simp)
      · rename_i tmpl _
        obtain ⟨h1, h2⟩ := ih _ h
        constructor
        · intro k hk
          apply h1
          rw [lookup_setTemplate]
          by_cases hkk : k = templateKey f <;> simp [hkk, hk]
        · intro g hg
          rcases List.mem_cons.mp hg with rfl | hg
          · apply h1
            rw [lookup_setTemplate]
            simp
          · exact h2 g hg

/-- C27. For a template service built by `NewTemplateService` (on any templates
directory for which it succeeds) and every event of a supported type: the template name
`ProcessEvent` selects is one of the keys loaded, the file names without `.html`; the
lookup of `Render` finds a template, so `Render` returns what the execution of that
template gives and never the error `template ... not found`. -/
theorem template_names_are_loaded (dir : String → TemplateFile) (ts : TemplateService)
    (event : Event) (hnew : NewTemplateService dir = Except.ok ts)
    (hsup : event.EventType ∈ supportedEventTypes) :
    ∃ name subject data, selectTemplate event = some (name, subject, data) ∧
      name ∈ templateFiles.map templateKey ∧
      templateFiles.map templateKey
        = ["expense_created", "expense_updated", "receipt_uploaded", "receipt_linked",
           "user_registered"] ∧
      ∃ tmpl, ts.templates.lookup name = some tmpl ∧
        ts.Render name data =
          match tmpl data with
          | Except.error e => Except.error ("failed to render template: " ++ e)
          | Except.ok out => Except.ok out := by
  have hkeys : templateFiles.map templateKey
      = ["expense_created", "expense_updated", "receipt_uploaded", "receipt_linked",
         "user_registered"] := by decide
  have hload : ∀ f ∈ templateFiles, (ts.templates.lookup (templateKey f)).isSome = true := by
    unfold NewTemplateService at hnew
    cases hl : loadTemplates dir templateFiles [] with
    | error e => simp [hl] at hnew
    | ok loaded =>
      simp only [hl] at hnew
      injection hnew with hnew
      subst hnew
      exact (loadTemplates_keys dir templateFiles [] loaded hl).2
  have hname : ∀ name, name ∈ templateFiles.map templateKey →
      ∃ tmpl, ts.templates.lookup name = some tmpl := by
    intro name hn
    obtain ⟨f, hf, rfl⟩ := List.mem_map.mp hn
    exact Option.isSome_iff_exists.mp (hload f hf)
  have hrender : ∀ name data tmpl, ts.templates.lookup name = some tmpl →
      ts.Render name data =
        match tmpl data with
        | Except.error e => Except.error ("failed to render template: " ++ e)
        | Except.ok out => Except.ok out := by
    intro name data tmpl hl
    simp only [TemplateService.Render, hl]
  obtain ⟨h1, h2, h3, h4, h5⟩ := selectTemplate_supported event
  simp only [supportedEventTypes, List.mem_cons, List.mem_singleton, List.not_mem_nil,
    or_false] at hsup
  rcases hsup with h | h | h | h | h
  · have hn : "expense_created" ∈ templateFiles.map templateKey := by rw [hkeys]; decide
    obtain ⟨tmpl, ht⟩ := hname _ hn
    exact ⟨_, _, _, h1 h, hn, hkeys, tmpl, ht, hrender _ _ _ ht⟩
  · have hn : "expense_updated" ∈ templateFiles.map templateKey := by rw [hkeys]; decide
    obtain ⟨tmpl, ht⟩ := hname _ hn
    exact ⟨_, _, _, h2 h, hn, hkeys, tmpl, ht, hrender _ _ _ ht⟩
  · have hn : "receipt_uploaded" ∈ templateFiles.map templateKey := by rw [hkeys]; decide
    obtain ⟨tmpl, ht⟩ := hname _ hn
    exact ⟨_, _, _, h3 h, hn, hkeys, tmpl, ht, hrender _ _ _ ht⟩
  · have hn : "receipt_linked" ∈ templateFiles.map templateKey := by rw [hkeys]; decide
    obtain ⟨tmpl, ht⟩ := hname _ hn
    exact ⟨_, _, _, h4 h, hn, hkeys, tmpl, ht, hrender _ _ _ ht⟩
  · have hn : "user_registered" ∈ templateFiles.map templateKey := by rw [hkeys]; decide
    obtain ⟨tmpl, ht⟩ := hname _ hn
    exact ⟨_, _, _, h5 h, hn, hkeys, tmpl, ht, hrender _ _ _ ht⟩

/-- Witness for C27: on a directory without template files `NewTemplateService` builds
the service with the five default templates, and the scenario event finds its
template. -/
theorem template_names_are_loaded_witness :
    NewTemplateService emptyTemplatesDir = Except.ok defaultTemplateService ∧
    coffeeEvent.EventType ∈ supportedEventTypes ∧
    ∃ name subject data, selectTemplate coffeeEvent = some (name, subject, data) ∧
      ∃ tmpl, defaultTemplateService.templates.lookup name = some tmpl :=
  ⟨rfl, by decide,
   match template_names_are_loaded emptyTemplatesDir defaultTemplateService coffeeEvent rfl
     (by decide) with
   | ⟨name, subject, data, hsel, _, _, tmpl, ht, _⟩ => ⟨name, subject, data, hsel, tmpl, ht⟩⟩

/-! ## Theorems: the validation of the amount -/

/-- C21, evaluated on the code. The validation of the amount is `err != nil || amount <=
0`. It rejects, with `amount must be a positive number` and without a call on the
repository, every text `ParseFloat` refuses and every text whose value is not above
zero. But a text `ParseFloat` reads as NaN or as +Inf passes, because neither is `<= 0`:
`CreateExpense` (the other fields being valid) goes on to `Create` and the expense is
written with that amount, and `UpdateExpense` takes the amount over. -/
theorem special_amount_passes {σ : Type} (svc : ExpenseService σ) (ctx : Context)
    (userID : String) (req : CreateExpenseRequest) (s : σ) (amount : Float64)
    (expenseDate : Time) (hparse : svc.runtime.ParseFloat req.Amount = some amount)
    (hspecial : amount = Float64.nan ∨ amount = Float64.inf false)
    (hdescription : req.Description ≠ "") (hcategory : req.Category ≠ "")
    (hdate : parseDate req.ExpenseDate = some expenseDate)
    (hpast : expenseDate.After (svc.runtime.Now s).1 = false) :
    (∃ id err rest,
      (svc.CreateExpense ctx userID req s).calls = ServiceCall.create id err :: rest) ∧
    (∀ e, (svc.CreateExpense ctx userID req s).val = Except.error e →
      ServiceCall.create
        (svc.runtime.NewUUID (svc.runtime.Now (svc.runtime.Now s).2).2).1 (some e)
        ∈ (svc.CreateExpense ctx userID req s).calls) ∧
    (∀ resp, (svc.CreateExpense ctx userID req s).val = Except.ok resp →
      resp.Amount = req.Amount) ∧
    (∀ expense : Expense,
      svc.applyUpdate ⟨some req.Amount, none, none, none⟩ expense
        = Except.ok { expense with Amount := req.Amount }) ∧
    (∀ (other : CreateExpenseRequest),
      (svc.runtime.ParseFloat other.Amount = none ∨
        ∃ a, svc.runtime.ParseFloat other.Amount = some a ∧ a.leZero = true) →
      (svc.CreateExpense ctx userID other s).val
        = Except.error "amount must be a positive number" ∧
      (svc.CreateExpense ctx userID other s).calls = []) := by
  have hle : amount.leZero = false := by
    rcases hspecial with rfl | rfl <;> rfl
  refine ⟨?_, ?_, ?_, ?_, ?_⟩
  · unfold ExpenseService.CreateExpense ExpenseService.publishAndRespond
    simp only [hparse, hle, hdescription, hcategory, hdate, hpast]
    (repeat' (first | split | dsimp only)) <;> simp_all
  · intro e
    unfold ExpenseService.CreateExpense ExpenseService.publishAndRespond
    simp only [hparse, hle, hdescription, hcategory, hdate, hpast]
    (repeat' (first | split | dsimp only)) <;> simp_all
  · intro resp
    unfold ExpenseService.CreateExpense ExpenseService.publishAndRespond
    simp only [hparse, hle, hdescription, hcategory, hdate, hpast]
    (repeat' (first | split | dsimp only)) <;> simp_all [Expense.toResponse] <;>
      (intro h; rw [← h])
  · intro expense
    unfold ExpenseService.applyUpdate
    simp [hparse, hle]
  · intro other h
    unfold ExpenseService.CreateExpense
    rcases h with h | ⟨a, h, ha⟩
    · simp [h]
    · simp [h, ha]

/-- Witness for C21: `parseFloatText` reads `NaN` as NaN and `Inf` as +Inf without
error; the scenario request with the amount `NaN` is written to the repository, and the
amounts `abc`, `0` and `-5` are rejected. -/
theorem special_amount_passes_witness :
    parseFloatText "NaN" = some Float64.nan ∧
    parseFloatText "Inf" = some (Float64.inf false) ∧
    (∃ id err rest,
      (textExpenseService.CreateExpense requestContext "u1" nanRequest []).calls
        = ServiceCall.create id err :: rest) ∧
    ((textExpenseService.CreateExpense requestContext "u1" nanRequest []).state.map
      (fun e => e.Amount)) = ["NaN"] ∧
    (textExpenseService.CreateExpense requestContext "u1"
      ⟨"abc", "Coffee", "Food", "2024-01-05"⟩ []).calls = [] ∧
    (textExpenseService.CreateExpense requestContext "u1"
      ⟨"0", "Coffee", "Food", "2024-01-05"⟩ []).calls = [] ∧
    (textExpenseService.CreateExpense requestContext "u1"
      ⟨"-5", "Coffee", "Food", "2024-01-05"⟩ []).calls = [] :=
  have h := special_amount_passes textExpenseService requestContext "u1" nanRequest []
    Float64.nan ⟨2024, 1, 5, 0, 0, 0, 0, 0⟩ (by decide) (Or.inl rfl) (by decide) (by decide)
    (by decide) (by decide)
  ⟨by decide, by decide, h.1, by decide,
   (h.2.2.2.2 ⟨"abc", "Coffee", "Food", "2024-01-05"⟩ (Or.inl (by decide))).2,
   (h.2.2.2.2 ⟨"0", "Coffee", "Food", "2024-01-05"⟩
      (Or.inr ⟨Float64.finite ⟨0, 0⟩, by decide, by decide⟩)).2,
   (h.2.2.2.2 ⟨"-5", "Coffee", "Food", "2024-01-05"⟩
      (Or.inr ⟨Float64.finite ⟨-5, 0⟩, by decide, by decide⟩)).2⟩

/-! ## Theorems: pagination -/

/-- Arithmetic on `int` is exact where the result is in range. -/
theorem wrapInt64_id (i : Int) (h1 : -9223372036854775808 ≤ i) (h2 : i < 9223372036854775808) :
    wrapInt64 i = i := by
  unfold wrapInt64
  omega

/-- The ceiling division of the list operations, where the sum does not overflow. -/
theorem pages_ceiling (total limit : Int) (ht : 0 ≤ total) (hl : 1 ≤ limit)
    (hsum : total + limit ≤ 9223372036854775808) :
    0 ≤ Int.tdiv (wrapInt64 (total + limit - 1)) limit ∧
    total ≤ Int.tdiv (wrapInt64 (total + limit - 1)) limit * limit ∧
    (∀ p : Int, 0 ≤ p → total ≤ p * limit →
      Int.tdiv (wrapInt64 (total + limit - 1)) limit ≤ p) ∧
    (total = 0 → Int.tdiv (wrapInt64 (total + limit - 1)) limit = 0) := by
  rw [wrapInt64_id _ (by omega) (by omega)]
  have hn : 0 ≤ total + limit - 1 := by omega
  rw [Int.tdiv_eq_ediv hn (by omega)]
  have hpos : 0 < limit := by omega
  have h1 := Int.ediv_mul_le (total + limit - 1) (ne_of_gt hpos)
  have h2 := Int.lt_ediv_add_one_mul_self (total + limit - 1) hpos
  refine ⟨Int.ediv_nonneg hn (by omega), ?_, ?_, ?_⟩
  · nlinarith
  · intro p hp hle
    by_contra hcon
    have hq : p + 1 ≤ (total + limit - 1) / limit := by omega
    have hm : (p + 1) * limit ≤ (total + limit - 1) / limit * limit :=
      Int.mul_le_mul_of_nonneg_right hq (by omega)
    nlinarith
  · intro h0
    subst h0
    apply Int.ediv_eq_zero_of_lt <;> omega


/-- C22, evaluated on the code. The ceiling division `(total + limit - 1) / limit` is
computed on `int`: for a repository that reports the total 2 ^ 63 - 1 the sum
`total + limit - 1` wraps around, and `ListExpenses` and `ListReceipts` report
-461168601842738789 pages, where the claim has the least `p >= 0` with
`p * Limit >= Total`. Limit and Page are the clamped values the claim has. -/
theorem pages_wrap_for_huge_total :
    (ExpenseService.ListExpenses hugeTotalFind requestContext "u1" ⟨"", "", "", 0, 0⟩ ()).1
      = Except.ok ⟨[], 9223372036854775807, 1, 20, -461168601842738789⟩ ∧
    ((acceptingReceiptService Unit).ListReceipts
        (fun _ _ _ s => (Except.ok ([], 9223372036854775807), s))
        requestContext "u1" ⟨"", 0, 0⟩ ()).1
      = Except.ok ⟨[], 9223372036854775807, 1, 20, -461168601842738789⟩ ∧
    ¬ Paginated 0 0 9223372036854775807 20 1 (-461168601842738789) :=
  ⟨rfl, rfl, fun h => absurd h.2.2.1 (by decide)⟩

/-- What `ListExpenses` reports when it returns a response. -/
theorem ListExpenses_response {σ : Type}
    (find : Context → String → ListExpensesRequest → σ → Except String (List Expense × Int) × σ)
    (ctx : Context) (userID : String) (filters : ListExpensesRequest) (s s1 : σ)
    (resp : ListExpensesResponse)
    (h : ExpenseService.ListExpenses find ctx userID filters s = (Except.ok resp, s1)) :
    ∃ expenses, find ctx userID filters s = (Except.ok (expenses, resp.Total), s1) ∧
      resp.Limit = (if filters.Limit ≤ 0 then 20
        else if filters.Limit > 100 then 100 else filters.Limit) ∧
      resp.Page = (if filters.Page ≤ 0 then 1 else filters.Page) ∧
      resp.Pages = Int.tdiv (wrapInt64 (resp.Total + resp.Limit - 1)) resp.Limit := by
  unfold ExpenseService.ListExpenses at h
  split at h
  · simp at h
  split at h
  · simp at h
  split at h
  · simp at h
  rcases hf : find ctx userID filters s with ⟨_ | ⟨expenses, total⟩, s0⟩
  · simp [hf] at h
  · simp only [hf] at h
    injection h with h hs
    injection h with h
    subst h
    subst hs
    refine ⟨expenses, rfl, ?_, rfl, rfl⟩
    by_cases h1 : filters.Limit ≤ 0
    · simp [h1]
    · simp [h1]

/-- What `ListReceipts` reports when it returns a response. -/
theorem ListReceipts_response {σ : Type} (svc : ReceiptService σ)
    (find : Context → String → ListReceiptsRequest → σ → Except String (List Receipt × Int) × σ)
    (ctx : Context) (userID : String) (filters : ListReceiptsRequest) (s s2 : σ)
    (resp : ListReceiptsResponse)
    (h : svc.ListReceipts find ctx userID filters s = (Except.ok resp, s2)) :
    ∃ receipts s1, find ctx userID filters s = (Except.ok (receipts, resp.Total), s1) ∧
      resp.Limit = (if filters.Limit ≤ 0 then 20
        else if filters.Limit > 100 then 100 else filters.Limit) ∧
      resp.Page = (if filters.Page ≤ 0 then 1 else filters.Page) ∧
      resp.Pages = Int.tdiv (wrapInt64 (resp.Total + resp.Limit - 1)) resp.Limit := by
  unfold ReceiptService.ListReceipts at h
  rcases hf : find ctx userID filters s with ⟨_ | ⟨receipts, total⟩, s1⟩
  · simp [hf] at h
  · simp only [hf] at h
    rcases hp : svc.presignAll ctx receipts s1 with ⟨_ | responses, s3⟩
    · simp [hp] at h
    · simp only [hp] at h
      injection h with h hs
      injection h with h
      subst h
      refine ⟨receipts, s1, rfl, ?_, rfl, rfl⟩
      by_cases h1 : filters.Limit ≤ 0
      · simp [h1]
      · simp [h1]

/-- The clamped limit lies between 1 and 100. -/
theorem clamped_limit_range (requestLimit : Int) :
    1 ≤ (if requestLimit ≤ 0 then 20 else if requestLimit > 100 then 100 else requestLimit) ∧
    (if requestLimit ≤ 0 then 20 else if requestLimit > 100 then 100 else requestLimit)
      ≤ (100 : Int) := by
  by_cases h1 : requestLimit ≤ 0
  · simp [h1]
  · by_cases h2 : requestLimit > 100
    · simp [h1, h2]
    · simp only [h1, h2, if_false]
      omega

/-- Pagination where the `int` sum does not wrap around. Whenever `ListExpenses` or
`ListReceipts` returns a response, its Total is the total the repository returned, its Limit is 20 for a requested limit `<= 0`, 100
for one above 100 and the requested value otherwise, and its Page is 1 for a requested
page `<= 0` and the requested value otherwise; and for every total `>= 0` for which
`total + limit` does not exceed 2 ^ 63 (so that the `int` sum `total + limit - 1` does
not wrap around) Pages is the least `p >= 0` with `p * Limit >= Total`, which is 0 for
the total 0. -/
theorem list_pagination {σ : Type}
    (findExpenses : Context → String → ListExpensesRequest → σ →
      Except String (List Expense × Int) × σ)
    (svc : ReceiptService σ)
    (findReceipts : Context → String → ListReceiptsRequest → σ →
      Except String (List Receipt × Int) × σ)
    (ctx : Context) (userID : String) (s : σ) :
    (∀ (filters : ListExpensesRequest) (resp : ListExpensesResponse) (s1 : σ),
      ExpenseService.ListExpenses findExpenses ctx userID filters s = (Except.ok resp, s1) →
      (∃ expenses, findExpenses ctx userID filters s
        = (Except.ok (expenses, resp.Total), s1)) ∧
      resp.Limit = (if filters.Limit ≤ 0 then 20
        else if filters.Limit > 100 then 100 else filters.Limit) ∧
      resp.Page = (if filters.Page ≤ 0 then 1 else filters.Page) ∧
      (0 ≤ resp.Total → resp.Total + resp.Limit ≤ 9223372036854775808 →
        Paginated filters.Limit filters.Page resp.Total resp.Limit resp.Page resp.Pages)) ∧
    (∀ (filters : ListReceiptsRequest) (resp : ListReceiptsResponse) (s2 : σ),
      svc.ListReceipts findReceipts ctx userID filters s = (Except.ok resp, s2) →
      (∃ receipts s1, findReceipts ctx userID filters s
        = (Except.ok (receipts, resp.Total), s1)) ∧
      resp.Limit = (if filters.Limit ≤ 0 then 20
        else if filters.Limit > 100 then 100 else filters.Limit) ∧
      resp.Page = (if filters.Page ≤ 0 then 1 else filters.Page) ∧
      (0 ≤ resp.Total → resp.Total + resp.Limit ≤ 9223372036854775808 →
        Paginated filters.Limit filters.Page resp.Total resp.Limit resp.Page resp.Pages)) := by
  constructor
  · intro filters resp s1 h
    obtain ⟨expenses, hf, hl, hp, hpages⟩ :=
      ListExpenses_response findExpenses ctx userID filters s s1 resp h
    refine ⟨⟨expenses, hf⟩, hl, hp, ?_⟩
    intro ht hsum
    have hr := clamped_limit_range filters.Limit
    rw [← hl] at hr
    obtain ⟨c1, c2, c3, c4⟩ := pages_ceiling resp.Total resp.Limit ht hr.1 hsum
    rw [← hpages] at c1 c2 c3 c4
    exact ⟨hl, hp, c1, c2, c3, c4⟩
  · intro filters resp s2 h
    obtain ⟨receipts, s1, hf, hl, hp, hpages⟩ :=
      ListReceipts_response svc findReceipts ctx userID filters s s2 resp h
    refine ⟨⟨receipts, s1, hf⟩, hl, hp, ?_⟩
    intro ht hsum
    have hr := clamped_limit_range filters.Limit
    rw [← hl] at hr
    obtain ⟨c1, c2, c3, c4⟩ := pages_ceiling resp.Total resp.Limit ht hr.1 hsum
    rw [← hpages] at c1 c2 c3 c4
    exact ⟨hl, hp, c1, c2, c3, c4⟩

/-- Example for `list_pagination`: 45 expenses listed without limit on page 3 give
Limit 20, Page 3 and 3 pages. -/
theorem list_pagination_witness :
    ExpenseService.ListExpenses countingRepository.asFindByUserID requestContext "u1"
      pageThreeRequest () = (Except.ok ⟨[], 45, 3, 20, 3⟩, ()) ∧
    Paginated 0 3 45 20 3 3 :=
  have h : ExpenseService.ListExpenses countingRepository.asFindByUserID requestContext "u1"
      pageThreeRequest () = (Except.ok ⟨[], 45, 3, 20, 3⟩, ()) := rfl
  ⟨h, ((list_pagination countingRepository.asFindByUserID (acceptingReceiptService Unit)
      (fun _ _ _ st => (Except.ok ([], 0), st)) requestContext "u1" ()).1 pageThreeRequest
      ⟨[], 45, 3, 20, 3⟩ () h).2.2.2 (by decide) (by decide)⟩


/-- The next argument index is one more than the number of arguments. -/
theorem addFilter_index (column value : String) (acc : String × List SqlArg × Nat)
    (h : acc.2.2 = acc.2.1.length + 1) :
    (addFilter column value acc).2.2 = (addFilter column value acc).2.1.length + 1 := by
  unfold addFilter
  by_cases hv : value = ""
  · simp [hv, h]
  · simp [hv, h]

/-- The queries of a successful `FindByUserID`. -/
theorem FindByUserID_queries {σ : Type} (r : PostgresExpenseRepository σ) (ctx : Context)
    (userID : String) (filters : ListExpensesRequest) (s : σ) (found : List Expense × Int) :
    (r.FindByUserID ctx userID filters s).val = Except.ok found →
    ∃ countQuery query,
      (r.FindByUserID ctx userID filters s).queries = [countQuery, query] ∧
      query.args = countQuery.args ++
        [SqlArg.int (if (if filters.Limit ≤ 0 then 20 else filters.Limit) > 100 then 100
            else (if filters.Limit ≤ 0 then 20 else filters.Limit)),
         SqlArg.int (wrapInt64 (wrapInt64 ((if filters.Page ≤ 0 then 1 else filters.Page) - 1) *
            (if (if filters.Limit ≤ 0 then 20 else filters.Limit) > 100 then 100
              else (if filters.Limit ≤ 0 then 20 else filters.Limit))))] ∧
      (∃ front, query.text = front ++ "LIMIT $"
        ++ String.mk (decimal (countQuery.args.length + 1)) ++ " OFFSET $"
        ++ String.mk (decimal (countQuery.args.length + 2)) ++ "\n\t") := by
  have hidx := addFilter_index "expense_date <=" filters.EndDate
    (addFilter "expense_date >=" filters.StartDate
      (addFilter "category =" filters.Category
        ("user_id = $1 AND deleted_at IS NULL", [SqlArg.text userID], 2)))
    (addFilter_index _ _ _ (addFilter_index _ _ _ rfl))
  unfold PostgresExpenseRepository.FindByUserID
  dsimp only
  split
  · intro h
    exact absurd h (by simp)
  · split
    · intro h
      exact absurd h (by simp)
    · intro _
      refine ⟨_, _, rfl, rfl, ⟨"\n\t\tSELECT id, user_id, amount, description, category, expense_date, created_at, updated_at, deleted_at\n\t\tFROM expenses\n\t\tWHERE "
        ++ (addFilter "expense_date <=" filters.EndDate
          (addFilter "expense_date >=" filters.StartDate
            (addFilter "category =" filters.Category
              ("user_id = $1 AND deleted_at IS NULL", [SqlArg.text userID], 2)))).1
        ++ "\n\t\tORDER BY expense_date DESC, created_at DESC\n\t\t", ?_⟩⟩
      have hsplit : "\n\t\tORDER BY expense_date DESC, created_at DESC\n\t\tLIMIT $"
          = "\n\t\tORDER BY expense_date DESC, created_at DESC\n\t\t" ++ "LIMIT $" := rfl
      dsimp only
      rw [hidx, hsplit]
      simp only [String.append_assoc]

/-- C29. Whenever `ListExpenses`, on the Postgres repository, returns a response, the
repository has sent two queries, the count and the selection; the selection ends in
`LIMIT $k OFFSET $k+1` for the two arguments it appends to those of the count, and these
are the Limit of the response and `(Page - 1) * Limit` for the Page and Limit of the
response (as `int` product, which is the exact product whenever that is in range): the
service and the repository clamp limit and page by the same function of the request. -/
theorem list_reports_what_the_query_used {σ : Type} (r : PostgresExpenseRepository σ)
    (ctx : Context) (userID : String) (filters : ListExpensesRequest) (s s1 : σ)
    (resp : ListExpensesResponse)
    (h : ExpenseService.ListExpenses r.asFindByUserID ctx userID filters s
      = (Except.ok resp, s1)) :
    ∃ countQuery query,
      (r.FindByUserID ctx userID filters s).queries = [countQuery, query] ∧
      query.args = countQuery.args ++
        [SqlArg.int resp.Limit, SqlArg.int (wrapInt64 (wrapInt64 (resp.Page - 1) * resp.Limit))] ∧
      (∃ front, query.text = front ++ "LIMIT $"
        ++ String.mk (decimal (countQuery.args.length + 1)) ++ " OFFSET $"
        ++ String.mk (decimal (countQuery.args.length + 2)) ++ "\n\t") ∧
      (filters.Page < 9223372036854775808 →
        (resp.Page - 1) * resp.Limit < 9223372036854775808 →
        wrapInt64 (wrapInt64 (resp.Page - 1) * resp.Limit) = (resp.Page - 1) * resp.Limit) := by
  obtain ⟨expenses, hf, hl, hp, _⟩ :=
    ListExpenses_response r.asFindByUserID ctx userID filters s s1 resp h
  have hlim : resp.Limit = (if (if filters.Limit ≤ 0 then 20 else filters.Limit) > 100 then 100
      else (if filters.Limit ≤ 0 then 20 else filters.Limit)) := by
    rw [hl]
    by_cases h1 : filters.Limit ≤ 0
    · simp [h1]
    · simp [h1]
  have hexact : filters.Page < 9223372036854775808 →
      (resp.Page - 1) * resp.Limit < 9223372036854775808 →
      wrapInt64 (wrapInt64 (resp.Page - 1) * resp.Limit) = (resp.Page - 1) * resp.Limit := by
    intro hpage hprod
    have hr := clamped_limit_range filters.Limit
    rw [← hl] at hr
    have hp1 : 1 ≤ resp.Page := by
      rw [hp]
      by_cases h1 : filters.Page ≤ 0
      · simp [h1]
      · simp only [h1, if_false]; omega
    have hp2 : resp.Page < 9223372036854775808 := by
      rw [hp]
      by_cases h1 : filters.Page ≤ 0
      · simp [h1]
      · simp only [h1, if_false]; exact hpage
    rw [wrapInt64_id (resp.Page - 1) (by omega) (by omega)]
    have hnn : 0 ≤ (resp.Page - 1) * resp.Limit :=
      Int.mul_nonneg (by omega) (by omega)
    exact wrapInt64_id _ (by omega) hprod
  simp only [PostgresExpenseRepository.asFindByUserID] at hf
  injection hf with hval hstate
  obtain ⟨countQuery, query, hq, ha, ht⟩ :=
    FindByUserID_queries r ctx userID filters s (expenses, resp.Total) hval
  refine ⟨countQuery, query, hq, ?_, ht, hexact⟩
  rw [ha, ← hlim, ← hp]

/-- Witness for C29: for page 3 of the category Food without limit, the response reports
Limit 20 and Page 3, and the selection was sent with LIMIT 20 and OFFSET 40. -/
theorem list_reports_what_the_query_used_witness :
    ExpenseService.ListExpenses countingRepository.asFindByUserID requestContext "u1"
      pageThreeRequest () = (Except.ok ⟨[], 45, 3, 20, 3⟩, ()) ∧
    ((countingRepository.FindByUserID requestContext "u1" pageThreeRequest ()).queries.map
      (fun q => q.args))
      = [[SqlArg.text "u1", SqlArg.text "Food"],
         [SqlArg.text "u1", SqlArg.text "Food", SqlArg.int 20, SqlArg.int 40]] ∧
    ∃ countQuery query,
      (countingRepository.FindByUserID requestContext "u1" pageThreeRequest ()).queries
        = [countQuery, query] ∧
      query.args = countQuery.args ++ [SqlArg.int 20, SqlArg.int 40] :=
  have h : ExpenseService.ListExpenses countingRepository.asFindByUserID requestContext "u1"
      pageThreeRequest () = (Except.ok ⟨[], 45, 3, 20, 3⟩, ()) := rfl
  ⟨h, by decide,
   match list_reports_what_the_query_used countingRepository requestContext "u1"
     pageThreeRequest () () ⟨[], 45, 3, 20, 3⟩ h with
   | ⟨countQuery, query, hq, ha, _, _⟩ => ⟨countQuery, query, hq, ha⟩⟩

/-! ## Theorems: token validation -/

/-- C25. For every token, every JWT service and every user repository,
`AuthService.ValidateToken` returns a response and a nil error. The response has
Valid = true exactly when the JWT service returns claims and `FindByID` returns a user
without error, and then carries the user id and email of the claims; otherwise it is
exactly the response with Valid = false and empty user id and email. Hence `Validate` of
the handler never answers 500 "Failed to validate token". -/
theorem validate_token_never_errs {σ : Type}
    (jwtValidateToken : String → σ → Except String Claims × σ)
    (FindByID : Context → String → σ → Except String (Option User) × σ)
    (ctx : Context) (tokenString : String) (s : σ) :
    (∃ resp, (AuthService.ValidateToken jwtValidateToken FindByID ctx tokenString s).1
        = Except.ok resp ∧
      (resp.Valid = true ↔ ∃ claims s1 user s2,
        jwtValidateToken tokenString s = (Except.ok claims, s1) ∧
        FindByID ctx claims.UserID s1 = (Except.ok (some user), s2)) ∧
      (∀ claims s1, jwtValidateToken tokenString s = (Except.ok claims, s1) →
        resp.Valid = true → resp.UserID = claims.UserID ∧ resp.Email = claims.Email) ∧
      (resp.Valid = false → resp = ⟨false, "", ""⟩)) ∧
    (∀ request : ValidateRequest,
      (AuthHandler.Validate jwtValidateToken FindByID request s).1.status ≠ 500 ∧
      (AuthHandler.Validate jwtValidateToken FindByID request s).1.body
        ≠ ResponseBody.error "Failed to validate token") := by
  constructor
  · unfold AuthService.ValidateToken
    rcases hj : jwtValidateToken tokenString s with ⟨j, s1⟩
    cases j with
    | error err => exact ⟨_, rfl, by simp, by simp, by simp⟩
    | ok claims =>
      dsimp only
      rcases hf : FindByID ctx claims.UserID s1 with ⟨f, s2⟩
      cases f with
      | error err =>
        refine ⟨_, rfl, ?_, by simp, by simp⟩
        simp [hf]
      | ok found =>
        cases found with
        | none =>
          refine ⟨_, rfl, ?_, by simp, by simp⟩
          simp [hf]
        | some user =>
          refine ⟨_, rfl, ?_, ?_, by simp⟩
          · exact ⟨fun _ => ⟨claims, s1, user, s2, rfl, hf⟩, fun _ => rfl⟩
          · intro c t hc _
            simp only [Prod.mk.injEq, Except.ok.injEq] at hc
            rw [hc.1]
            exact ⟨rfl, rfl⟩
  · intro request
    have hok : ∀ (c : Context) (t : String) (w : σ), ∃ resp w1,
        AuthService.ValidateToken jwtValidateToken FindByID c t w = (Except.ok resp, w1) := by
      intro c t w
      unfold AuthService.ValidateToken
      (repeat' (first | split | dsimp only)) <;> exact ⟨_, _, rfl⟩
    unfold AuthHandler.Validate
    (repeat' (first | split | dsimp only)) <;> simp_all
    all_goals
      rename_i hv
      obtain ⟨resp, w1, hr⟩ := hok request.ctx _ s
      rw [hr] at hv
      simp at hv

/-- Witness for C25: the token `good` of the existing user `u1` is answered with 200 and
the claims, the token `bad` with 401. -/
theorem validate_token_never_errs_witness :
    (AuthHandler.Validate sampleJwt sampleFindByID ⟨"GET", "Bearer good", requestContext⟩ ()).1
      = ⟨200, ResponseBody.validate ⟨true, "u1", "a@b.com"⟩⟩ ∧
    (AuthHandler.Validate sampleJwt sampleFindByID ⟨"GET", "Bearer bad", requestContext⟩ ()).1
      = ⟨401, ResponseBody.error "Invalid token"⟩ ∧
    (∃ resp, (AuthService.ValidateToken sampleJwt sampleFindByID requestContext "good" ()).1
        = Except.ok resp ∧
      (resp.Valid = true ↔ ∃ claims s1 user s2,
        sampleJwt "good" () = (Except.ok claims, s1) ∧
        sampleFindByID requestContext claims.UserID s1 = (Except.ok (some user), s2)) ∧
      (∀ claims s1, sampleJwt "good" () = (Except.ok claims, s1) →
        resp.Valid = true → resp.UserID = claims.UserID ∧ resp.Email = claims.Email) ∧
      (resp.Valid = false → resp = ⟨false, "", ""⟩)) :=
  ⟨by decide, by decide,
    (validate_token_never_errs sampleJwt sampleFindByID requestContext "good" ()).1⟩

/-! ## Theorems: producer and consumer agree on the payload -/

/-- Lookup in a map whose values have been transformed. -/
theorem GoMap_get_map (m : GoMap) (f : GoVal → GoVal) (k : String) :
    GoMap.get (m.map (fun kv => (kv.1, f kv.2))) k = (GoMap.get m k).map f := by
  induction m with
  | nil => rfl
  | cons e rest ih =>
    obtain ⟨k1, v⟩ := e
    simp only [List.map_cons, GoMap.get]
    by_cases h : k = k1
    · simp [h]
    · simp [h, ih]

/-- A value found by lookup is an entry of the map. -/
theorem GoMap_get_mem (m : GoMap) (k : String) (v : GoVal) (h : GoMap.get m k = some v) :
    (k, v) ∈ m := by
  induction m with
  | nil => simp [GoMap.get] at h
  | cons e rest ih =>
    obtain ⟨k1, v1⟩ := e
    simp only [GoMap.get] at h
    by_cases hk : k = k1
    · simp only [hk, if_true, Option.some.injEq] at h
      simp [hk, h]
    · simp only [hk, if_false] at h
      exact List.mem_cons_of_mem _ (ih h)

/-- Payload lookup in the event the consumer receives. -/
theorem receivedEvent_get (event : Event) (k : String) :
    (receivedEvent event).get k = (event.get k).map receivedVal := by
  unfold receivedEvent Event.get
  cases event.Data with
  | none => rfl
  | some m => exact GoMap_get_map m receivedVal k

/-- What the builder of a supported event type projects. -/
theorem selectTemplate_projects (event : Event) (h : event.EventType ∈ supportedEventTypes) :
    ∃ name subject data, selectTemplate event = some (name, subject, data) ∧
      (∀ p ∈ stringKeys event.EventType,
        GoMap.get data p.2 = (asString (event.get p.1)).map GoVal.str) ∧
      (event.EventType = EventTypeReceiptUploaded →
        GoMap.get data "FileSize"
          = (asFloat64 (event.get "file_size")).map (fun f => GoVal.int64 f.toInt64)) := by
  obtain ⟨h1, h2, h3, h4, h5⟩ := selectTemplate_supported event
  simp only [supportedEventTypes, List.mem_cons, List.mem_singleton, List.not_mem_nil,
    or_false] at h
  rcases h with h | h | h | h | h
  · refine ⟨_, _, _, h1 h, ?_, ?_⟩
    · rw [h]; exact buildExpenseCreatedData_get event
    · rw [h]; intro hc; exact absurd hc (by decide)
  · refine ⟨_, _, _, h2 h, ?_, ?_⟩
    · rw [h]; exact buildExpenseUpdatedData_get event
    · rw [h]; intro hc; exact absurd hc (by decide)
  · refine ⟨_, _, _, h3 h, ?_, ?_⟩
    · rw [h]; exact buildReceiptUploadedData_get event
    · intro _; exact buildReceiptUploadedData_size event
  · refine ⟨_, _, _, h4 h, ?_, ?_⟩
    · rw [h]; exact buildReceiptLinkedData_get event
    · rw [h]; intro hc; exact absurd hc (by decide)
  · refine ⟨_, _, _, h5 h, ?_, ?_⟩
    · rw [h]; exact buildUserRegisteredData_get event
    · rw [h]; intro hc; exact absurd hc (by decide)

/-- An event of a supported type with a representable timestamp whose payload is sorted
and holds only strings under the keys its builder reads, and `file_size` in the range
of an upload, agrees. -/
theorem PayloadAgrees_of_entries (event : Event) (payload : GoMap)
    (hd : event.Data = some payload) (hv : event.Timestamp.valid = true)
    (hs : sortedKeys payload = true) (ht : event.EventType ∈ supportedEventTypes)
    (hentries : ∀ kv ∈ payload,
      (∃ content dst, kv.2 = GoVal.str content ∧ (kv.1, dst) ∈ stringKeys event.EventType) ∨
      (∃ n, kv.2 = GoVal.int64 n ∧ kv.1 = "file_size" ∧
        event.EventType = EventTypeReceiptUploaded ∧ 0 < n ∧ n ≤ MaxFileSize)) :
    PayloadAgrees marshalEvent event := by
  have hplain : plainEvent event = true := by
    unfold plainEvent
    rw [hd]
    simp only [hv, hs, Bool.true_and, List.all_eq_true]
    intro kv hkv
    rcases hentries kv hkv with ⟨content, dst, h1, _⟩ | ⟨n, h1, _, _, h0, hmax⟩
    · rw [h1]; rfl
    · rw [h1]
      simp only [plainVal, decide_eq_true_eq]
      unfold MaxFileSize at hmax
      omega
  obtain ⟨text, hm, _, hev⟩ := unmarshal_marshalEvent event hplain
  obtain ⟨name, subject, data, hsel, hk, hf⟩ :=
    selectTemplate_projects (receivedEvent event) ht
  refine ⟨text, receivedEvent event, name, subject, data, hm, hev, rfl, hsel, ?_⟩
  intro key value hget
  have hmem : (key, value) ∈ payload := by
    unfold Event.get at hget
    rw [hd] at hget
    exact GoMap_get_mem payload key value hget
  rcases hentries (key, value) hmem with ⟨content, dst, h1, h2⟩ | ⟨n, h1, h2, h3, h0, hmax⟩
  · left
    refine ⟨content, dst, h1, h2, ?_⟩
    have := hk (key, dst) h2
    simp only at h1
    rw [this, receivedEvent_get, hget, h1]
    rfl
  · right
    simp only at h1 h2
    refine ⟨n, h1, h2, h3, h0, hmax, ?_⟩
    have := hf h3
    rw [this, ← h2, receivedEvent_get, hget, h1]
    simp only [Option.map, receivedVal, asFloat64]
    rw [toInt64_integer n (by omega) (by unfold MaxFileSize at hmax; omega)]

/-- Agreement under the serialization of the receipt service and the auth service. -/
theorem PayloadAgrees_published (event : Event) (h : PayloadAgrees marshalEvent event) :
    PayloadAgrees marshalPublishedEvent event := h

/-- The payload of the expense events is sorted by key. -/
theorem expenseEventData_sorted (expense : Expense) :
    sortedKeys (expenseEventData expense) = true := by
  simp only [expenseEventData, sortedKeys, Bool.and_eq_true, decide_eq_true_eq, and_true]
  refine ⟨?_, ?_, ?_, ?_⟩ <;> decide

/-- The events of the expense service agree. -/
theorem expense_event_agrees (eventType userID email : String) (t : Time) (expense : Expense)
    (ht : eventType = EventTypeExpenseCreated ∨ eventType = EventTypeExpenseUpdated)
    (hv : t.valid = true) :
    PayloadAgrees marshalEvent
      ⟨eventType, userID, email, t, some (expenseEventData expense)⟩ := by
  refine PayloadAgrees_of_entries _ (expenseEventData expense) rfl hv
    (expenseEventData_sorted expense) ?_ ?_
  · rcases ht with h | h <;> simp [h, supportedEventTypes]
  · intro kv hkv
    left
    simp only [expenseEventData, List.mem_cons, List.mem_singleton, List.not_mem_nil,
      or_false] at hkv
    rcases ht with h | h <;> rcases hkv with rfl | rfl | rfl | rfl | rfl <;>
      simp [h, stringKeys, EventTypeExpenseCreated, EventTypeExpenseUpdated]

/-- The payload of the receipt.uploaded event with an expense id. -/
theorem uploadEventData_some (receipt : Receipt) (id : String) :
    uploadEventData receipt (some id)
      = [("expense_id", GoVal.str id), ("file_name", GoVal.str receipt.FileName),
         ("file_size", GoVal.int64 receipt.FileSize),
         ("mime_type", GoVal.str receipt.MimeType), ("receipt_id", GoVal.str receipt.ID)] := by
  have h : "expense_id".data < "file_name".data := by decide
  simp only [uploadEventData, GoMap.set, h, if_true]

/-- The receipt.uploaded event of an upload of valid size agrees. -/
theorem upload_event_agrees (userID email : String) (t : Time) (receipt : Receipt)
    (expenseID : Option String) (hv : t.valid = true) (h0 : 0 < receipt.FileSize)
    (hmax : receipt.FileSize ≤ MaxFileSize) :
    PayloadAgrees marshalPublishedEvent
      ⟨"receipt.uploaded", userID, email, t, some (uploadEventData receipt expenseID)⟩ := by
  cases expenseID with
  | none =>
    refine PayloadAgrees_published _
      (PayloadAgrees_of_entries _ (uploadEventData receipt none) rfl hv ?_ ?_ ?_)
    · simp only [uploadEventData, sortedKeys, Bool.and_eq_true, decide_eq_true_eq, and_true]
      refine ⟨?_, ?_, ?_⟩ <;> decide
    · simp [supportedEventTypes, EventTypeReceiptUploaded]
    · intro kv hkv
      simp only [uploadEventData, List.mem_cons, List.mem_singleton, List.not_mem_nil,
        or_false] at hkv
      rcases hkv with rfl | rfl | rfl | rfl
      · left
        have hk : ("file_name", "FileName") ∈ stringKeys "receipt.uploaded" := by decide
        exact ⟨_, "FileName", rfl, hk⟩
      · right; exact ⟨_, rfl, rfl, rfl, h0, hmax⟩
      · left
        have hk : ("mime_type", "MimeType") ∈ stringKeys "receipt.uploaded" := by decide
        exact ⟨_, "MimeType", rfl, hk⟩
      · left
        have hk : ("receipt_id", "ReceiptID") ∈ stringKeys "receipt.uploaded" := by decide
        exact ⟨_, "ReceiptID", rfl, hk⟩
  | some id =>
    refine PayloadAgrees_published _
      (PayloadAgrees_of_entries _ (uploadEventData receipt (some id)) rfl hv ?_ ?_ ?_)
    · rw [uploadEventData_some]
      simp only [sortedKeys, Bool.and_eq_true, decide_eq_true_eq, and_true]
      refine ⟨?_, ?_, ?_, ?_⟩ <;> decide
    · simp [supportedEventTypes, EventTypeReceiptUploaded]
    · intro kv hkv
      rw [uploadEventData_some] at hkv
      simp only [List.mem_cons, List.mem_singleton, List.not_mem_nil, or_false] at hkv
      rcases hkv with rfl | rfl | rfl | rfl | rfl
      · left
        have hk : ("expense_id", "ExpenseID") ∈ stringKeys "receipt.uploaded" := by decide
        exact ⟨_, "ExpenseID", rfl, hk⟩
      · left
        have hk : ("file_name", "FileName") ∈ stringKeys "receipt.uploaded" := by decide
        exact ⟨_, "FileName", rfl, hk⟩
      · right; exact ⟨_, rfl, rfl, rfl, h0, hmax⟩
      · left
        have hk : ("mime_type", "MimeType") ∈ stringKeys "receipt.uploaded" := by decide
        exact ⟨_, "MimeType", rfl, hk⟩
      · left
        have hk : ("receipt_id", "ReceiptID") ∈ stringKeys "receipt.uploaded" := by decide
        exact ⟨_, "ReceiptID", rfl, hk⟩

/-- The receipt.linked event agrees. -/
theorem linked_event_agrees (userID email : String) (t : Time)
    (expenseID fileName receiptID : String) (hv : t.valid = true) :
    PayloadAgrees marshalPublishedEvent
      ⟨"receipt.linked", userID, email, t,
        some [("expense_id", GoVal.str expenseID), ("file_name", GoVal.str fileName),
              ("receipt_id", GoVal.str receiptID)]⟩ := by
  refine PayloadAgrees_published _ (PayloadAgrees_of_entries _ _ rfl hv ?_ ?_ ?_)
  · simp only [sortedKeys, Bool.and_eq_true, decide_eq_true_eq, and_true]
    refine ⟨?_, ?_⟩ <;> decide
  · simp [supportedEventTypes, EventTypeReceiptLinked]
  · intro kv hkv
    simp only [List.mem_cons, List.mem_singleton, List.not_mem_nil, or_false] at hkv
    rcases hkv with rfl | rfl | rfl
    · left
      have hk : ("expense_id", "ExpenseID") ∈ stringKeys "receipt.linked" := by decide
      exact ⟨_, "ExpenseID", rfl, hk⟩
    · left
      have hk : ("file_name", "FileName") ∈ stringKeys "receipt.linked" := by decide
      exact ⟨_, "FileName", rfl, hk⟩
    · left
      have hk : ("receipt_id", "ReceiptID") ∈ stringKeys "receipt.linked" := by decide
      exact ⟨_, "ReceiptID", rfl, hk⟩

/-- The user.registered event agrees. -/
theorem registered_event_agrees (userID userEmail : String) (t : Time)
    (email name id : String) (hv : t.valid = true) :
    PayloadAgrees marshalPublishedEvent
      ⟨"user.registered", userID, userEmail, t,
        some [("email", GoVal.str email), ("name", GoVal.str name),
              ("user_id", GoVal.str id)]⟩ := by
  refine PayloadAgrees_published _ (PayloadAgrees_of_entries _ _ rfl hv ?_ ?_ ?_)
  · simp only [sortedKeys, Bool.and_eq_true, decide_eq_true_eq, and_true]
    refine ⟨?_, ?_⟩ <;> decide
  · simp [supportedEventTypes, EventTypeUserRegistered]
  · intro kv hkv
    simp only [List.mem_cons, List.mem_singleton, List.not_mem_nil, or_false] at hkv
    rcases hkv with rfl | rfl | rfl
    · left
      have hk : ("email", "Email") ∈ stringKeys "user.registered" := by decide
      exact ⟨_, "Email", rfl, hk⟩
    · left
      have hk : ("name", "Name") ∈ stringKeys "user.registered" := by decide
      exact ⟨_, "Name", rfl, hk⟩
    · left
      have hk : ("user_id", "UserID") ∈ stringKeys "user.registered" := by decide
      exact ⟨_, "UserID", rfl, hk⟩

/-- The events `CreateExpense` hands over. -/
theorem CreateExpense_events {σ : Type} (svc : ExpenseService σ) (ctx : Context) (s : σ)
    (userID : String) (req : CreateExpenseRequest)
    (hclock : ∀ w, (svc.runtime.Now w).1.valid = true) :
    ∀ e ∈ publishedEvents (svc.CreateExpense ctx userID req s).calls,
      e.EventType = EventTypeExpenseCreated ∧ PayloadAgrees marshalEvent e := by
  intro e he
  unfold ExpenseService.CreateExpense ExpenseService.publishAndRespond at he
  (repeat' (first | split at he | dsimp only at he)) <;>
    simp only [publishedEvents, List.mem_cons, List.mem_singleton, List.not_mem_nil,
      or_false] at he
  subst he
  exact ⟨rfl, expense_event_agrees _ _ _ _ _ (Or.inl rfl) (hclock _)⟩

/-- The events `UpdateExpense` hands over. -/
theorem UpdateExpense_events {σ : Type} (svc : ExpenseService σ) (ctx : Context) (s : σ)
    (expenseID userID : String) (req : UpdateExpenseRequest)
    (hclock : ∀ w, (svc.runtime.Now w).1.valid = true) :
    ∀ e ∈ publishedEvents (svc.UpdateExpense ctx expenseID userID req s).calls,
      e.EventType = EventTypeExpenseUpdated ∧ PayloadAgrees marshalEvent e := by
  intro e he
  unfold ExpenseService.UpdateExpense ExpenseService.publishAndRespond at he
  (repeat' (first | split at he | dsimp only at he)) <;>
    simp only [publishedEvents, List.mem_cons, List.mem_singleton, List.not_mem_nil,
      or_false] at he
  subst he
  exact ⟨rfl, expense_event_agrees _ _ _ _ _ (Or.inr rfl) (hclock _)⟩

/-- The events `UploadReceipt` hands over. -/
theorem UploadReceipt_events {σ : Type} (svc : ReceiptService σ) (ctx : Context) (s : σ)
    (userID : String) (file : List Nat) (filename : String) (fileSize : Int)
    (expenseID : Option String) (hclock : ∀ w, (svc.runtime.Now w).1.valid = true) :
    ∀ e ∈ publishedEvents
        (svc.UploadReceipt ctx userID file filename fileSize expenseID s).calls,
      e.EventType = EventTypeReceiptUploaded ∧
      e.get "file_size" = some (GoVal.int64 fileSize) ∧
      0 < fileSize ∧ fileSize ≤ MaxFileSize ∧ PayloadAgrees marshalPublishedEvent e := by
  intro e he
  unfold ReceiptService.UploadReceipt ReceiptService.storeReceipt at he
  (repeat' (first | split at he | dsimp only at he)) <;>
    simp only [publishedEvents, List.mem_cons, List.mem_singleton, List.not_mem_nil,
      or_false] at he
  all_goals
    subst he
    have h0 : 0 < fileSize := by omega
    have hmax : fileSize ≤ MaxFileSize := by omega
    refine ⟨rfl, ?_, h0, hmax, upload_event_agrees _ _ _ _ _ (hclock _) h0 hmax⟩
    cases expenseID with
    | none => rfl
    | some id =>
      simp only [Event.get]
      rw [uploadEventData_some]
      rfl

/-- The events `LinkToExpense` hands over. -/
theorem LinkToExpense_events {σ : Type} (svc : ReceiptService σ) (ctx : Context) (s : σ)
    (receiptID expenseID userID : String)
    (hclock : ∀ w, (svc.runtime.Now w).1.valid = true) :
    ∀ e ∈ publishedEvents (svc.LinkToExpense ctx receiptID expenseID userID s).calls,
      e.EventType = EventTypeReceiptLinked ∧ PayloadAgrees marshalPublishedEvent e := by
  intro e he
  unfold ReceiptService.LinkToExpense at he
  (repeat' (first | split at he | dsimp only at he)) <;>
    simp only [publishedEvents, List.mem_cons, List.mem_singleton, List.not_mem_nil,
      or_false] at he
  subst he
  exact ⟨rfl, linked_event_agrees _ _ _ _ _ _ (hclock _)⟩

/-- The events `Register` hands over. -/
theorem Register_events {σ : Type} (svc : AuthService σ) (ctx : Context) (s : σ)
    (req : RegisterRequest) (hclock : ∀ w, (svc.runtime.Now w).1.valid = true) :
    ∀ e ∈ publishedEvents (svc.Register ctx req s).calls,
      e.EventType = EventTypeUserRegistered ∧ PayloadAgrees marshalPublishedEvent e := by
  intro e he
  unfold AuthService.Register AuthService.respond at he
  (repeat' (first | split at he | dsimp only at he)) <;>
    simp only [publishedEvents, List.mem_cons, List.mem_singleton, List.not_mem_nil,
      or_false, List.append_eq, List.cons_append, List.nil_append] at he
  all_goals
    subst he
    exact ⟨rfl, registered_event_agrees _ _ _ _ _ _ (hclock _)⟩

/-- C28. Producer and consumer agree on the payload. For `CreateExpense`, `UpdateExpense`,
`UploadReceipt`, `LinkToExpense` and `Register`, with any collaborators and any input,
and clocks that show representable times: every event handed to the publisher has the
event type of the operation; its serialization (for the receipt service and the auth
service the one the spec gives, `marshalPublishedEvent`) succeeds and is read back by
the consumer
as an event of that type, which the dispatcher recognises; and the render data of the
builder of the type holds every payload entry the producer set with the same value, the
strings under the render-data keys and, for receipt.uploaded, the integer `file_size`
of the upload (positive and at most 10 * 1024 * 1024) unchanged under `FileSize`. -/
theorem producer_consumer_agree {σ : Type} (expenseService : ExpenseService σ)
    (receiptService : ReceiptService σ) (authService : AuthService σ) (ctx : Context) (s : σ)
    (hexpense : ∀ w, (expenseService.runtime.Now w).1.valid = true)
    (hreceipt : ∀ w, (receiptService.runtime.Now w).1.valid = true)
    (hauth : ∀ w, (authService.runtime.Now w).1.valid = true) :
    (∀ (userID : String) (req : CreateExpenseRequest),
      ∀ e ∈ publishedEvents (expenseService.CreateExpense ctx userID req s).calls,
        e.EventType = EventTypeExpenseCreated ∧ PayloadAgrees marshalEvent e) ∧
    (∀ (expenseID userID : String) (req : UpdateExpenseRequest),
      ∀ e ∈ publishedEvents (expenseService.UpdateExpense ctx expenseID userID req s).calls,
        e.EventType = EventTypeExpenseUpdated ∧ PayloadAgrees marshalEvent e) ∧
    (∀ (userID : String) (file : List Nat) (filename : String) (fileSize : Int)
        (expenseID : Option String),
      ∀ e ∈ publishedEvents
          (receiptService.UploadReceipt ctx userID file filename fileSize expenseID s).calls,
        e.EventType = EventTypeReceiptUploaded ∧
        e.get "file_size" = some (GoVal.int64 fileSize) ∧
        0 < fileSize ∧ fileSize ≤ MaxFileSize ∧ PayloadAgrees marshalPublishedEvent e) ∧
    (∀ (receiptID expenseID userID : String),
      ∀ e ∈ publishedEvents
          (receiptService.LinkToExpense ctx receiptID expenseID userID s).calls,
        e.EventType = EventTypeReceiptLinked ∧ PayloadAgrees marshalPublishedEvent e) ∧
    (∀ (req : RegisterRequest),
      ∀ e ∈ publishedEvents (authService.Register ctx req s).calls,
        e.EventType = EventTypeUserRegistered ∧ PayloadAgrees marshalPublishedEvent e) :=
  ⟨fun userID req => CreateExpense_events expenseService ctx s userID req hexpense,
   fun expenseID userID req =>
     UpdateExpense_events expenseService ctx s expenseID userID req hexpense,
   fun userID file filename fileSize expenseID =>
     UploadReceipt_events receiptService ctx s userID file filename fileSize expenseID hreceipt,
   fun receiptID expenseID userID =>
     LinkToExpense_events receiptService ctx s receiptID expenseID userID hreceipt,
   fun req => Register_events authService ctx s req hauth⟩

/-- Witness for C28: the upload of `r.pdf`, 1024 bytes, for expense `e1` hands over one
receipt.uploaded event; it agrees, and the render data built from what the consumer
receives holds the file size 1024 and the expense id. -/
theorem producer_consumer_agree_witness :
    publishedEvents
      (pdfReceiptService.UploadReceipt requestContext "u1" [] "r.pdf" 1024 (some "e1") ()).calls
      = [linkedUploadEvent] ∧
    (linkedUploadEvent.EventType = EventTypeReceiptUploaded ∧
      linkedUploadEvent.get "file_size" = some (GoVal.int64 1024) ∧
      (0 : Int) < 1024 ∧ (1024 : Int) ≤ MaxFileSize ∧
      PayloadAgrees marshalPublishedEvent linkedUploadEvent) ∧
    GoMap.get (buildReceiptUploadedData (receivedEvent linkedUploadEvent)) "FileSize"
      = some (GoVal.int64 1024) ∧
    GoMap.get (buildReceiptUploadedData (receivedEvent linkedUploadEvent)) "ExpenseID"
      = some (GoVal.str "e1") :=
  have hp : publishedEvents
      (pdfReceiptService.UploadReceipt requestContext "u1" [] "r.pdf" 1024 (some "e1") ()).calls
      = [linkedUploadEvent] := rfl
  ⟨hp,
   (producer_consumer_agree acceptingExpenseService pdfReceiptService
      (acceptingAuthService Unit) requestContext () (fun _ => rfl) (fun _ => rfl)
      (fun _ => rfl)).2.2.1 "u1" [] "r.pdf" 1024 (some "e1") linkedUploadEvent
      (by rw [hp]; exact List.mem_singleton_self _),
   rfl, rfl⟩

/-! ## Theorems: a batch that holds a message without body -/

/-- A message without body ends the loop over the batch: the messages before it are
processed, the messages behind it are not. -/
theorem processBatch_nil_body {σ : Type} (b : Broker σ) (q : String)
    (handler : MessageHandler σ) (receiptHandle : Option String)
    (before later : List Message) (s : σ) (hbody : ∀ m ∈ before, m.Body ≠ none) :
    processBatch b q handler (before ++ ⟨none, receiptHandle⟩ :: later) s
      = ⟨(processBatch b q handler before s).val ++ [Outcome.panic],
         (processBatch b q handler before s).state,
         (processBatch b q handler before s).calls⟩ := by
  induction before generalizing s with
  | nil =>
    simp only [List.nil_append]
    rw [processBatch_cons, loopBody_eq]
    simp [processBatch]
  | cons message rest ih =>
    have hrest : ∀ m ∈ rest, m.Body ≠ none := fun m hm => hbody m (List.mem_cons_of_mem _ hm)
    have hm := hbody message (List.mem_cons_self _ _)
    have hnp : (loopBody b q handler message s).val ≠ Outcome.panic := by
      rw [loopBody_eq]
      cases hb : message.Body with
      | none => exact absurd hb hm
      | some body =>
        simp only
        cases unwrapBody body with
        | error e => simp
        | ok event =>
          simp only
          cases hh : (handler event s).1 <;> simp
    simp only [List.cons_append]
    rw [processBatch_cons, processBatch_cons, if_neg hnp, if_neg hnp, ih _ hrest]
    simp

/-- The polling loop on a received batch that holds a message without body. -/
theorem ConsumeMessages_nil_body {σ : Type} (b : Broker σ) (q : String)
    (handler : MessageHandler σ) (receiptHandle : Option String)
    (before later : List Message) (fuel : Nat) (s0 s1 : σ)
    (hctx : b.ctxErr s0 = none)
    (hrecv : b.ReceiveMessage q s0 = (some (before ++ ⟨none, receiptHandle⟩ :: later), s1))
    (hbody : ∀ m ∈ before, m.Body ≠ none) :
    ConsumeMessages b q handler (fuel + 1) s0
      = ⟨some LoopEnd.panicked, (processBatch b q handler before s1).state,
         Call.receive q 10 20 30 :: (processBatch b q handler before s1).calls⟩ := by
  rw [ConsumeMessages]
  simp [hctx, hrecv, processBatch_nil_body b q handler receiptHandle before later s1 hbody]

/-- C3, evaluated on the code. A message without body breaks the isolation of the batch.
`processMessage` panics on it (the nil dereference of C26), which ends the loop over the
batch: the messages before it are processed as the claim has it, but the messages behind
it, whatever their bodies, get no outcome, no handler call and no delete; and
`ConsumeMessages`, which has received the batch, ends with the panic. -/
theorem nil_body_breaks_isolation {σ : Type} (b : Broker σ) (queueURL : String)
    (handler : MessageHandler σ) (receiptHandle : Option String)
    (before later : List Message) (s : σ) (hbody : ∀ m ∈ before, m.Body ≠ none) :
    (processBatch b queueURL handler (before ++ ⟨none, receiptHandle⟩ :: later) s).val
      = (processBatch b queueURL handler before s).val ++ [Outcome.panic] ∧
    (processBatch b queueURL handler (before ++ ⟨none, receiptHandle⟩ :: later) s).val.length
      = before.length + 1 ∧
    (processBatch b queueURL handler (before ++ ⟨none, receiptHandle⟩ :: later) s).calls
      = (processBatch b queueURL handler before s).calls ∧
    handlerEvents
      (processBatch b queueURL handler (before ++ ⟨none, receiptHandle⟩ :: later) s).calls
      = before.filterMap unwrappedEvent ∧
    (∀ (fuel : Nat) (s0 : σ), b.ctxErr s0 = none →
      b.ReceiveMessage queueURL s0 = (some (before ++ ⟨none, receiptHandle⟩ :: later), s) →
      (ConsumeMessages b queueURL handler (fuel + 1) s0).val = some LoopEnd.panicked) := by
  obtain ⟨h1, _, h3⟩ := processBatch_bodies b queueURL handler before s hbody
  rw [processBatch_nil_body b queueURL handler receiptHandle before later s hbody]
  refine ⟨rfl, ?_, rfl, h3, ?_⟩
  · simp [h1]
  · intro fuel s0 hctx hrecv
    rw [ConsumeMessages_nil_body b queueURL handler receiptHandle before later fuel s0 s
      hctx hrecv hbody]

/-- Witness for C3: in `brokenBatch` the message without body stands between a message
that is not JSON and a well-formed envelope. The first message gets its parse error, the
second the panic; the envelope, which unwraps into `sampleEvent`, is never handed to the
handler, and the poller ends. -/
theorem nil_body_breaks_isolation_witness :
    unwrappedEvent ⟨some sampleEnvelopeText, some "rh-3"⟩ = some sampleEvent ∧
    (processBatch brokenBatchBroker "queue" idleHandler brokenBatch 1).val
      = [Outcome.error ProcessError.parseSNSEnvelope, Outcome.panic] ∧
    handlerEvents (processBatch brokenBatchBroker "queue" idleHandler brokenBatch 1).calls
      = [] ∧
    (ConsumeMessages brokenBatchBroker "queue" idleHandler 3 0).val
      = some LoopEnd.panicked :=
  have hb : ∀ m ∈ [(⟨some "not json", some "rh-1"⟩ : Message)], m.Body ≠ none := by
    intro m hm
    simp only [List.mem_singleton] at hm
    rw [hm]
    simp
  have h := nil_body_breaks_isolation brokenBatchBroker "queue" idleHandler (some "rh-2")
    [⟨some "not json", some "rh-1"⟩] [⟨some sampleEnvelopeText, some "rh-3"⟩] 1 hb
  ⟨by rfl, h.1.trans (by decide), h.2.2.2.1.trans (by rfl), h.2.2.2.2 2 0 rfl rfl⟩

/-- C16, evaluated on the code. The cancellation signal is read only at the top of the
polling loop: the processing of a received batch is the same whatever the context
reports. But a received batch is not always processed to its end, and `ConsumeMessages`
does not only return from the loop-top check: a message without body makes
`processMessage` panic (the nil dereference of C26), the messages behind it in the batch
are not processed, and `ConsumeMessages` ends there with the panic, without a further
loop-top check and with no context error returned, whether or not the context has been
cancelled in the meantime. -/
theorem nil_body_ends_poller {σ : Type} (b : Broker σ) (queueURL : String)
    (handler : MessageHandler σ) (receiptHandle : Option String)
    (before later : List Message) (fuel : Nat) (s0 s1 : σ)
    (hctx : b.ctxErr s0 = none)
    (hrecv : b.ReceiveMessage queueURL s0
      = (some (before ++ ⟨none, receiptHandle⟩ :: later), s1))
    (hbody : ∀ m ∈ before, m.Body ≠ none) :
    (∀ ctxErr1 : σ → Option String,
      processBatch ⟨b.ReceiveMessage, b.DeleteMessage, ctxErr1, b.sleep⟩ queueURL handler
        (before ++ ⟨none, receiptHandle⟩ :: later) s1
        = processBatch b queueURL handler (before ++ ⟨none, receiptHandle⟩ :: later) s1) ∧
    ConsumeMessages b queueURL handler (fuel + 1) s0
      = ⟨some LoopEnd.panicked, (processBatch b queueURL handler before s1).state,
         Call.receive queueURL 10 20 30 :: (processBatch b queueURL handler before s1).calls⟩ ∧
    handlerEvents (ConsumeMessages b queueURL handler (fuel + 1) s0).calls
      = before.filterMap unwrappedEvent ∧
    (∀ err : String,
      (ConsumeMessages b queueURL handler (fuel + 1) s0).val ≠ some (LoopEnd.returned err)) := by
  have hc := ConsumeMessages_nil_body b queueURL handler receiptHandle before later fuel s0 s1
    hctx hrecv hbody
  obtain ⟨_, _, h3⟩ := processBatch_bodies b queueURL handler before s1 hbody
  refine ⟨fun c => processBatch_ctxErr b c queueURL handler _ s1, hc, ?_, ?_⟩
  · rw [hc]
    simp [handlerEvents, h3]
  · intro err
    rw [hc]
    simp

/-- Witness for C16: `cancellingNilBodyBroker` delivers an envelope, a message without
body and a wrapped envelope, and its context is cancelled once the receive has returned.
The first envelope is dispatched and deleted; the wrapped envelope, which unwraps into
`sampleEvent`, is never dispatched; and the poller ends with the panic, not with
`context canceled`. -/
theorem nil_body_ends_poller_witness :
    cancellingNilBodyBroker.ctxErr 0 = none ∧
    cancellingNilBodyBroker.ctxErr 1 = some "context canceled" ∧
    unwrappedEvent ⟨some sampleWrappedText, some "rh-3"⟩ = some sampleEvent ∧
    (ConsumeMessages cancellingNilBodyBroker "queue" idleHandler 2 0).val
      = some LoopEnd.panicked ∧
    (ConsumeMessages cancellingNilBodyBroker "queue" idleHandler 2 0).calls
      = [Call.receive "queue" 10 20 30, Call.handler sampleEvent,
         Call.deleteMessage "queue" (some "rh-1")] :=
  have hb : ∀ m ∈ [(⟨some sampleEnvelopeText, some "rh-1"⟩ : Message)], m.Body ≠ none := by
    intro m hm
    simp only [List.mem_singleton] at hm
    rw [hm]
    simp
  have h := (nil_body_ends_poller cancellingNilBodyBroker "queue" idleHandler (some "rh-2")
    [⟨some sampleEnvelopeText, some "rh-1"⟩] [⟨some sampleWrappedText, some "rh-3"⟩] 1 0 1
    rfl rfl hb).2.1
  ⟨rfl, rfl, by rfl, by rw [h], by rw [h]; rfl⟩

end Pipeline
